import Mathlib

/-!
# uqexpr: line classification and variable environment

A shallow embedding of `uqexpr.c` and the properties of its validators, its
variable store, its line dispatcher and its command-line initialiser.

Modelling conventions.

* A C string is the list of the characters that precede its terminating NUL
  (`CStr`).  A pointer that may be `NULL` is an `Option`.
* The `int`s of the program that hold the length of a string or of an array,
  or a counter over one, are unbounded integers here: the model describes the
  program on strings and arrays of fewer than `2^31` elements.
* `double` is `Double`: a finite value is the rational number it denotes, and
  there are two infinities and a NaN.  The program never does arithmetic on
  doubles: it parses, compares, stores and prints them.
* The C library (`strtod`, `fopen`) and the tinyexpr evaluator are not part of
  the program: definitions take them as arguments.
* A function in which the C program can dereference `NULL` or write past an
  array returns an `Option`; `none` is that undefined behaviour.
* `malloc`, `realloc` and `strdup` are taken to succeed.
-/

namespace Uqexpr

/-! ## Characters, strings and doubles -/

/-- A C string: the characters before the terminating NUL. -/
abbrev CStr := List Char

/-- The function `strlen` of the C library. -/
def strlen (s : CStr) : Int := s.length

/-- The function `isalpha` of the C library in the "C" locale (the program never
calls `setlocale`): the 52 ASCII letters. -/
def isalpha (c : Char) : Bool :=
  (65 ≤ c.toNat && c.toNat ≤ 90) || (97 ≤ c.toNat && c.toNat ≤ 122)

/-- The function `isspace` of the C library in the "C" locale: space, `\t`, `\n`,
`\v`, `\f` and `\r`. -/
def isspace (c : Char) : Bool :=
  c.toNat = 32 || (9 ≤ c.toNat && c.toNat ≤ 13)

/-- The function `isdigit` of the C library. -/
def isdigit (c : Char) : Bool :=
  48 ≤ c.toNat && c.toNat ≤ 57

/-- The values of the C type `double`, as far as comparison can tell them
apart: NaN, the two infinities, and the finite values, each given by the
rational number it denotes (the two zeros compare equal in C and are one value
here). -/
inductive Double where
  | nan
  | ninf
  | fin (q : ℚ)
  | pinf
  deriving DecidableEq

namespace Double

/-- The C macro `isnan`. -/
def isnan : Double → Bool
  | nan => true
  | _ => false

/-- The C operator `<` on doubles: false as soon as an operand is NaN. -/
def lt : Double → Double → Bool
  | fin a, fin b => decide (a < b)
  | ninf, fin _ => true
  | ninf, pinf => true
  | fin _, pinf => true
  | _, _ => false

/-- The C operator `==` on doubles: NaN is equal to nothing, itself included. -/
def eq : Double → Double → Bool
  | fin a, fin b => decide (a = b)
  | ninf, ninf => true
  | pinf, pinf => true
  | _, _ => false

/-- The C operator `<=` on doubles. -/
def le (a b : Double) : Bool := lt a b || eq a b

/-- The C operator `>` on doubles. -/
def gt (a b : Double) : Bool := lt b a

/-- The C operator `>=` on doubles. -/
def ge (a b : Double) : Bool := le b a

/-- The C operator `!=` on doubles. -/
def ne (a b : Double) : Bool := !eq a b

/-- The double `0.0`. -/
def zero : Double := fin 0

end Double

/-! ## Constants of the program -/

def USAGE_CODE : Int := 12
def INVALID_VARIABLES_CODE : Int := 4
def DUPLICATE_NAME_CODE : Int := 18
def FILE_READ_CODE : Int := 19
def DEFAULT_SIG_FIGURES : Int := 3
def SIG_FIGURES_MIN : Int := 2
def SIG_FIGURES_MAX : Int := 9
def DEF_TOKEN_SIZE : Nat := 3
def LOOP_TOKEN_SIZE : Nat := 5
def LOOP_VARIABLE_SIZE : Int := 4
def ASSIGNMENT_TOKEN_SIZE : Nat := 2
def VARIABLE_NAME_MIN : Int := 1
def VARIABLE_NAME_MAX : Int := 20
def VARIABLE_NAME_SIZE : Nat := 21
def START : Nat := 1
def INCREMENT : Nat := 2
def END : Nat := 3
def LOOP_VALUES_SIZE : Nat := 3

/-! ## Validators -/

/-- The `for` loop of `valid_variable_name`: 0 at the first character that is
not a letter, 1 when the end of the string is reached. -/
def valid_variable_name_loop : CStr → Int
  | [] => 1
  | c :: rest => if !isalpha c then 0 else valid_variable_name_loop rest

/-- The function `valid_variable_name`: 1 when the name has between 1 and 20
characters and all of them are letters, 0 otherwise. -/
def valid_variable_name (variableName : CStr) : Int :=
  let length : Int := strlen variableName
  if length < VARIABLE_NAME_MIN ∨ length > VARIABLE_NAME_MAX then 0
  else valid_variable_name_loop variableName

/-- The function `strcmp` of the C library: 0 when the two strings are equal,
otherwise negative or positive as the first string comes before or after the
second (-1 and 1 here: the program only compares the result with 0). -/
def strcmp : CStr → CStr → Int
  | [], [] => 0
  | [], _ :: _ => -1
  | _ :: _, [] => 1
  | a :: as, b :: bs =>
    if a = b then strcmp as bs else if a.toNat < b.toNat then -1 else 1

/-- The type of the C library's `strtod`, an argument of the definitions that
call it: `strtod nptr = (value, n)` stands for a call that returns `value` and
sets `endptr` to `nptr + n`. -/
abbrev Strtod := CStr → Double × Nat

/-- The function `valid_double`: 1 when `strtod` stops at the terminating NUL
of the string (`*endptr == 0`), 0 otherwise. -/
def valid_double (strtod : Strtod) (value : CStr) : Int :=
  let endptr := value.drop (strtod value).2
  if endptr = [] then 1 else 0

/-- The function `atof` of the C library: `strtod(nptr, NULL)`. -/
def atof (strtod : Strtod) (nptr : CStr) : Double := (strtod nptr).1

/-- The entry `tokens[i]` of an array of string pointers: `none` when the
pointer is `NULL` (or the index is outside the array). -/
def token (tokens : List (Option CStr)) (i : Nat) : Option CStr :=
  (tokens.get? i).join

/-- The function `validate_loop_tokens`.  The result is `none` when the
function reads through a `NULL` token. -/
def validate_loop_tokens (strtod : Strtod) (tokens : List (Option CStr)) (count : Int) :
    Option Int :=
  -- Must have 4 tokens
  if count ≠ LOOP_VARIABLE_SIZE then some 0
  else
    -- Name must be valid
    match token tokens 0 with
    | none => none
    | some name =>
      if valid_variable_name name = 0 then some 0
      else
        -- Start, increment, and end variables must be valid doubles
        match token tokens START with
        | none => none
        | some startText =>
          if valid_double strtod startText = 0 then some 0
          else
            match token tokens INCREMENT with
            | none => none
            | some incrementText =>
              if valid_double strtod incrementText = 0 then some 0
              else
                match token tokens END with
                | none => none
                | some endText =>
                  if valid_double strtod endText = 0 then some 0
                  else
                    let start := atof strtod startText
                    let increment := atof strtod incrementText
                    let end_ := atof strtod endText
                    if Double.eq increment Double.zero then some 0
                    else if Double.lt start end_ && Double.le increment Double.zero then some 0
                    else if Double.gt start end_ && Double.ge increment Double.zero then some 0
                    else some 1

/-! ## Token splitting -/

/-- One call of the C library's `strtok` with the one-character delimiter set
`delim`, on the text that is left to scan: `none` is the `NULL` result (only
delimiters are left), otherwise the token found (the leading delimiters are
skipped, the token runs up to the next delimiter) and the text after the
delimiter that ends it. -/
def strtok (rest : CStr) (delim : Char) : Option (CStr × CStr) :=
  let s := rest.dropWhile (fun c => c == delim)
  if s = [] then none
  else some (s.takeWhile (fun c => c != delim), (s.dropWhile (fun c => c != delim)).drop 1)

/-- The token loop that `def_handler`, `loop_handler` and `assignment_handler`
repeat: `while (myptr != NULL && count < size) ...`, with `size` the
number of array slots that are still free.  The result lists the tokens stored,
`tokens[0]` first; `count` is its length. -/
def token_loop (delim : Char) : Nat → CStr → List CStr
  | 0, _ => []
  | size + 1, rest =>
    match strtok rest delim with
    | none => []
    | some (myptr, rest') => myptr :: token_loop delim size rest'

/-- The array `tokens` after the token loop: the tokens stored, then `NULL` in
the slots that were not written. -/
def token_array (size : Nat) (stored : List CStr) : List (Option CStr) :=
  stored.map some ++ List.replicate (size - stored.length) none

/-- The function `delim_check`: for `,` the string must hold exactly 3 commas,
for `=` exactly one equals sign; any other delimiter passes. -/
def delim_check (string : CStr) (delim : Char) : Int :=
  if delim = ',' then
    if (string.count ',' : Int) ≠ LOOP_VALUES_SIZE then 0 else 1
  else if delim = '=' then
    if (string.count '=' : Int) ≠ 1 then 0 else 1
  else 1

/-! ## Variable store -/

/-- The struct `Def`: a scalar variable. -/
structure Def where
  name : CStr
  value : Double
  deriving DecidableEq

/-- The struct `Loop`: a loop variable (the field `end` is `end_` here). -/
structure Loop where
  name : CStr
  start : Double
  increment : Double
  end_ : Double
  deriving DecidableEq

/-- The two arrays `defs` and `loops` that every function of the program is
handed (with their sizes, which are the lengths of the lists). -/
structure Environment where
  defs : List Def
  loops : List Loop
  deriving DecidableEq

/-- What the program writes: each constructor is one `printf` or `fprintf`
call, with the arguments of its format. -/
inductive Output where
  /-- Case `printf(text)` of a constant text. -/
  | stdout (text : String)
  /-- Case `fprintf(stderr, text)` of a constant text. -/
  | stderr (text : String)
  /-- Case `printf("Result = %.<sigFigures>g\n", value)`. -/
  | result (sigFigures : Int) (value : Double)
  /-- Case `printf("%s = %.<sigFigures>g\n", name, value)`. -/
  | scalar (sigFigures : Int) (name : CStr) (value : Double)
  /-- Case `printf("%s = %.<s>g (%.<s>g, %.<s>g, %.<s>g)\n", name, v, start, increment, end)`. -/
  | loopVariable (sigFigures : Int) (name : CStr) (v start increment end_ : Double)
  /-- Case `fprintf(stderr, fileReadError, fileName)`. -/
  | fileRead (fileName : CStr)
  deriving DecidableEq

def usageError : String :=
  "Usage: ./uqexpr [--sigfigures 2..9] [--forloop string] [--def string] [inputfilename]\n"
def invalidVariablesError : String :=
  "uqexpr: invalid variable(s) specified on the command line\n"
def duplicateNameError : String := "uqexpr: one or more variables are duplicated\n"
def runningError : String :=
  "Error in command, expression or assignment operation detected\n"
def print : CStr := "@print".toList
def def_ : CStr := "--def".toList
def loop : CStr := "--forloop".toList
def sig : CStr := "--sigfigures".toList

/-- The function `add_def`: a new `Def` at the end of the array. -/
def add_def (defs : List Def) (name : CStr) (value : Double) : List Def :=
  defs ++ [{ name := name, value := value }]

/-- The function `add_loop`: a new `Loop` at the end of the array. -/
def add_loop (loops : List Loop) (name : CStr) (start increment end_ : Double) : List Loop :=
  loops ++ [{ name := name, start := start, increment := increment, end_ := end_ }]

/-- The first `for` loop of `handle_new_variable`: whether some loop variable
has the name. -/
def loop_named (name : CStr) : List Loop → Bool
  | [] => false
  | l :: rest => if strcmp l.name name = 0 then true else loop_named name rest

/-- The second `for` loop of `handle_new_variable`: the first `Def` with the
name gets the value; `none` when the loop ends without a match. -/
def overwrite_def (name : CStr) (value : Double) : List Def → Option (List Def)
  | [] => none
  | d :: rest =>
    if strcmp d.name name = 0 then some ({ d with value := value } :: rest)
    else (overwrite_def name value rest).map (fun rest' => d :: rest')

/-- The function `handle_new_variable` (the `assign` of the specification):
the new state of the two arrays and what is printed. -/
def handle_new_variable (env : Environment) (name : CStr) (value : Double)
    (sigFigures : Int) : Environment × List Output :=
  -- Successful assignment is always printed
  let out := [Output.scalar sigFigures name value]
  -- If there is a loop variable with this name, do nothing
  if env.loops.length ≠ 0 ∧ loop_named name env.loops = true then (env, out)
  -- If there are no defs, add this one
  else if env.defs.length = 0 then ({ env with defs := add_def env.defs name value }, out)
  else
    -- If a def with the same name already exists, overwrite it
    match overwrite_def name value env.defs with
    | some defs' => ({ env with defs := defs' }, out)
    -- If every check is passed, add the new def
    | none => ({ env with defs := add_def env.defs name value }, out)

/-- The nested loops of `unique_name_check` over the array `names`: 0 at the
first pair of equal names, 1 when there is none. -/
def unique_name_check_loop : List CStr → Int
  | [] => 1
  | n :: rest =>
    if rest.any (fun m => strcmp n m = 0) then 0 else unique_name_check_loop rest

/-- The names of the environment in the order `unique_name_check` copies them:
the scalar names, then the loop names. -/
def Environment.names (env : Environment) : List CStr :=
  env.defs.map (fun d => d.name) ++ env.loops.map (fun l => l.name)

/-- The function `unique_name_check`.  Each name is copied with `strcpy` into
a row of `VARIABLE_NAME_SIZE` characters: the result is `none` when a name and
its terminating NUL do not fit in a row. -/
def unique_name_check (env : Environment) : Option Int :=
  let names := env.names
  if names.any (fun n => decide (VARIABLE_NAME_SIZE ≤ n.length)) then none
  else some (unique_name_check_loop names)

/-! ## Evaluation bridge -/

/-- The struct `te_variable` of tinyexpr as `tiny_expr` fills it: a name and
the address of a value, which is the value the evaluator reads there. -/
structure te_variable where
  name : CStr
  value : Double
  deriving DecidableEq

/-- The type of the tinyexpr library, an argument of the definitions that call
it: `te expression teVars` is `none` when `te_compile` returns `NULL`, and
otherwise the value `te_eval` returns for the compiled expression. -/
abbrev Evaluator := CStr → List te_variable → Option Double

/-- The function `tiny_expr`: NaN when the expression does not compile, else
its value.  The expression is a pointer: the result is `none` when it is
`NULL`, which `te_compile` dereferences. -/
def tiny_expr (te : Evaluator) (expression : Option CStr) (defs : List Def) : Option Double :=
  match expression with
  | none => none
  | some text =>
    -- Create an array of te_variable using the provided defs
    let teVars : List te_variable := defs.map (fun d => { name := d.name, value := d.value })
    match te text teVars with
    | none => some Double.nan
    | some result => some result

/-! ## Line classifier and dispatcher -/

/-- The function `expression_handler`: what is printed. -/
def expression_handler (te : Evaluator) (strippedLine : CStr) (defs : List Def)
    (sigFigures : Int) : Option (List Output) :=
  match tiny_expr te (some strippedLine) defs with
  | none => none
  | some result =>
    if result.isnan then some [Output.stderr runningError]
    else some [Output.result sigFigures result]

/-- The function `assignment_handler`: the new environment and what is
printed; `none` when a `NULL` token is dereferenced. -/
def assignment_handler (te : Evaluator) (strippedLine : CStr) (env : Environment)
    (sigFigures : Int) : Option (Environment × List Output) :=
  -- Split up string based on '='
  let stored := token_loop '=' ASSIGNMENT_TOKEN_SIZE strippedLine
  let tokens := token_array ASSIGNMENT_TOKEN_SIZE stored
  -- check if expression is valid and store it
  match tiny_expr te (token tokens 1) env.defs with
  | none => none
  | some result =>
    if result.isnan then some (env, [Output.stderr runningError])
    else
      -- check if variable name is allowed
      match token tokens 0 with
      | none => none
      | some name =>
        if valid_variable_name name = 0 then some (env, [Output.stderr runningError])
        else some (handle_new_variable env name result sigFigures)

/-- The first loop of `variable_print`: one line for each scalar variable. -/
def variable_print_defs (sigFigures : Int) : List Def → List Output
  | [] => []
  | d :: rest => Output.scalar sigFigures d.name d.value :: variable_print_defs sigFigures rest

/-- The second loop of `variable_print`: one line for each loop variable (its
start value is printed twice). -/
def variable_print_loops (sigFigures : Int) : List Loop → List Output
  | [] => []
  | l :: rest =>
    Output.loopVariable sigFigures l.name l.start l.start l.increment l.end_
      :: variable_print_loops sigFigures rest

/-- The function `variable_print`. -/
def variable_print (env : Environment) (sigFigures : Int) : List Output :=
  (if env.defs.length = 0 then [Output.stdout "There are no variables.\n"]
   else Output.stdout "Variables:\n" :: variable_print_defs sigFigures env.defs)
  ++
  (if env.loops.length = 0 then [Output.stdout "No loop variables were found.\n"]
   else Output.stdout "Loop variables:\n" :: variable_print_loops sigFigures env.loops)

/-- The whitespace-stripping loop of `line_handler`: the characters of the
line that are not white space, in order. -/
def strip_line : CStr → CStr
  | [] => []
  | c :: rest => if !isspace c then c :: strip_line rest else strip_line rest

/-- The counting loop of `line_handler`: the number of `=` among the characters
it is given (those of the stripped line from index 1 on). -/
def count_equals : CStr → Int
  | [] => 0
  | c :: rest => if c = '=' then count_equals rest + 1 else count_equals rest

/-- The function `line_handler`: the new environment and what is printed;
`none` when the line makes `assignment_handler` dereference `NULL`. -/
def line_handler (te : Evaluator) (line : CStr) (env : Environment) (sigFigures : Int) :
    Option (Environment × List Output) :=
  -- Strip white space before processing line
  let strippedLine := strip_line line
  -- Ignore lines that are commented out or blank
  if strippedLine.head? = some '#' ∨ strippedLine = [] then some (env, [])
  -- If line == @print, run initial_print
  else if strcmp line print = 0 then some (env, variable_print env sigFigures)
  else
    -- Determine if the line is an assignment or an expression by counting the
    -- number of '=' present
    let equalsCounter := count_equals (strippedLine.drop 1)
    if equalsCounter > 1 then some (env, [Output.stderr runningError])
    else if equalsCounter = 0 then
      (expression_handler te strippedLine env.defs sigFigures).map (fun out => (env, out))
    else if equalsCounter = 1 then
      assignment_handler te strippedLine env sigFigures
    else some (env, [])

/-- The reading loop of `file_handler` and of `main`: `line_handler` on each
line in turn, with the output of all of them. -/
def file_handler (te : Evaluator) : List CStr → Environment → Int →
    Option (Environment × List Output)
  | [], env, _ => some (env, [])
  | line :: rest, env, sigFigures =>
    match line_handler te line env sigFigures with
    | none => none
    | some (env', out) =>
      match file_handler te rest env' sigFigures with
      | none => none
      | some (env'', out') => some (env'', out ++ out')

/-! ## Requests to the evaluator

The calls of `te_compile` that the functions above make, in the order in which
they make them.  Each function makes its calls before it looks at a result of
the evaluator, so the calls do not depend on the evaluator. -/

/-- One call of `te_compile`: the expression (a pointer, `none` when it is
`NULL`) and the variable table. -/
structure te_request where
  expression : Option CStr
  teVars : List te_variable
  deriving DecidableEq

/-- The calls of `te_compile` in `tiny_expr`: one, with the expression it was
given and the table it fills from `defs`. -/
def tiny_expr_requests (expression : Option CStr) (defs : List Def) : List te_request :=
  [{ expression := expression,
     teVars := defs.map (fun d => { name := d.name, value := d.value }) }]

/-- The calls of `te_compile` in `expression_handler`: those of its call of
`tiny_expr` on the stripped line. -/
def expression_handler_requests (strippedLine : CStr) (defs : List Def) : List te_request :=
  tiny_expr_requests (some strippedLine) defs

/-- The calls of `te_compile` in `assignment_handler`: those of its call of
`tiny_expr` on `tokens[1]`. -/
def assignment_handler_requests (strippedLine : CStr) (env : Environment) : List te_request :=
  let stored := token_loop '=' ASSIGNMENT_TOKEN_SIZE strippedLine
  let tokens := token_array ASSIGNMENT_TOKEN_SIZE stored
  tiny_expr_requests (token tokens 1) env.defs

/-- The calls of `te_compile` in `line_handler`: none on the paths that return
before a handler is called, else those of the handler. -/
def line_handler_requests (line : CStr) (env : Environment) : List te_request :=
  let strippedLine := strip_line line
  if strippedLine.head? = some '#' ∨ strippedLine = [] then []
  else if strcmp line print = 0 then []
  else
    let equalsCounter := count_equals (strippedLine.drop 1)
    if equalsCounter > 1 then []
    else if equalsCounter = 0 then expression_handler_requests strippedLine env.defs
    else if equalsCounter = 1 then assignment_handler_requests strippedLine env
    else []

/-! ## Command-line initialiser -/

/-- The function `loop_handler`: its return value and the array `loops`
afterwards; `none` when a `NULL` token is dereferenced. -/
def loop_handler (strtod : Strtod) (variable_ : CStr) (loops : List Loop) :
    Option (Int × List Loop) :=
  -- Ensure there is an appropriate number of seperators
  if delim_check variable_ ',' = 0 then some (0, loops)
  else
    -- Split the string into 5 tokens (5th token is to detect invalid inputs)
    let stored := token_loop ',' LOOP_TOKEN_SIZE variable_
    let tokens := token_array LOOP_TOKEN_SIZE stored
    let count : Int := stored.length
    -- Validate tokens
    match validate_loop_tokens strtod tokens count with
    | none => none
    | some valid =>
      if valid = 0 then some (0, loops)
      else
        -- If valid add them to tokens
        match token tokens 0, token tokens START, token tokens INCREMENT, token tokens END with
        | some name, some startText, some incrementText, some endText =>
          some (1, add_loop loops name (atof strtod startText) (atof strtod incrementText)
            (atof strtod endText))
        | _, _, _, _ => none

/-- The function `def_handler`: its return value and the array `defs`
afterwards; `none` when a `NULL` token is dereferenced. -/
def def_handler (strtod : Strtod) (variable_ : CStr) (defs : List Def) :
    Option (Int × List Def) :=
  -- Ensure there is an appropriate number of seperators
  if delim_check variable_ '=' = 0 then some (0, defs)
  else
    -- Split the string into 3 tokens (3rd token is to detect invalid inputs)
    let stored := token_loop '=' DEF_TOKEN_SIZE variable_
    let tokens := token_array DEF_TOKEN_SIZE stored
    let count : Int := stored.length
    -- Must have 2 tokens
    if count ≠ 2 then some (0, defs)
    else
      match token tokens 0, token tokens 1 with
      | some name, some valueText =>
        -- Validate name
        if valid_variable_name name = 0 then some (0, defs)
        -- Value must be a double
        else if valid_double strtod valueText = 0 then some (0, defs)
        else some (1, add_def defs name (atof strtod valueText))
      | _, _ => none

/-- How the start of the program ends: with undefined behaviour, with a call
of `exit`, or by reaching the end of `check_validity`. -/
inductive Startup (α : Type) where
  | undefined
  | exit (status : Int)
  | ok (value : α)
  deriving DecidableEq

/-- The variables of `main` that `check_validity` fills. -/
structure Settings where
  env : Environment
  sigFigures : Int
  filePresent : Int
  deriving DecidableEq

/-- The variables of `main` when it calls `check_validity`: no variable, 3
significant figures, no file. -/
def Settings.initial : Settings :=
  { env := { defs := [], loops := [] }, sigFigures := DEFAULT_SIG_FIGURES, filePresent := 0 }

/-- The function `sig_handler`, called on the argument after `--sigfigures`:
the new `sigCount` and `sigFigures`, or the exit. -/
def sig_handler (sigCount : Int) (input : CStr) : Startup (Int × Int) :=
  -- Increment SIG argument count
  let sigCount := sigCount + 1
  -- Ensure multiple --sig arguments are not used
  if sigCount > 1 then Startup.exit USAGE_CODE
  else
    -- Check if the input is a valid single-digit integer between 2-9
    let input0 : Int := match input with
      | [] => 0
      | c :: _ => c.toNat
    if input0 - 48 ≥ SIG_FIGURES_MIN ∧ input0 - 48 ≤ SIG_FIGURES_MAX ∧ input.drop 1 = [] then
      Startup.ok (sigCount, input0 - 48)
    else Startup.exit USAGE_CODE

/-- The function `file_validator`: the new `filePresent`, or the exit.  The
argument `fopen` tells whether the C library's `fopen(fileName, "r")` succeeds. -/
def file_validator (fopen : CStr → Bool) (fileName : CStr) : Startup Int :=
  -- Files cannot start with '--'
  if fileName.head? = some '-' ∧ (fileName.drop 1).head? = some '-' then Startup.exit USAGE_CODE
  else if !fopen fileName then Startup.exit FILE_READ_CODE
  else Startup.ok 1

/-- The `while` loop of `check_validity`, on the arguments `argv[count]`,
`argv[count + 1]`, ... that are left. -/
def check_validity_loop (strtod : Strtod) (fopen : CStr → Bool) :
    List CStr → Settings → Int → Startup Settings
  | [], st, _ => Startup.ok st
  | arg :: rest, st, sigCount =>
    if strcmp arg def_ = 0 then
      match rest with
      | [] => Startup.exit USAGE_CODE
      | value :: rest' =>
        match def_handler strtod value st.env.defs with
        | none => Startup.undefined
        | some (r, defs') =>
          if r = 0 then Startup.exit INVALID_VARIABLES_CODE
          else check_validity_loop strtod fopen rest'
            { st with env := { st.env with defs := defs' } } sigCount
    else if strcmp arg loop = 0 then
      match rest with
      | [] => Startup.exit USAGE_CODE
      | value :: rest' =>
        match loop_handler strtod value st.env.loops with
        | none => Startup.undefined
        | some (r, loops') =>
          if r = 0 then Startup.exit INVALID_VARIABLES_CODE
          else check_validity_loop strtod fopen rest'
            { st with env := { st.env with loops := loops' } } sigCount
    else if strcmp arg sig = 0 then
      match rest with
      | [] => Startup.exit USAGE_CODE
      | value :: rest' =>
        match sig_handler sigCount value with
        | Startup.ok (sigCount', sigFigures') =>
          check_validity_loop strtod fopen rest' { st with sigFigures := sigFigures' } sigCount'
        | Startup.exit status => Startup.exit status
        | Startup.undefined => Startup.undefined
    else
      -- If there is an input that isn't sig, loop, or def at the end, it
      -- will be treated as a file
      match rest with
      | [] =>
        match file_validator fopen arg with
        | Startup.ok filePresent' => Startup.ok { st with filePresent := filePresent' }
        | Startup.exit status => Startup.exit status
        | Startup.undefined => Startup.undefined
      | _ :: _ => Startup.exit USAGE_CODE

/-- The function `check_validity` on the arguments `argv` (`argv[0]` is the
program's name) and the variables of `main`. -/
def check_validity (strtod : Strtod) (fopen : CStr → Bool) (argv : List CStr)
    (st : Settings) : Startup Settings :=
  match check_validity_loop strtod fopen (argv.drop 1) st 0 with
  | Startup.ok st' =>
    -- Check that variables all have unique names
    match unique_name_check st'.env with
    | none => Startup.undefined
    | some unique => if unique = 0 then Startup.exit DUPLICATE_NAME_CODE else Startup.ok st'
  | Startup.exit status => Startup.exit status
  | Startup.undefined => Startup.undefined

/-! ## A model of the C library's `strtod`

The theorems hold for every `strtod`.  Where a statement is evaluated on a
concrete command line, `strtod` is the function below, which follows the
grammar of the C standard (7.22.1.3): white space, a sign, then a decimal or
hexadecimal floating constant, `inf`, `infinity`, `nan` or `nan(...)`.  It
returns the exact value of the constant; the rounding to the nearest `double`
is not modelled, so it gives the value of the C function on the constants a
`double` represents exactly. -/

/-- The value of a decimal or hexadecimal digit. -/
def digit_value (c : Char) : Nat :=
  if isdigit c then c.toNat - 48
  else if 97 ≤ c.toNat ∧ c.toNat ≤ 102 then c.toNat - 87
  else if 65 ≤ c.toNat ∧ c.toNat ≤ 70 then c.toNat - 55
  else 0

/-- The function `isxdigit` of the C library. -/
def isxdigit (c : Char) : Bool :=
  isdigit c || (97 ≤ c.toNat && c.toNat ≤ 102) || (65 ≤ c.toNat && c.toNat ≤ 70)

/-- The number a sequence of digits writes in a base. -/
def digits_value (base : Nat) (digits : CStr) : Nat :=
  digits.foldl (fun acc c => acc * base + digit_value c) 0

/-- The function `tolower` of the C library in the "C" locale. -/
def tolower (c : Char) : Char :=
  if 65 ≤ c.toNat ∧ c.toNat ≤ 90 then Char.ofNat (c.toNat + 32) else c

/-- An exponent part: the marker (`e` or `p`, in either case), an optional
sign and at least one decimal digit.  The result is the exponent and the number
of characters read, `(0, 0)` when there is no exponent part. -/
def strtod_exponent (marker : Char) (s : CStr) : Int × Nat :=
  match s with
  | [] => (0, 0)
  | c :: rest =>
    if tolower c = marker then
      match rest with
      | '-' :: rest' =>
        let digits := rest'.takeWhile isdigit
        if digits = [] then (0, 0) else (- (digits_value 10 digits : Int), 2 + digits.length)
      | '+' :: rest' =>
        let digits := rest'.takeWhile isdigit
        if digits = [] then (0, 0) else ((digits_value 10 digits : Int), 2 + digits.length)
      | _ =>
        let digits := rest.takeWhile isdigit
        if digits = [] then (0, 0) else ((digits_value 10 digits : Int), 1 + digits.length)
    else (0, 0)

/-- A sequence of digits with at most one radix point and an optional exponent
part: the value and the number of characters read, `none` when there is no
digit. -/
def strtod_number (base : Nat) (isDigit : Char → Bool) (marker : Char) (expBase : ℚ)
    (s : CStr) : Option (Double × Nat) :=
  let whole := s.takeWhile isDigit
  let afterWhole := s.drop whole.length
  let fraction := match afterWhole with
    | '.' :: rest => rest.takeWhile isDigit
    | _ => []
  let point := match afterWhole with
    | '.' :: _ => 1
    | _ => 0
  if whole.length + fraction.length = 0 then none
  else
    let mantissa : ℚ := (digits_value base (whole ++ fraction) : ℚ) / (base : ℚ) ^ fraction.length
    let read := whole.length + point + fraction.length
    let exponent := strtod_exponent marker (s.drop read)
    some (Double.fin (mantissa * expBase ^ exponent.1), read + exponent.2)

/-- The subject sequence of `strtod` after the sign. -/
def strtod_subject (s : CStr) : Option (Double × Nat) :=
  let lower := s.map tolower
  if "infinity".toList.isPrefixOf lower then some (Double.pinf, 8)
  else if "inf".toList.isPrefixOf lower then some (Double.pinf, 3)
  else if "nan".toList.isPrefixOf lower then
    match s.drop 3 with
    | '(' :: rest =>
      let chars := rest.takeWhile (fun c => isalpha c || isdigit c || c = '_')
      if (rest.drop chars.length).head? = some ')' then some (Double.nan, 5 + chars.length)
      else some (Double.nan, 3)
    | _ => some (Double.nan, 3)
  else
    let hex := match s with
      | '0' :: x :: rest =>
        if tolower x = 'x' then
          (strtod_number 16 isxdigit 'p' 2 rest).map (fun r => (r.1, r.2 + 2))
        else none
      | _ => none
    match hex with
    | some r => some r
    | none => strtod_number 10 isdigit 'e' 10 s

/-- The sign change of a double. -/
def Double.neg : Double → Double
  | Double.nan => Double.nan
  | Double.ninf => Double.pinf
  | Double.fin q => Double.fin (-q)
  | Double.pinf => Double.ninf

/-- The model of `strtod`: the value and the number of characters read, white
space and sign included; `(0, 0)` when the text does not start with a
constant. -/
def strtod_model : Strtod := fun nptr =>
  let space := nptr.takeWhile isspace
  let afterSpace := nptr.drop space.length
  let negative := afterSpace.head? = some '-'
  let signed := if afterSpace.head? = some '-' ∨ afterSpace.head? = some '+' then 1 else 0
  match strtod_subject (afterSpace.drop signed) with
  | none => (Double.zero, 0)
  | some (value, read) => (if negative then value.neg else value, space.length + signed + read)

/-! ## Definitions used to state the properties -/

/-- The scalars `defs` with the value `value` in every scalar called `name`. -/
def with_value (name : CStr) (value : Double) (defs : List Def) : List Def :=
  defs.map (fun d => if d.name = name then { name := name, value := value } else d)

/-- The names that the options of a command line supply, as the specification
reads them, in the order of the arguments: `arguments` are the arguments after
the name of the program; `--def` comes with `name=value`, `--forloop` with
`name,start,increment,end`, and the name is the text before the first `=` or
the first `,`. -/
def supplied_names : List CStr → List CStr
  | [] => []
  | [_] => []
  | opt :: value :: rest =>
    if opt = def_ then value.takeWhile (fun c => c != '=') :: supplied_names rest
    else if opt = loop then value.takeWhile (fun c => c != ',') :: supplied_names rest
    else supplied_names rest

/-- The invariant of a loop binding as the specification states it: the
increment is not 0, it is greater than 0 when the start is less than the end,
and less than 0 when the start is greater than the end. -/
def loop_invariant (l : Loop) : Bool :=
  Double.ne l.increment Double.zero
  && (!Double.lt l.start l.end_ || Double.gt l.increment Double.zero)
  && (!Double.gt l.start l.end_ || Double.lt l.increment Double.zero)

/-- The three tests of `validate_loop_tokens` on the values of a loop binding:
none of `increment == 0`, `start < end && increment <= 0` and
`start > end && increment >= 0` holds. -/
def loop_accepted (l : Loop) : Bool :=
  !Double.eq l.increment Double.zero
  && !(Double.lt l.start l.end_ && Double.le l.increment Double.zero)
  && !(Double.gt l.start l.end_ && Double.ge l.increment Double.zero)

/-- The whitespace-stripped form of a line as the specification states it: the
characters of the line that are not white space, in their order. -/
def normalized (line : CStr) : CStr :=
  line.filter (fun c => !isspace c)

/-- A token that `--sigfigures` accepts, as the specification states it:
exactly one character, a digit from `2` to `9`. -/
def sig_token (input : CStr) : Bool :=
  match input with
  | [c] => decide (50 ≤ c.toNat) && decide (c.toNat ≤ 57)
  | _ => false

/-- The fields of a text as the specification states them: the text split at
every occurrence of the delimiter, the empty fields included (a text with `n`
delimiters has `n + 1` fields). -/
def split_fields (d : Char) : CStr → List CStr
  | [] => [[]]
  | c :: rest =>
    if c = d then [] :: split_fields d rest
    else
      match split_fields d rest with
      | [] => [[c]]
      | field :: fields => (c :: field) :: fields

/-- Whether an argument is one of `--def`, `--forloop` and `--sigfigures`. -/
def is_option (arg : CStr) : Bool :=
  decide (arg = def_) || decide (arg = loop) || decide (arg = sig)

/-- The last argument when it stands in option position (`none` when there is
no argument or the last one is the value of an option). -/
def final_option : List CStr → Option CStr
  | [] => none
  | opt :: rest =>
    if is_option opt then
      match rest with
      | [] => some opt
      | _ :: rest' => final_option rest'
    else
      match rest with
      | [] => some opt
      | _ :: _ => final_option rest

/-- The first argument in option position that is none of the three options,
with the arguments after it (`none` when there is no such argument). -/
def first_other : List CStr → Option (CStr × List CStr)
  | [] => none
  | opt :: rest =>
    if is_option opt then
      match rest with
      | [] => none
      | _ :: rest' => first_other rest'
    else some (opt, rest)

/-- The form `name=value` of a `--def` specification: the text is `name`, one
`=` and `value`, with no other `=`, the name is a valid variable name and the
value is a non-empty string that `valid_double` accepts. -/
def def_specification (strtod : Strtod) (s name value : CStr) : Prop :=
  s = name ++ '=' :: value ∧ s.count '=' = 1 ∧ valid_variable_name name = 1
    ∧ value ≠ [] ∧ valid_double strtod value = 1

instance (strtod : Strtod) (s name value : CStr) :
    Decidable (def_specification strtod s name value) := by
  unfold def_specification
  infer_instance

/-- Whether the value `v` of the option `opt` is a specification that the
handler of the option rejects: `opt` is `--def` and `def_handler` returns 0, or
`opt` is `--forloop` and `loop_handler` returns 0. -/
def rejected_specification (strtod : Strtod) (opt v : CStr) : Bool :=
  (decide (opt = def_) && decide (def_handler strtod v [] = some (0, [])))
    || (decide (opt = loop) && decide (loop_handler strtod v [] = some (0, [])))

/-! ## The validators: properties -/

theorem valid_variable_name_loop_eq_one (s : CStr) :
    valid_variable_name_loop s = 1 ↔ ∀ c ∈ s, isalpha c = true := by
  induction s with
  | nil => simp [valid_variable_name_loop]
  | cons c rest ih =>
    by_cases h : isalpha c = true <;> simp [valid_variable_name_loop, h, ih]

theorem valid_variable_name_loop_range (s : CStr) :
    valid_variable_name_loop s = 1 ∨ valid_variable_name_loop s = 0 := by
  induction s with
  | nil => simp [valid_variable_name_loop]
  | cons c rest ih =>
    by_cases h : isalpha c = true <;> simp [valid_variable_name_loop, h, ih]

theorem valid_variable_name_range (name : CStr) :
    valid_variable_name name = 1 ∨ valid_variable_name name = 0 := by
  unfold valid_variable_name
  simp only []
  split
  · exact Or.inr rfl
  · exact valid_variable_name_loop_range name

theorem valid_variable_name_eq_one (name : CStr) :
    valid_variable_name name = 1 ↔
      (1 ≤ name.length ∧ name.length ≤ 20 ∧ ∀ c ∈ name, isalpha c = true) := by
  unfold valid_variable_name
  simp only [strlen, VARIABLE_NAME_MIN, VARIABLE_NAME_MAX]
  split
  · rename_i h
    constructor
    · intro h0; exact absurd h0 (by decide)
    · rintro ⟨h1, h2, -⟩; omega
  · rename_i h
    rw [valid_variable_name_loop_eq_one]
    constructor
    · intro hall; exact ⟨by omega, by omega, hall⟩
    · rintro ⟨-, -, hall⟩; exact hall

theorem isalpha_of_isdigit (c : Char) (h : isdigit c = true) : isalpha c = false := by
  simp only [isdigit, isalpha, Bool.and_eq_true, decide_eq_true_eq] at h ⊢
  simp only [Bool.or_eq_false_iff, Bool.and_eq_false_iff, decide_eq_false_iff_not]
  omega

/-- C1: `valid_variable_name` returns 1 exactly for the names of 1 to 20
characters that are all letters, and 0 for every other string; so it rejects
the empty string, every string of more than 20 characters (of 21 in
particular) and every string with a digit, an underscore or any other
character that is not a letter. -/
theorem valid_variable_name_spec (name : CStr) :
    (valid_variable_name name = 1 ↔
      (1 ≤ name.length ∧ name.length ≤ 20 ∧ ∀ c ∈ name, isalpha c = true))
    ∧ (valid_variable_name name = 1 ∨ valid_variable_name name = 0)
    ∧ valid_variable_name [] = 0
    ∧ (name.length = 21 → valid_variable_name name = 0)
    ∧ (20 < name.length → valid_variable_name name = 0)
    ∧ (∀ c ∈ name, (isdigit c = true ∨ c = '_' ∨ isalpha c = false) →
        valid_variable_name name = 0) := by
  have hiff := valid_variable_name_eq_one name
  have hrange := valid_variable_name_range name
  have hzero : ¬ (1 ≤ name.length ∧ name.length ≤ 20 ∧
      ∀ c ∈ name, isalpha c = true) → valid_variable_name name = 0 := by
    intro hn
    rcases hrange with h | h
    · exact absurd (hiff.mp h) hn
    · exact h
  refine ⟨hiff, hrange, by decide, ?_, ?_, ?_⟩
  · intro h; exact hzero (by omega)
  · intro h; exact hzero (by omega)
  · intro c hc hbad
    apply hzero
    rintro ⟨-, -, hall⟩
    have hal := hall c hc
    rcases hbad with h | h | h
    · rw [isalpha_of_isdigit c h] at hal; exact absurd hal (by decide)
    · subst h; exact absurd hal (by decide)
    · rw [h] at hal; exact absurd hal (by decide)

/-- The name `x` is accepted; a name of 21 letters, the name `a1` and the name
`a_b` are rejected. -/
theorem valid_variable_name_spec_witness :
    valid_variable_name "x".toList = 1
    ∧ valid_variable_name "abcdefghijklmnopqrstu".toList = 0
    ∧ valid_variable_name "a1".toList = 0
    ∧ valid_variable_name "a_b".toList = 0 :=
  ⟨((valid_variable_name_spec "x".toList).1).mpr (by decide),
   (valid_variable_name_spec "abcdefghijklmnopqrstu".toList).2.2.2.1 (by decide),
   (valid_variable_name_spec "a1".toList).2.2.2.2.2 '1' (by decide) (Or.inl (by decide)),
   (valid_variable_name_spec "a_b".toList).2.2.2.2.2 '_' (by decide) (Or.inr (Or.inl rfl))⟩

/-! ## The variable store: properties -/

theorem strcmp_eq_zero (a b : CStr) : strcmp a b = 0 ↔ a = b := by
  induction a generalizing b with
  | nil => cases b <;> simp [strcmp]
  | cons x xs ih =>
    cases b with
    | nil => simp [strcmp]
    | cons y ys =>
      by_cases h : x = y
      · simp [strcmp, h, ih]
      · simp only [strcmp, h, if_false, List.cons.injEq, false_and, iff_false]
        split <;> decide

theorem loop_named_iff (name : CStr) (loops : List Loop) :
    loop_named name loops = true ↔ name ∈ loops.map (fun l => l.name) := by
  induction loops with
  | nil => simp [loop_named]
  | cons l rest ih =>
    by_cases h : l.name = name
    · simp [loop_named, strcmp_eq_zero, h]
    · have h' : ¬ name = l.name := fun e => h e.symm
      simp [loop_named, strcmp_eq_zero, h, h', ih]

theorem overwrite_def_none (name : CStr) (value : Double) (defs : List Def) :
    overwrite_def name value defs = none ↔ name ∉ defs.map (fun d => d.name) := by
  induction defs with
  | nil => simp [overwrite_def]
  | cons d rest ih =>
    by_cases h : d.name = name
    · simp [overwrite_def, strcmp_eq_zero, h]
    · have h' : ¬ name = d.name := fun e => h e.symm
      simp [overwrite_def, strcmp_eq_zero, h, h', ih]

theorem with_value_of_not_mem (name : CStr) (value : Double) (defs : List Def)
    (h : name ∉ defs.map (fun d => d.name)) : with_value name value defs = defs := by
  induction defs with
  | nil => rfl
  | cons d rest ih =>
    simp only [List.map_cons, List.mem_cons, not_or] at h
    have h' : ¬ d.name = name := fun e => h.1 e.symm
    simp only [with_value, List.map_cons, h', if_false, List.cons.injEq, true_and]
    exact ih h.2

theorem overwrite_def_some (name : CStr) (value : Double) (defs : List Def)
    (hN : (defs.map (fun d => d.name)).Nodup) (h : name ∈ defs.map (fun d => d.name)) :
    overwrite_def name value defs = some (with_value name value defs) := by
  induction defs with
  | nil => simp at h
  | cons d rest ih =>
    simp only [List.map_cons, List.nodup_cons] at hN
    by_cases hd : d.name = name
    · have hr : name ∉ rest.map (fun d => d.name) := hd ▸ hN.1
      have := with_value_of_not_mem name value rest hr
      simp only [with_value] at this
      simp only [overwrite_def, strcmp_eq_zero, hd, if_true, with_value, List.map_cons,
        Option.some.injEq, List.cons.injEq]
      refine ⟨?_, this.symm⟩
      cases d; simp_all
    · have hr : name ∈ rest.map (fun d => d.name) := by
        simp only [List.map_cons, List.mem_cons] at h
        rcases h with h | h
        · exact absurd h.symm hd
        · exact h
      simp only [overwrite_def, strcmp_eq_zero, hd, if_false, ih hN.2 hr, Option.map_some',
        with_value, List.map_cons]

theorem handle_new_variable_out (env : Environment) (name : CStr) (value : Double)
    (sigFigures : Int) :
    (handle_new_variable env name value sigFigures).2 = [Output.scalar sigFigures name value] := by
  unfold handle_new_variable
  simp only []
  split
  · rfl
  · split
    · rfl
    · split <;> rfl

theorem handle_new_variable_loop (env : Environment) (name : CStr) (value : Double)
    (sigFigures : Int) (h : name ∈ env.loops.map (fun l => l.name)) :
    (handle_new_variable env name value sigFigures).1 = env := by
  have hlen : env.loops.length ≠ 0 := by
    cases hl : env.loops with
    | nil => rw [hl] at h; simp at h
    | cons _ _ => simp
  unfold handle_new_variable
  simp only [(loop_named_iff name env.loops).mpr h, hlen, ne_eq, not_false_eq_true, and_self,
    if_true]

theorem handle_new_variable_new (env : Environment) (name : CStr) (value : Double)
    (sigFigures : Int) (hl : name ∉ env.loops.map (fun l => l.name))
    (hd : name ∉ env.defs.map (fun d => d.name)) :
    (handle_new_variable env name value sigFigures).1 =
      { env with defs := env.defs ++ [{ name := name, value := value }] } := by
  have hln : loop_named name env.loops = false := by
    rw [Bool.eq_false_iff]; exact fun e => hl ((loop_named_iff _ _).mp e)
  simp [handle_new_variable, hln, add_def, (overwrite_def_none name value env.defs).mpr hd]

theorem handle_new_variable_old (env : Environment) (name : CStr) (value : Double)
    (sigFigures : Int) (hl : name ∉ env.loops.map (fun l => l.name))
    (hN : (env.defs.map (fun d => d.name)).Nodup)
    (hd : name ∈ env.defs.map (fun d => d.name)) :
    (handle_new_variable env name value sigFigures).1 =
      { env with defs := with_value name value env.defs } := by
  have hln : loop_named name env.loops = false := by
    rw [Bool.eq_false_iff]; exact fun e => hl ((loop_named_iff _ _).mp e)
  have hlen : ¬ env.defs.length = 0 := by
    cases hl : env.defs with
    | nil => rw [hl] at hd; simp at hd
    | cons _ _ => simp
  simp [handle_new_variable, hln, hlen, overwrite_def_some name value env.defs hN hd]

theorem names_with_value (name : CStr) (value : Double) (defs : List Def) :
    (with_value name value defs).map (fun d => d.name) = defs.map (fun d => d.name) := by
  induction defs with
  | nil => rfl
  | cons d rest ih =>
    simp only [with_value, List.map_cons, List.cons.injEq] at ih ⊢
    refine ⟨?_, ih⟩
    split
    · rename_i h; exact h.symm
    · rfl

theorem with_value_with_value (name : CStr) (v1 v2 : Double) (defs : List Def) :
    with_value name v2 (with_value name v1 defs) = with_value name v2 defs := by
  induction defs with
  | nil => rfl
  | cons d rest ih =>
    simp only [with_value, List.map_cons, List.cons.injEq] at ih ⊢
    refine ⟨?_, ih⟩
    by_cases h : d.name = name <;> simp [h]

theorem with_value_append_new (name : CStr) (v1 v2 : Double) (defs : List Def)
    (h : name ∉ defs.map (fun d => d.name)) :
    with_value name v2 (defs ++ [{ name := name, value := v1 }]) =
      defs ++ [{ name := name, value := v2 }] := by
  have := with_value_of_not_mem name v2 defs h
  simp only [with_value] at this
  simp [with_value, this]

theorem filter_with_value (name : CStr) (value : Double) (defs : List Def)
    (hN : (defs.map (fun d => d.name)).Nodup) (h : name ∈ defs.map (fun d => d.name)) :
    (with_value name value defs).filter (fun d => decide (d.name = name)) =
      [{ name := name, value := value }] := by
  induction defs with
  | nil => simp at h
  | cons d rest ih =>
    simp only [List.map_cons, List.nodup_cons] at hN
    by_cases hd : d.name = name
    · have hr : name ∉ rest.map (fun d => d.name) := hd ▸ hN.1
      have h1 := with_value_of_not_mem name value rest hr
      simp only [with_value] at h1
      have h2 : rest.filter (fun d => decide (d.name = name)) = [] := by
        rw [List.filter_eq_nil_iff]
        intro a ha hn
        exact hr (List.mem_map.mpr ⟨a, ha, by simpa using hn⟩)
      simp [with_value, hd, h1, h2]
    · have hr : name ∈ rest.map (fun d => d.name) := by
        simp only [List.map_cons, List.mem_cons] at h
        rcases h with h | h
        · exact absurd h.symm hd
        · exact h
      have := ih hN.2 hr
      simp only [with_value] at this
      simp [with_value, hd, this]

theorem filter_append_new (name : CStr) (value : Double) (defs : List Def)
    (h : name ∉ defs.map (fun d => d.name)) :
    (defs ++ [({ name := name, value := value } : Def)]).filter
        (fun d => decide (d.name = name)) = [{ name := name, value := value }] := by
  have h2 : defs.filter (fun d => decide (d.name = name)) = [] := by
    rw [List.filter_eq_nil_iff]
    intro a ha hn
    exact h (List.mem_map.mpr ⟨a, ha, by simpa using hn⟩)
  simp [List.filter_append, h2]

theorem getElem?_with_value (name : CStr) (value : Double) (defs : List Def) (i : Nat)
    (d : Def) (hd : d.name ≠ name) :
    (with_value name value defs)[i]? = some d ↔ defs[i]? = some d := by
  simp only [with_value, List.getElem?_map]
  cases h : defs[i]? with
  | none => simp
  | some d0 =>
    simp only [Option.map_some', Option.some.injEq]
    by_cases h0 : d0.name = name
    · simp only [h0, if_true]
      constructor
      · intro e; rw [← e] at hd; exact absurd rfl hd
      · intro e; rw [e] at h0; exact absurd h0 hd
    · simp [h0]

theorem getElem?_append_new (name : CStr) (value : Double) (defs : List Def) (i : Nat)
    (d : Def) (hd : d.name ≠ name) :
    (defs ++ [{ name := name, value := value }])[i]? = some d ↔ defs[i]? = some d := by
  by_cases hi : i < defs.length
  · rw [List.getElem?_append_left hi]
  · have hi' : defs.length ≤ i := by omega
    rw [List.getElem?_append_right hi', List.getElem?_eq_none_iff.mpr hi']
    simp only [reduceCtorEq, iff_false]
    intro e
    have := List.getElem?_mem e
    simp only [List.mem_singleton] at this
    rw [this] at hd
    exact hd rfl

/-- Two assignments in a row to a name that is not a loop name: the scalars
afterwards. -/
theorem assign_twice (env : Environment) (name : CStr) (v1 v2 : Double) (s1 s2 : Int)
    (hN : (env.defs.map (fun d => d.name)).Nodup)
    (hl : name ∉ env.loops.map (fun l => l.name)) :
    (handle_new_variable (handle_new_variable env name v1 s1).1 name v2 s2).1 =
      { env with defs :=
          if name ∈ env.defs.map (fun d => d.name) then with_value name v2 env.defs
          else env.defs ++ [{ name := name, value := v2 }] } := by
  by_cases hd : name ∈ env.defs.map (fun d => d.name)
  · rw [handle_new_variable_old env name v1 s1 hl hN hd]
    rw [handle_new_variable_old { env with defs := with_value name v1 env.defs } name v2 s2 hl
      (by simpa [names_with_value] using hN) (by simpa [names_with_value] using hd)]
    simp [with_value_with_value, hd]
  · rw [handle_new_variable_new env name v1 s1 hl hd]
    rw [handle_new_variable_old
      { env with defs := env.defs ++ [{ name := name, value := v1 }] } name v2 s2 hl
      (by
        simp only [List.map_append, List.map_cons, List.map_nil]
        rw [List.nodup_append]
        refine ⟨hN, List.nodup_singleton _, ?_⟩
        intro a ha hb
        simp only [List.mem_singleton] at hb
        exact hd (hb ▸ ha))
      (by simp)]
    simp only [with_value_append_new name v1 v2 env.defs hd, hd, if_false]

/-- C3: after two assignments in a row of `v1` and then `v2` to a name that is
not a loop name, in an environment whose names are pairwise distinct, exactly
one scalar has the name and its value is `v2`; every scalar with another name
is where it was, with the value it had, and there is no other new scalar; the
loops are unchanged; and when the name was a scalar already, the number of
scalars is unchanged. -/
theorem handle_new_variable_twice (env : Environment) (name : CStr) (v1 v2 : Double)
    (s1 s2 : Int) (hU : env.names.Nodup) (hl : name ∉ env.loops.map (fun l => l.name)) :
    let env2 := (handle_new_variable (handle_new_variable env name v1 s1).1 name v2 s2).1
    env2.defs.filter (fun d => decide (d.name = name)) = [{ name := name, value := v2 }]
    ∧ (∀ (i : Nat) (d : Def), d.name ≠ name → (env2.defs[i]? = some d ↔ env.defs[i]? = some d))
    ∧ env2.loops = env.loops
    ∧ (name ∈ env.defs.map (fun d => d.name) → env2.defs.length = env.defs.length)
    ∧ (name ∉ env.defs.map (fun d => d.name) → env2.defs.length = env.defs.length + 1) := by
  have hN : (env.defs.map (fun d => d.name)).Nodup := by
    unfold Environment.names at hU
    exact (List.nodup_append.mp hU).1
  intro env2
  have h2 : env2 = _ := assign_twice env name v1 v2 s1 s2 hN hl
  by_cases hd : name ∈ env.defs.map (fun d => d.name)
  · simp only [hd, if_true] at h2
    rw [h2]
    refine ⟨filter_with_value name v2 env.defs hN hd, ?_, rfl, ?_, ?_⟩
    · intro i d hne; exact getElem?_with_value name v2 env.defs i d hne
    · intro _; simp [with_value]
    · intro hn; exact absurd hd hn
  · simp only [hd, if_false] at h2
    rw [h2]
    refine ⟨filter_append_new name v2 env.defs hd, ?_, rfl, ?_, ?_⟩
    · intro i d hne; exact getElem?_append_new name v2 env.defs i d hne
    · intro hn; exact absurd hn hd
    · intro _; simp

/-- C2: an assignment to the name of an existing loop variable leaves the
environment as it was: the same loops, the same scalars, none created and none
modified.  The value is printed all the same. -/
theorem handle_new_variable_loop_name (env : Environment) (name : CStr) (value : Double)
    (sigFigures : Int) (h : name ∈ env.loops.map (fun l => l.name)) :
    (handle_new_variable env name value sigFigures).1 = env
    ∧ (handle_new_variable env name value sigFigures).1.loops = env.loops
    ∧ (handle_new_variable env name value sigFigures).1.defs = env.defs
    ∧ (handle_new_variable env name value sigFigures).2 =
        [Output.scalar sigFigures name value] := by
  have h1 := handle_new_variable_loop env name value sigFigures h
  exact ⟨h1, by rw [h1], by rw [h1], handle_new_variable_out env name value sigFigures⟩

/-- With the scalar `x = 1` and the loop `i = 1, 1, 5`, the assignment `i = 7`
changes nothing. -/
theorem handle_new_variable_loop_name_witness :
    (handle_new_variable
      { defs := [{ name := "x".toList, value := Double.fin 1 }],
        loops := [{ name := "i".toList, start := Double.fin 1, increment := Double.fin 1,
                    end_ := Double.fin 5 }] }
      "i".toList (Double.fin 7) 3).1 =
      { defs := [{ name := "x".toList, value := Double.fin 1 }],
        loops := [{ name := "i".toList, start := Double.fin 1, increment := Double.fin 1,
                    end_ := Double.fin 5 }] } :=
  (handle_new_variable_loop_name _ "i".toList (Double.fin 7) 3 (by decide)).1

/-- With the scalars `x = 1` and `y = 2` and the loop `i = 1, 1, 5`, the
assignments `x = 7` and then `x = 8` leave `x = 8` and `y = 2`. -/
theorem handle_new_variable_twice_witness :
    ((handle_new_variable (handle_new_variable
      { defs := [{ name := "x".toList, value := Double.fin 1 },
                 { name := "y".toList, value := Double.fin 2 }],
        loops := [{ name := "i".toList, start := Double.fin 1, increment := Double.fin 1,
                    end_ := Double.fin 5 }] }
      "x".toList (Double.fin 7) 3).1 "x".toList (Double.fin 8) 3).1.defs.filter
        (fun d => decide (d.name = "x".toList))) =
      [{ name := "x".toList, value := Double.fin 8 }] :=
  (handle_new_variable_twice
      { defs := [{ name := "x".toList, value := Double.fin 1 },
                 { name := "y".toList, value := Double.fin 2 }],
        loops := [{ name := "i".toList, start := Double.fin 1, increment := Double.fin 1,
                    end_ := Double.fin 5 }] }
      "x".toList (Double.fin 7) (Double.fin 8) 3 3 (by decide) (by decide)).1

/-- C4: an assignment to a name that is neither a loop variable nor a scalar
appends the scalar `(name, value)` to the scalars and leaves the loops as they
were. -/
theorem handle_new_variable_fresh_name (env : Environment) (name : CStr) (value : Double)
    (sigFigures : Int) (hl : name ∉ env.loops.map (fun l => l.name))
    (hd : name ∉ env.defs.map (fun d => d.name)) :
    (handle_new_variable env name value sigFigures).1.defs =
        env.defs ++ [{ name := name, value := value }]
    ∧ (handle_new_variable env name value sigFigures).1.loops = env.loops := by
  rw [handle_new_variable_new env name value sigFigures hl hd]
  exact ⟨rfl, rfl⟩

/-- With the scalar `x = 1` and the loop `i = 1, 1, 5`, the assignment `y = 7`
gives the scalars `x = 1`, `y = 7`. -/
theorem handle_new_variable_fresh_name_witness :
    (handle_new_variable
      { defs := [{ name := "x".toList, value := Double.fin 1 }],
        loops := [{ name := "i".toList, start := Double.fin 1, increment := Double.fin 1,
                    end_ := Double.fin 5 }] }
      "y".toList (Double.fin 7) 3).1.defs =
      [{ name := "x".toList, value := Double.fin 1 }, { name := "y".toList, value := Double.fin 7 }] :=
  (handle_new_variable_fresh_name
      { defs := [{ name := "x".toList, value := Double.fin 1 }],
        loops := [{ name := "i".toList, start := Double.fin 1, increment := Double.fin 1,
                    end_ := Double.fin 5 }] }
      "y".toList (Double.fin 7) 3 (by decide) (by decide)).1

/-! ## The line dispatcher and the name check: properties -/

theorem names_handle_new_variable (env : Environment) (name : CStr) (value : Double)
    (sigFigures : Int) (hN : env.names.Nodup) :
    (handle_new_variable env name value sigFigures).1.names = env.names
    ∨ (name ∉ env.names ∧ (handle_new_variable env name value sigFigures).1.names =
        env.defs.map (fun d => d.name) ++ [name] ++ env.loops.map (fun l => l.name)) := by
  have hNd : (env.defs.map (fun d => d.name)).Nodup := by
    unfold Environment.names at hN
    exact (List.nodup_append.mp hN).1
  by_cases hl : name ∈ env.loops.map (fun l => l.name)
  · left; rw [handle_new_variable_loop env name value sigFigures hl]
  · by_cases hd : name ∈ env.defs.map (fun d => d.name)
    · left
      rw [handle_new_variable_old env name value sigFigures hl hNd hd]
      simp only [Environment.names, names_with_value]
    · right
      rw [handle_new_variable_new env name value sigFigures hl hd]
      refine ⟨?_, ?_⟩
      · simp only [Environment.names, List.mem_append, not_or]; exact ⟨hd, hl⟩
      · simp [Environment.names]

theorem nodup_handle_new_variable (env : Environment) (name : CStr) (value : Double)
    (sigFigures : Int) (hN : env.names.Nodup) :
    (handle_new_variable env name value sigFigures).1.names.Nodup := by
  rcases names_handle_new_variable env name value sigFigures hN with h | ⟨hn, h⟩
  · rw [h]; exact hN
  · rw [h]
    have hp : (env.defs.map (fun d => d.name) ++ [name] ++ env.loops.map (fun l => l.name)).Perm
        (name :: env.names) := by
      unfold Environment.names
      rw [List.append_assoc, List.singleton_append]
      exact List.perm_middle
    rw [hp.nodup_iff]
    exact List.nodup_cons.mpr ⟨hn, hN⟩

theorem token_loop_length_le (delim : Char) (size : Nat) (s : CStr) :
    (token_loop delim size s).length ≤ size := by
  induction size generalizing s with
  | zero => simp [token_loop]
  | succ k ih =>
    unfold token_loop
    split
    · simp
    · simp only [List.length_cons]; exact Nat.succ_le_succ (ih _)

/-- What a call of `line_handler` that returns can have done: nothing to the
environment, or one call of `handle_new_variable` with the left-hand token as
name, a valid one, and the value of the right-hand token, which is not NaN. -/
theorem line_handler_cases (te : Evaluator) (line : CStr) (env env' : Environment)
    (sigFigures : Int) (out : List Output)
    (h : line_handler te line env sigFigures = some (env', out)) :
    (env' = env ∧ (out = [] ∨ out = variable_print env sigFigures
        ∨ out = [Output.stderr runningError]
        ∨ ∃ value, out = [Output.result sigFigures value] ∧ value.isnan = false))
    ∨ ∃ name rhs value,
        token_loop '=' ASSIGNMENT_TOKEN_SIZE (strip_line line) = [name, rhs]
        ∧ tiny_expr te (some rhs) env.defs = some value
        ∧ value.isnan = false
        ∧ valid_variable_name name ≠ 0
        ∧ (env', out) = handle_new_variable env name value sigFigures := by
  unfold line_handler at h
  simp only [] at h
  split at h
  · simp only [Option.some.injEq, Prod.mk.injEq] at h
    exact Or.inl ⟨h.1.symm, Or.inl h.2.symm⟩
  split at h
  · simp only [Option.some.injEq, Prod.mk.injEq] at h
    exact Or.inl ⟨h.1.symm, Or.inr (Or.inl h.2.symm)⟩
  split at h
  · simp only [Option.some.injEq, Prod.mk.injEq] at h
    exact Or.inl ⟨h.1.symm, Or.inr (Or.inr (Or.inl h.2.symm))⟩
  split at h
  · -- expression
    unfold expression_handler at h
    cases hv : tiny_expr te (some (strip_line line)) env.defs with
    | none => simp [hv] at h
    | some value =>
      simp only [hv] at h
      by_cases hnan : value.isnan = true
      · simp only [hnan, if_true, Option.map_some', Option.some.injEq, Prod.mk.injEq] at h
        exact Or.inl ⟨h.1.symm, Or.inr (Or.inr (Or.inl h.2.symm))⟩
      · simp only [hnan, Bool.false_eq_true, if_false, Option.map_some', Option.some.injEq,
          Prod.mk.injEq] at h
        exact Or.inl ⟨h.1.symm, Or.inr (Or.inr (Or.inr ⟨value, h.2.symm, by simpa using hnan⟩))⟩
  split at h
  · -- assignment
    unfold assignment_handler at h
    simp only [] at h
    generalize hs : token_loop '=' ASSIGNMENT_TOKEN_SIZE (strip_line line) = stored at h
    have hlen : stored.length ≤ 2 := by
      rw [← hs]; exact token_loop_length_le _ _ _
    match stored, hlen with
    | [], _ => simp [token_array, token, tiny_expr, ASSIGNMENT_TOKEN_SIZE] at h
    | [a], _ => simp [token_array, token, tiny_expr, ASSIGNMENT_TOKEN_SIZE] at h
    | [name, rhs], _ =>
      simp [token_array, token, ASSIGNMENT_TOKEN_SIZE] at h
      cases hv : tiny_expr te (some rhs) env.defs with
      | none => rw [hv] at h; exact absurd h (by simp)
      | some value =>
        rw [hv] at h
        simp only [] at h
        by_cases hnan : value.isnan = true
        · simp only [hnan, if_true, Option.some.injEq, Prod.mk.injEq] at h
          exact Or.inl ⟨h.1.symm, Or.inr (Or.inr (Or.inl h.2.symm))⟩
        · simp only [hnan, Bool.false_eq_true, if_false] at h
          by_cases hname : valid_variable_name name = 0
          · simp only [hname, if_true, Option.some.injEq, Prod.mk.injEq] at h
            exact Or.inl ⟨h.1.symm, Or.inr (Or.inr (Or.inl h.2.symm))⟩
          · simp only [hname, if_false, Option.some.injEq] at h
            exact Or.inr ⟨name, rhs, value, rfl, hv, by simpa using hnan, hname, h.symm⟩
  · simp only [Option.some.injEq, Prod.mk.injEq] at h
    exact Or.inl ⟨h.1.symm, Or.inl h.2.symm⟩

theorem unique_name_check_loop_range (names : List CStr) :
    unique_name_check_loop names = 1 ∨ unique_name_check_loop names = 0 := by
  induction names with
  | nil => exact Or.inl rfl
  | cons n rest ih =>
    unfold unique_name_check_loop
    split
    · exact Or.inr rfl
    · exact ih

theorem unique_name_check_loop_eq_one (names : List CStr) :
    unique_name_check_loop names = 1 ↔ names.Nodup := by
  induction names with
  | nil => simp [unique_name_check_loop]
  | cons n rest ih =>
    unfold unique_name_check_loop
    by_cases h : n ∈ rest
    · have : (rest.any fun m => decide (strcmp n m = 0)) = true := by
        rw [List.any_eq_true]; exact ⟨n, h, by simp [strcmp_eq_zero]⟩
      simp [this, h]
    · have : ¬ (rest.any fun m => decide (strcmp n m = 0)) = true := by
        rw [List.any_eq_true]
        rintro ⟨m, hm, he⟩
        simp only [strcmp_eq_zero, decide_eq_true_eq] at he
        exact h (he ▸ hm)
      simp [this, h, ih]

theorem unique_name_check_of_fit (env : Environment) (h : ∀ n ∈ env.names, n.length ≤ 20) :
    unique_name_check env = some (unique_name_check_loop env.names) := by
  have : ¬ (env.names.any fun n => decide (VARIABLE_NAME_SIZE ≤ n.length)) = true := by
    rw [List.any_eq_true]
    rintro ⟨n, hn, hl⟩
    simp only [VARIABLE_NAME_SIZE, decide_eq_true_eq] at hl
    have := h n hn
    omega
  simp only [unique_name_check, this, Bool.false_eq_true, if_false]

theorem unique_name_check_eq_one (env : Environment) :
    unique_name_check env = some 1 ↔ (∀ n ∈ env.names, n.length ≤ 20) ∧ env.names.Nodup := by
  constructor
  · intro h
    by_cases hfit : ∀ n ∈ env.names, n.length ≤ 20
    · rw [unique_name_check_of_fit env hfit, Option.some.injEq] at h
      exact ⟨hfit, (unique_name_check_loop_eq_one _).mp h⟩
    · exfalso
      have : (env.names.any fun n => decide (VARIABLE_NAME_SIZE ≤ n.length)) = true := by
        rw [List.any_eq_true]
        push_neg at hfit
        obtain ⟨n, hn, hl⟩ := hfit
        exact ⟨n, hn, by simp only [VARIABLE_NAME_SIZE, decide_eq_true_eq]; omega⟩
      simp [unique_name_check, this] at h
  · rintro ⟨hfit, hN⟩
    rw [unique_name_check_of_fit env hfit, (unique_name_check_loop_eq_one _).mpr hN]

/-- In an environment whose names have at most 20 characters each,
`unique_name_check` returns 1 if and only if no two names of the list of the
scalar names followed by the loop names are equal, and 0 otherwise. -/
theorem unique_name_check_of_short_names (env : Environment)
    (h : ∀ n ∈ env.names, n.length ≤ 20) :
    (unique_name_check env = some 1 ↔ env.names.Nodup)
    ∧ (unique_name_check env = some 0 ↔ ¬ env.names.Nodup)
    ∧ env.names = env.defs.map (fun d => d.name) ++ env.loops.map (fun l => l.name) := by
  have h1 : unique_name_check env = some 1 ↔ env.names.Nodup := by
    rw [unique_name_check_eq_one]
    exact ⟨fun hh => hh.2, fun hh => ⟨h, hh⟩⟩
  refine ⟨h1, ?_, rfl⟩
  rw [← h1, unique_name_check_of_fit env h]
  rcases unique_name_check_loop_range env.names with hr | hr <;> rw [hr] <;> decide

/-- The scalar `a` and the loop `A` have distinct names, the scalar `a` and the
loop `a` have not. -/
theorem unique_name_check_of_short_names_example :
    unique_name_check
      { defs := [{ name := "a".toList, value := Double.fin 1 }],
        loops := [{ name := "A".toList, start := Double.fin 1, increment := Double.fin 1,
                    end_ := Double.fin 5 }] } = some 1
    ∧ unique_name_check
      { defs := [{ name := "a".toList, value := Double.fin 1 }],
        loops := [{ name := "a".toList, start := Double.fin 1, increment := Double.fin 1,
                    end_ := Double.fin 5 }] } = some 0 :=
  ⟨(unique_name_check_of_short_names _ (by decide)).1.mpr (by decide),
   (unique_name_check_of_short_names _ (by decide)).2.1.mpr (by decide)⟩

/-- A name of 21 characters and its terminating NUL do not fit in a row of
`VARIABLE_NAME_SIZE` characters, so the copy is outside the row.  No name that
reaches `unique_name_check` is that long: the function is called once, at the
end of `check_validity`, on names that `valid_variable_name` accepted. -/
theorem unique_name_check_long_name :
    (Environment.names
      { defs := [{ name := "abcdefghijklmnopqrstu".toList, value := Double.fin 1 }],
        loops := [] }).Nodup
    ∧ unique_name_check
      { defs := [{ name := "abcdefghijklmnopqrstu".toList, value := Double.fin 1 }],
        loops := [] } = none := by
  constructor <;> decide

theorem length_le_of_valid (name : CStr) (h : valid_variable_name name ≠ 0) :
    name.length ≤ 20 := by
  rcases valid_variable_name_range name with h1 | h0
  · exact ((valid_variable_name_eq_one name).mp h1).2.1
  · exact absurd h0 h

theorem unique_handle_new_variable (env : Environment) (name : CStr) (value : Double)
    (sigFigures : Int) (hv : valid_variable_name name ≠ 0)
    (h : unique_name_check env = some 1) :
    unique_name_check (handle_new_variable env name value sigFigures).1 = some 1 := by
  rw [unique_name_check_eq_one] at h ⊢
  refine ⟨?_, nodup_handle_new_variable env name value sigFigures h.2⟩
  rcases names_handle_new_variable env name value sigFigures h.2 with hn | ⟨-, hn⟩
  · rw [hn]; exact h.1
  · rw [hn]
    intro n hmem
    simp only [List.mem_append, List.mem_singleton] at hmem
    rcases hmem with (hm | hm) | hm
    · exact h.1 n (by simp only [Environment.names, List.mem_append]; exact Or.inl hm)
    · rw [hm]; exact length_le_of_valid name hv
    · exact h.1 n (by simp only [Environment.names, List.mem_append]; exact Or.inr hm)

theorem nodup_line_handler (te : Evaluator) (line : CStr) (env env' : Environment)
    (sigFigures : Int) (out : List Output) (hN : env.names.Nodup)
    (h : line_handler te line env sigFigures = some (env', out)) : env'.names.Nodup := by
  rcases line_handler_cases te line env env' sigFigures out h with
    ⟨he, -⟩ | ⟨name, rhs, value, -, -, -, -, he⟩
  · rw [he]; exact hN
  · have : env' = (handle_new_variable env name value sigFigures).1 := by rw [← he]
    rw [this]; exact nodup_handle_new_variable env name value sigFigures hN

theorem unique_line_handler (te : Evaluator) (line : CStr) (env env' : Environment)
    (sigFigures : Int) (out : List Output) (hU : unique_name_check env = some 1)
    (h : line_handler te line env sigFigures = some (env', out)) :
    unique_name_check env' = some 1 := by
  rcases line_handler_cases te line env env' sigFigures out h with
    ⟨he, -⟩ | ⟨name, rhs, value, -, -, -, hv, he⟩
  · rw [he]; exact hU
  · have : env' = (handle_new_variable env name value sigFigures).1 := by rw [← he]
    rw [this]; exact unique_handle_new_variable env name value sigFigures hv hU

theorem unique_file_handler (te : Evaluator) (lines : List CStr) (env env' : Environment)
    (sigFigures : Int) (out : List Output) (hU : unique_name_check env = some 1)
    (h : file_handler te lines env sigFigures = some (env', out)) :
    unique_name_check env' = some 1 := by
  induction lines generalizing env out with
  | nil =>
    simp only [file_handler, Option.some.injEq, Prod.mk.injEq] at h
    rw [← h.1]; exact hU
  | cons line rest ih =>
    unfold file_handler at h
    cases h1 : line_handler te line env sigFigures with
    | none => rw [h1] at h; exact absurd h (by simp)
    | some r1 =>
      obtain ⟨env1, out1⟩ := r1
      rw [h1] at h
      simp only [] at h
      cases h2 : file_handler te rest env1 sigFigures with
      | none => rw [h2] at h; exact absurd h (by simp)
      | some r2 =>
        obtain ⟨env2, out2⟩ := r2
        rw [h2] at h
        simp only [Option.some.injEq, Prod.mk.injEq] at h
        rw [h.1] at h2
        exact ih env1 out2 (unique_line_handler te line env env1 sigFigures out1 hU h1) h2

theorem unique_of_check_validity (strtod : Strtod) (fopen : CStr → Bool) (argv : List CStr)
    (st0 st : Settings) (h : check_validity strtod fopen argv st0 = Startup.ok st) :
    unique_name_check st.env = some 1 := by
  unfold check_validity at h
  split at h
  · rename_i st' _
    cases hu : unique_name_check st'.env with
    | none => rw [hu] at h; exact absurd h (by simp)
    | some u =>
      rw [hu] at h
      by_cases h0 : u = 0
      · simp [h0] at h
      · simp only [h0, if_false, Startup.ok.injEq] at h
        rw [← h, hu]
        have hfit : ∀ n ∈ st'.env.names, n.length ≤ 20 := by
          by_contra hc
          push_neg at hc
          obtain ⟨n, hn, hl⟩ := hc
          have : (st'.env.names.any fun n => decide (VARIABLE_NAME_SIZE ≤ n.length)) = true := by
            rw [List.any_eq_true]
            exact ⟨n, hn, by simp only [VARIABLE_NAME_SIZE, decide_eq_true_eq]; omega⟩
          simp [unique_name_check, this] at hu
        rw [unique_name_check_of_fit _ hfit, Option.some.injEq] at hu
        rcases unique_name_check_loop_range st'.env.names with hr | hr
        · rw [← hu, hr]
        · rw [hr] at hu; exact absurd hu.symm h0
  · exact absurd h (by simp)
  · exact absurd h (by simp)

/-- C5: `line_handler` keeps the names of the environment pairwise distinct,
whatever the line and whatever the evaluator returns; and after a start that
`check_validity` lets through and any sequence of lines, `unique_name_check`
returns 1 on the environment. -/
theorem line_handler_keeps_names_unique :
    (∀ (te : Evaluator) (line : CStr) (env env' : Environment) (sigFigures : Int)
        (out : List Output), env.names.Nodup →
        line_handler te line env sigFigures = some (env', out) → env'.names.Nodup)
    ∧ (∀ (strtod : Strtod) (fopen : CStr → Bool) (te : Evaluator) (argv lines : List CStr)
        (st : Settings) (env' : Environment) (out : List Output),
        check_validity strtod fopen argv Settings.initial = Startup.ok st →
        file_handler te lines st.env st.sigFigures = some (env', out) →
        unique_name_check env' = some 1) := by
  refine ⟨?_, ?_⟩
  · intro te line env env' sigFigures out hN h
    exact nodup_line_handler te line env env' sigFigures out hN h
  · intro strtod fopen te argv lines st env' out hs hl
    exact unique_file_handler te lines st.env env' st.sigFigures out
      (unique_of_check_validity strtod fopen argv _ st hs) hl

/-- C8: when a call of `line_handler` prints the error message, the
environment is as it was before the call; and when the environment is not as
it was, the line split into a name and a right-hand side, the right-hand side
evaluated to a value that is not NaN, the name is a valid variable name, and
the call did what `handle_new_variable` does with that name and value. -/
theorem line_handler_error_atomic (te : Evaluator) (line : CStr) (env env' : Environment)
    (sigFigures : Int) (out : List Output)
    (h : line_handler te line env sigFigures = some (env', out)) :
    (Output.stderr runningError ∈ out → env' = env)
    ∧ (env' ≠ env → ∃ name rhs value,
        token_loop '=' ASSIGNMENT_TOKEN_SIZE (strip_line line) = [name, rhs]
        ∧ tiny_expr te (some rhs) env.defs = some value
        ∧ value.isnan = false
        ∧ valid_variable_name name = 1
        ∧ (env', out) = handle_new_variable env name value sigFigures) := by
  rcases line_handler_cases te line env env' sigFigures out h with
    ⟨he, -⟩ | ⟨name, rhs, value, hs, hv, hnan, hname, he⟩
  · exact ⟨fun _ => he, fun hne => absurd he hne⟩
  · refine ⟨?_, fun _ => ⟨name, rhs, value, hs, hv, hnan, ?_, he⟩⟩
    · intro herr
      have hout : out = [Output.scalar sigFigures name value] := by
        have := handle_new_variable_out env name value sigFigures
        rw [← he] at this
        exact this
      rw [hout] at herr
      simp at herr
    · rcases valid_variable_name_range name with h1 | h0
      · exact h1
      · exact absurd h0 hname

/-! ## The token loop: properties -/

theorem token_token_array (size : Nat) (stored : List CStr) (i : Nat) :
    token (token_array size stored) i = stored[i]? := by
  unfold token token_array
  by_cases hi : i < stored.length
  · rw [List.get?_eq_getElem?, List.getElem?_append_left (by simpa using hi)]
    simp [List.getElem?_eq_getElem hi]
  · have hi' : stored.length ≤ i := by omega
    rw [List.get?_eq_getElem?, List.getElem?_append_right (by simpa using hi'),
      List.getElem?_eq_none_iff.mpr hi']
    cases h : (List.replicate (size - stored.length) (none : Option CStr))[i -
        (List.map some stored).length]? with
    | none => rfl
    | some x =>
      have := List.getElem?_mem h
      rw [List.mem_replicate] at this
      rw [this.2]; rfl

theorem strtok_nil (delim : Char) : strtok [] delim = none := by
  simp [strtok]

theorem token_loop_nil (delim : Char) (size : Nat) : token_loop delim size [] = [] := by
  cases size <;> simp [token_loop, strtok_nil]

theorem count_dropWhile_le (d : Char) (s : CStr) :
    (s.dropWhile (fun c => c == d)).count d ≤ s.count d := by
  induction s with
  | nil => simp
  | cons c cs ih =>
    by_cases h : c = d
    · subst h
      simp only [List.dropWhile_cons, beq_self_eq_true, if_true, List.count_cons_self]
      omega
    · simp [List.dropWhile_cons, h]

theorem count_dropWhile_ne (d : Char) (s : CStr) (hs : s.dropWhile (fun c => c != d) ≠ []) :
    s.count d = ((s.dropWhile (fun c => c != d)).drop 1).count d + 1
    ∧ (s.dropWhile (fun c => c != d)).head? = some d := by
  induction s with
  | nil => simp at hs
  | cons c cs ih =>
    by_cases h : c = d
    · subst h
      simp [List.dropWhile_cons]
    · have hcd : (c != d) = true := by simpa using h
      simp only [List.dropWhile_cons, hcd, if_true] at hs ⊢
      have := ih hs
      rw [List.count_cons_of_ne (fun e => h e.symm)]
      exact this

/-- The token loop stores at most one token more than there are delimiters
after the leading ones. -/
theorem token_loop_length_le_count (d : Char) (size : Nat) (s : CStr) :
    (token_loop d size s).length ≤ (s.dropWhile (fun c => c == d)).count d + 1 := by
  induction size generalizing s with
  | zero => simp [token_loop]
  | succ k ih =>
    unfold token_loop strtok
    simp only []
    split
    · simp
    · rename_i myptr rest' heq
      split at heq
      · exact absurd heq (by simp)
      · simp only [Option.some.injEq, Prod.mk.injEq] at heq
        rw [← heq.2]
        simp only [List.length_cons]
        by_cases hd : (s.dropWhile (fun c => c == d)).dropWhile (fun c => c != d) = []
        · rw [hd]; simp [token_loop_nil]
        · have h1 := (count_dropWhile_ne d _ hd).1
          have h2 := ih (((s.dropWhile (fun c => c == d)).dropWhile (fun c => c != d)).drop 1)
          have h3 := count_dropWhile_le d
            (((s.dropWhile (fun c => c == d)).dropWhile (fun c => c != d)).drop 1)
          omega

/-- When the token loop stores one token more than the text has delimiters,
the text does not start with a delimiter and the first token is the text before
the first delimiter. -/
theorem token_loop_head (d : Char) (size : Nat) (s : CStr)
    (h : (token_loop d size s).length = s.count d + 1) :
    (token_loop d size s)[0]? = some (s.takeWhile (fun c => c != d)) := by
  have hle := token_loop_length_le_count d size s
  have hdrop : s.dropWhile (fun c => c == d) = s := by
    cases s with
    | nil => rfl
    | cons c cs =>
      by_cases hc : c = d
      · subst hc
        exfalso
        have := count_dropWhile_le c cs
        simp only [List.dropWhile_cons, beq_self_eq_true, if_true, List.count_cons_self] at hle h
        omega
      · simp [List.dropWhile_cons, hc]
  cases size with
  | zero => simp [token_loop] at h
  | succ k =>
    unfold token_loop strtok at h ⊢
    simp only [hdrop] at h ⊢
    split
    · rename_i heq
      rw [heq] at h
      simp at h
    · rename_i myptr rest' heq
      split at heq
      · exact absurd heq (by simp)
      · simp only [Option.some.injEq, Prod.mk.injEq] at heq
        simp [heq.1]

theorem valid_double_range (strtod : Strtod) (value : CStr) :
    valid_double strtod value = 1 ∨ valid_double strtod value = 0 := by
  unfold valid_double
  simp only []
  split
  · exact Or.inl rfl
  · exact Or.inr rfl

theorem ne_zero_iff_eq_one {x : Int} (h : x = 1 ∨ x = 0) : x ≠ 0 ↔ x = 1 := by
  rcases h with h | h <;> simp [h]

/-- What the code of `validate_loop_tokens` accepts: 4 tokens, a valid name,
three texts that `valid_double` accepts, and values on which none of its three
tests fires. -/
theorem validate_loop_tokens_eq_one (strtod : Strtod) (tokens : List (Option CStr))
    (count : Int) :
    validate_loop_tokens strtod tokens count = some 1 ↔
      count = 4 ∧ ∃ name startText incrementText endText,
        token tokens 0 = some name ∧ token tokens 1 = some startText
        ∧ token tokens 2 = some incrementText ∧ token tokens 3 = some endText
        ∧ valid_variable_name name = 1
        ∧ valid_double strtod startText = 1
        ∧ valid_double strtod incrementText = 1
        ∧ valid_double strtod endText = 1
        ∧ Double.eq (atof strtod incrementText) Double.zero = false
        ∧ ¬ (Double.lt (atof strtod startText) (atof strtod endText) = true
              ∧ Double.le (atof strtod incrementText) Double.zero = true)
        ∧ ¬ (Double.gt (atof strtod startText) (atof strtod endText) = true
              ∧ Double.ge (atof strtod incrementText) Double.zero = true) := by
  unfold validate_loop_tokens
  simp only [LOOP_VARIABLE_SIZE, START, INCREMENT, END]
  by_cases hc : count = 4
  swap
  · simp [hc]
  simp only [hc, ne_eq, not_true_eq_false, if_false, true_and]
  cases h0 : token tokens 0 with
  | none => simp
  | some name =>
    simp only []
    have hn := ne_zero_iff_eq_one (valid_variable_name_range name)
    by_cases hv : valid_variable_name name = 0
    · simp [hv]
    simp only [hv, if_false]
    cases h1 : token tokens 1 with
    | none => simp
    | some startText =>
      simp only []
      have hs := ne_zero_iff_eq_one (valid_double_range strtod startText)
      by_cases hvs : valid_double strtod startText = 0
      · simp [hvs]
      simp only [hvs, if_false]
      cases h2 : token tokens 2 with
      | none => simp
      | some incrementText =>
        simp only []
        have hi := ne_zero_iff_eq_one (valid_double_range strtod incrementText)
        by_cases hvi : valid_double strtod incrementText = 0
        · simp [hvi]
        simp only [hvi, if_false]
        cases h3 : token tokens 3 with
        | none => simp
        | some endText =>
          simp only []
          have he := ne_zero_iff_eq_one (valid_double_range strtod endText)
          by_cases hve : valid_double strtod endText = 0
          · simp [hve]
          simp only [hve, if_false]
          constructor
          · intro h
            by_cases c1 : Double.eq (atof strtod incrementText) Double.zero = true
            · simp [c1] at h
            simp only [c1, Bool.false_eq_true, if_false] at h
            by_cases c2 : (Double.lt (atof strtod startText) (atof strtod endText)
                && Double.le (atof strtod incrementText) Double.zero) = true
            · simp [c2] at h
            simp only [c2, Bool.false_eq_true, if_false] at h
            by_cases c3 : (Double.gt (atof strtod startText) (atof strtod endText)
                && Double.ge (atof strtod incrementText) Double.zero) = true
            · simp [c3] at h
            simp only [Bool.and_eq_true] at c2 c3
            exact ⟨name, startText, incrementText, endText, rfl, rfl, rfl, rfl, hn.mp hv,
              hs.mp hvs, hi.mp hvi, he.mp hve, by simpa using c1, c2, c3⟩
          · rintro ⟨n, s, i, e, e0, e1, e2, e3, -, -, -, -, c1, c2, c3⟩
            simp only [Option.some.injEq] at e0 e1 e2 e3
            subst e0 e1 e2 e3
            have c2' : ¬ (Double.lt (atof strtod startText) (atof strtod endText)
                && Double.le (atof strtod incrementText) Double.zero) = true := by
              simpa only [Bool.and_eq_true] using c2
            have c3' : ¬ (Double.gt (atof strtod startText) (atof strtod endText)
                && Double.ge (atof strtod incrementText) Double.zero) = true := by
              simpa only [Bool.and_eq_true] using c3
            simp only [c1, Bool.false_eq_true, if_false, c2', c3']

theorem validate_loop_tokens_range (strtod : Strtod) (stored : List CStr) (size : Nat) :
    validate_loop_tokens strtod (token_array size stored) stored.length = some 1
    ∨ validate_loop_tokens strtod (token_array size stored) stored.length = some 0 := by
  unfold validate_loop_tokens
  simp only [LOOP_VARIABLE_SIZE, START, INCREMENT, END, token_token_array]
  by_cases hc : (stored.length : Int) = 4
  swap
  · simp [hc]
  have hc' : stored.length = 4 := by exact_mod_cast hc
  match stored, hc' with
  | [a, b, c, d], _ =>
    simp only [List.length_cons, List.length_nil, List.getElem?_cons_zero,
      List.getElem?_cons_succ]
    split_ifs <;> simp_all

/-! ## The command-line initialiser: properties -/

/-- What `def_handler` does: it returns 0 and leaves the scalars, or the text
is `name=value` with a valid name and a value `valid_double` accepts, and it
returns 1 and appends the scalar. -/
theorem def_handler_cases (strtod : Strtod) (v : CStr) (defs : List Def) :
    def_handler strtod v defs = some (0, defs)
    ∨ ∃ name valueText,
        token_loop '=' DEF_TOKEN_SIZE v = [name, valueText]
        ∧ v.count '=' = 1
        ∧ name = v.takeWhile (fun c => c != '=')
        ∧ valid_variable_name name = 1
        ∧ valid_double strtod valueText = 1
        ∧ def_handler strtod v defs =
            some (1, defs ++ [{ name := name, value := atof strtod valueText }]) := by
  unfold def_handler
  simp only [token_token_array]
  by_cases hd : delim_check v '=' = 0
  · left; simp [hd]
  simp only [hd, if_false]
  have hcount : v.count '=' = 1 := by
    unfold delim_check at hd
    simp only [show ¬ ('=' = ',') by decide, if_false, if_true] at hd
    by_contra hne
    apply hd
    have : ¬ ((v.count '=' : Nat) : Int) = 1 := by exact_mod_cast hne
    simp [this]
  by_cases hl : ((token_loop '=' DEF_TOKEN_SIZE v).length : Int) = 2
  swap
  · left; simp [hl]
  simp only [hl, ne_eq, not_true_eq_false, if_false]
  have hl' : (token_loop '=' DEF_TOKEN_SIZE v).length = 2 := by exact_mod_cast hl
  have hhead := token_loop_head '=' DEF_TOKEN_SIZE v (by rw [hl', hcount])
  generalize token_loop '=' DEF_TOKEN_SIZE v = stored at hl' hhead ⊢
  match stored, hl' with
  | [name, valueText], _ =>
    simp only [List.getElem?_cons_zero, Option.some.injEq] at hhead
    simp only [List.getElem?_cons_zero, List.getElem?_cons_succ]
    by_cases hn : valid_variable_name name = 0
    · left; simp [hn]
    by_cases hv : valid_double strtod valueText = 0
    · left; simp [hn, hv]
    right
    refine ⟨name, valueText, rfl, hcount, hhead,
      (ne_zero_iff_eq_one (valid_variable_name_range name)).mp hn,
      (ne_zero_iff_eq_one (valid_double_range strtod valueText)).mp hv, ?_⟩
    simp [hn, hv, add_def]

/-- What `loop_handler` does: it returns 0 and leaves the loops, or the text
is `name,start,increment,end` with a valid name, and it returns 1 and appends a
loop variable with that name. -/
theorem loop_handler_cases (strtod : Strtod) (v : CStr) (loops : List Loop) :
    loop_handler strtod v loops = some (0, loops)
    ∨ ∃ name startText incrementText endText,
        token_loop ',' LOOP_TOKEN_SIZE v = [name, startText, incrementText, endText]
        ∧ v.count ',' = 3
        ∧ name = v.takeWhile (fun c => c != ',')
        ∧ validate_loop_tokens strtod
            (token_array LOOP_TOKEN_SIZE [name, startText, incrementText, endText]) 4 = some 1
        ∧ loop_handler strtod v loops =
            some (1, loops ++ [{ name := name, start := atof strtod startText,
                                 increment := atof strtod incrementText,
                                 end_ := atof strtod endText }]) := by
  unfold loop_handler
  by_cases hd : delim_check v ',' = 0
  · left; simp [hd]
  simp only [hd, if_false]
  have hcount : v.count ',' = 3 := by
    unfold delim_check at hd
    simp only [if_true, LOOP_VALUES_SIZE] at hd
    by_contra hne
    apply hd
    have : ¬ ((v.count ',' : Nat) : Int) = ((3 : Nat) : Int) := by exact_mod_cast hne
    rw [if_pos this]
  rcases validate_loop_tokens_range strtod (token_loop ',' LOOP_TOKEN_SIZE v) LOOP_TOKEN_SIZE
    with h1 | h0
  swap
  · left; simp [h0]
  have hfour := ((validate_loop_tokens_eq_one strtod _ _).mp h1).1
  have hl' : (token_loop ',' LOOP_TOKEN_SIZE v).length = 4 := by exact_mod_cast hfour
  have hhead := token_loop_head ',' LOOP_TOKEN_SIZE v (by rw [hl', hcount])
  right
  generalize token_loop ',' LOOP_TOKEN_SIZE v = stored at hl' hhead h1 ⊢
  match stored, hl' with
  | [name, startText, incrementText, endText], _ =>
    simp only [List.getElem?_cons_zero, Option.some.injEq] at hhead
    refine ⟨name, startText, incrementText, endText, rfl, hcount, hhead, h1, ?_⟩
    simp only [h1]
    simp [token_token_array, START, INCREMENT, END, add_loop]

theorem sig_handler_cases (sigCount : Int) (input : CStr) :
    sig_handler sigCount input = Startup.exit 12
    ∨ ∃ r, sig_handler sigCount input = Startup.ok r := by
  unfold sig_handler
  simp only [USAGE_CODE]
  split
  · exact Or.inl rfl
  · split
    · exact Or.inr ⟨_, rfl⟩
    · exact Or.inl rfl

theorem file_validator_cases (fopen : CStr → Bool) (fileName : CStr) :
    file_validator fopen fileName = Startup.exit 12
    ∨ file_validator fopen fileName = Startup.exit 19
    ∨ file_validator fopen fileName = Startup.ok 1 := by
  unfold file_validator
  simp only [USAGE_CODE, FILE_READ_CODE]
  split
  · exact Or.inl rfl
  · split
    · exact Or.inr (Or.inl rfl)
    · exact Or.inr (Or.inr rfl)

theorem names_add_def_perm (env : Environment) (name : CStr) (value : Double)
    (rest : List CStr) :
    (({ env with defs := env.defs ++ [{ name := name, value := value }] } : Environment).names
        ++ rest).Perm (env.names ++ name :: rest) := by
  simp only [Environment.names, List.map_append, List.map_cons, List.map_nil, List.append_assoc,
    List.singleton_append]
  apply List.Perm.append_left
  exact List.perm_middle.symm

theorem names_add_loop_perm (env : Environment) (l : Loop) (rest : List CStr) :
    (({ env with loops := env.loops ++ [l] } : Environment).names ++ rest).Perm
      (env.names ++ l.name :: rest) := by
  simp only [Environment.names, List.map_append, List.map_cons, List.map_nil, List.append_assoc,
    List.singleton_append]
  exact List.Perm.refl _

/-- The loop of `check_validity` never runs into undefined behaviour, exits
with 12, 4 or 19 only, and otherwise ends with the names it was given and the
names the arguments supply. -/
theorem check_validity_loop_cases (strtod : Strtod) (fopen : CStr → Bool) (n : Nat) :
    ∀ (args : List CStr) (st : Settings) (sigCount : Int), args.length ≤ n →
      (∃ c, check_validity_loop strtod fopen args st sigCount = Startup.exit c
          ∧ (c = 12 ∨ c = 4 ∨ c = 19))
      ∨ ∃ st', check_validity_loop strtod fopen args st sigCount = Startup.ok st'
          ∧ st'.env.names.Perm (st.env.names ++ supplied_names args)
          ∧ ∀ x ∈ st'.env.names, x ∈ st.env.names ∨ x.length ≤ 20 := by
  induction n with
  | zero =>
    intro args st sigCount hlen
    have : args = [] := List.length_eq_zero.mp (Nat.le_zero.mp hlen)
    subst this
    right
    exact ⟨st, by simp [check_validity_loop], by simp [supplied_names], fun x hx => Or.inl hx⟩
  | succ n ih =>
    intro args st sigCount hlen
    match args, hlen with
    | [], _ =>
      right
      exact ⟨st, by simp [check_validity_loop], by simp [supplied_names], fun x hx => Or.inl hx⟩
    | [arg], _ =>
      unfold check_validity_loop
      simp only [strcmp_eq_zero, INVALID_VARIABLES_CODE, USAGE_CODE]
      split
      · left; exact ⟨12, rfl, Or.inl rfl⟩
      split
      · left; exact ⟨12, rfl, Or.inl rfl⟩
      split
      · left; exact ⟨12, rfl, Or.inl rfl⟩
      rcases file_validator_cases fopen arg with h | h | h
      · left; rw [h]; exact ⟨12, rfl, Or.inl rfl⟩
      · left; rw [h]; exact ⟨19, rfl, Or.inr (Or.inr rfl)⟩
      · right; rw [h]; exact ⟨_, rfl, by simp [supplied_names], fun x hx => Or.inl hx⟩
    | arg :: value :: rest, hlen =>
      have hrest : rest.length ≤ n := by
        simp only [List.length_cons] at hlen; omega
      unfold check_validity_loop
      simp only [strcmp_eq_zero, INVALID_VARIABLES_CODE, USAGE_CODE]
      by_cases hdef : arg = def_
      · simp only [hdef, if_true]
        rcases def_handler_cases strtod value st.env.defs with h | ⟨name, vt, -, -, hname, hval, -, h⟩
        · left; rw [h]; exact ⟨4, by simp, Or.inr (Or.inl rfl)⟩
        · rw [h]
          simp only [one_ne_zero, if_false]
          rcases ih rest { st with env := { st.env with defs := st.env.defs ++
              [{ name := name, value := atof strtod vt }] } } sigCount hrest with
            ⟨c, hc, hcc⟩ | ⟨st', hs, hp, hfit⟩
          · left; exact ⟨c, hc, hcc⟩
          · right
            refine ⟨st', hs, hp.trans ?_, ?_⟩
            · have : supplied_names (def_ :: value :: rest) = name :: supplied_names rest := by
                simp [supplied_names, hname]
              rw [this]
              exact names_add_def_perm st.env name _ _
            · intro x hx
              rcases hfit x hx with hm | hm
              · simp only [Environment.names, List.map_append, List.map_cons, List.map_nil,
                  List.mem_append, List.mem_singleton] at hm
                rcases hm with (hm | hm) | hm
                · left; simp only [Environment.names, List.mem_append]; exact Or.inl hm
                · right; rw [hm]; exact length_le_of_valid name (by rw [hval]; decide)
                · left; simp only [Environment.names, List.mem_append]; exact Or.inr hm
              · exact Or.inr hm
      simp only [hdef, if_false]
      by_cases hloop : arg = loop
      · simp only [hloop, if_true]
        rcases loop_handler_cases strtod value st.env.loops with
          h | ⟨name, s, i, e, -, -, hname, hval, h⟩
        · left; rw [h]; exact ⟨4, by simp, Or.inr (Or.inl rfl)⟩
        · rw [h]
          simp only [one_ne_zero, if_false]
          rcases ih rest { st with env := { st.env with loops := st.env.loops ++
              [{ name := name, start := atof strtod s, increment := atof strtod i,
                 end_ := atof strtod e }] } } sigCount hrest with
            ⟨c, hc, hcc⟩ | ⟨st', hs, hp, hfit⟩
          · left; exact ⟨c, hc, hcc⟩
          · right
            refine ⟨st', hs, hp.trans ?_, ?_⟩
            · have : supplied_names (loop :: value :: rest) = name :: supplied_names rest := by
                simp [supplied_names, hname, show ¬ (loop = def_) by decide]
              rw [this]
              exact names_add_loop_perm st.env _ _
            · have hvalid : valid_variable_name name = 1 := by
                obtain ⟨-, n0, s0, i0, e0, h0, -, -, -, hv, -⟩ :=
                  (validate_loop_tokens_eq_one strtod _ _).mp hval
                simp only [token_token_array, List.getElem?_cons_zero, Option.some.injEq] at h0
                rw [h0]; exact hv
              intro x hx
              rcases hfit x hx with hm | hm
              · simp only [Environment.names, List.map_append, List.map_cons, List.map_nil,
                  List.mem_append, List.mem_singleton] at hm
                rcases hm with hm | hm | hm
                · left; simp only [Environment.names, List.mem_append]; exact Or.inl hm
                · left; simp only [Environment.names, List.mem_append]; exact Or.inr hm
                · right; rw [hm]; exact length_le_of_valid name (by rw [hvalid]; decide)
              · exact Or.inr hm
      simp only [hloop, if_false]
      have hsup : supplied_names (arg :: value :: rest) = supplied_names rest := by
        simp [supplied_names, hdef, hloop]
      by_cases hsig : arg = sig
      · simp only [hsig, if_true]
        rcases sig_handler_cases sigCount value with h | ⟨⟨c', f'⟩, h⟩
        · left; rw [h]; exact ⟨12, rfl, Or.inl rfl⟩
        · rw [h]
          simp only []
          rcases ih rest { st with sigFigures := f' } c' hrest with
            ⟨c, hc, hcc⟩ | ⟨st', hs, hp, hfit⟩
          · left; exact ⟨c, hc, hcc⟩
          · right
            rw [← hsig, hsup]
            exact ⟨st', hs, hp, hfit⟩
      · simp only [hsig, if_false]
        left; exact ⟨12, rfl, Or.inl rfl⟩

theorem strtod_model_1 : strtod_model "1".toList = (Double.fin 1, 1) := by
  simp [strtod_model, strtod_subject, strtod_number, strtod_exponent, digits_value, digit_value,
    isdigit, isspace, tolower, List.isPrefixOf, Double.zero]

theorem strtod_model_2 : strtod_model "2".toList = (Double.fin 2, 1) := by
  simp [strtod_model, strtod_subject, strtod_number, strtod_exponent, digits_value, digit_value,
    isdigit, isspace, tolower, List.isPrefixOf, Double.zero]

theorem strtod_model_5 : strtod_model "5".toList = (Double.fin 5, 1) := by
  simp [strtod_model, strtod_subject, strtod_number, strtod_exponent, digits_value, digit_value,
    isdigit, isspace, tolower, List.isPrefixOf, Double.zero]

theorem strtod_model_10 : strtod_model "10".toList = (Double.fin 10, 2) := by
  simp [strtod_model, strtod_subject, strtod_number, strtod_exponent, digits_value, digit_value,
    isdigit, isspace, tolower, List.isPrefixOf, Double.zero]

theorem strtod_model_nan : strtod_model "nan".toList = (Double.nan, 3) := by
  decide

theorem valid_double_model_1 : valid_double strtod_model "1".toList = 1 := by
  unfold valid_double; rw [strtod_model_1]; decide

theorem valid_double_model_2 : valid_double strtod_model "2".toList = 1 := by
  unfold valid_double; rw [strtod_model_2]; decide

theorem valid_double_model_5 : valid_double strtod_model "5".toList = 1 := by
  unfold valid_double; rw [strtod_model_5]; decide

theorem valid_double_model_10 : valid_double strtod_model "10".toList = 1 := by
  unfold valid_double; rw [strtod_model_10]; decide

theorem valid_double_model_nan : valid_double strtod_model "nan".toList = 1 := by
  decide

theorem def_handler_a1 (defs : List Def) :
    def_handler strtod_model "a=1".toList defs =
      some (1, defs ++ [{ name := "a".toList, value := Double.fin 1 }]) := by
  have h1 : delim_check "a=1".toList '=' = 1 := by decide
  have h2 : token_loop '=' DEF_TOKEN_SIZE "a=1".toList = ["a".toList, "1".toList] := by decide
  have h3 : valid_variable_name "a".toList = 1 := by decide
  have h4 := valid_double_model_1
  have h5 := strtod_model_1
  simp only [String.toList] at h1 h2 h3 h4 h5 ⊢
  simp [def_handler, h1, h2, h3, h4, h5, token_token_array, atof, add_def]

theorem def_handler_b2 (defs : List Def) :
    def_handler strtod_model "b=2".toList defs =
      some (1, defs ++ [{ name := "b".toList, value := Double.fin 2 }]) := by
  have h1 : delim_check "b=2".toList '=' = 1 := by decide
  have h2 : token_loop '=' DEF_TOKEN_SIZE "b=2".toList = ["b".toList, "2".toList] := by decide
  have h3 : valid_variable_name "b".toList = 1 := by decide
  have h4 := valid_double_model_2
  have h5 := strtod_model_2
  simp only [String.toList] at h1 h2 h3 h4 h5 ⊢
  simp [def_handler, h1, h2, h3, h4, h5, token_token_array, atof, add_def]

theorem loop_handler_a115 (loops : List Loop) :
    loop_handler strtod_model "a,1,1,5".toList loops =
      some (1, loops ++ [{ name := "a".toList, start := Double.fin 1,
                           increment := Double.fin 1, end_ := Double.fin 5 }]) := by
  have h1 : delim_check "a,1,1,5".toList ',' = 1 := by decide
  have h2 : token_loop ',' LOOP_TOKEN_SIZE "a,1,1,5".toList =
      ["a".toList, "1".toList, "1".toList, "5".toList] := by decide
  have h3 : valid_variable_name "a".toList = 1 := by decide
  have h4 := valid_double_model_1
  have h5 := strtod_model_1
  have h6 := valid_double_model_5
  have h7 := strtod_model_5
  simp only [String.toList] at h1 h2 h3 h4 h5 h6 h7 ⊢
  simp [loop_handler, validate_loop_tokens, h1, h2, h3, h4, h5, h6, h7, token_token_array, atof,
    add_loop, LOOP_VARIABLE_SIZE, START, INCREMENT, END, Double.eq, Double.lt, Double.le,
    Double.gt, Double.ge, Double.zero]
  norm_num

/-- The command line `uqexpr --def a=1 --forloop a,1,1,5` exits with status 18. -/
theorem check_validity_example_duplicate (fopen : CStr → Bool) :
    check_validity strtod_model fopen
      ["uqexpr".toList, "--def".toList, "a=1".toList, "--forloop".toList, "a,1,1,5".toList]
      Settings.initial = Startup.exit 18 := by
  have h1 := def_handler_a1
  have h2 := loop_handler_a115
  have h3 : unique_name_check
      { defs := [{ name := "a".toList, value := Double.fin 1 }],
        loops := [{ name := "a".toList, start := Double.fin 1,
                    increment := Double.fin 1, end_ := Double.fin 5 }] } = some 0 := by decide
  simp only [String.toList] at h1 h2 h3 ⊢
  simp [check_validity, check_validity_loop, strcmp_eq_zero, def_, loop, sig, h1, h2, h3,
    Settings.initial, DUPLICATE_NAME_CODE]

/-- The command line `uqexpr --def a=1 --def b=2` ends the start of the
program with the scalars `a = 1` and `b = 2`. -/
theorem check_validity_example_distinct (fopen : CStr → Bool) :
    check_validity strtod_model fopen
      ["uqexpr".toList, "--def".toList, "a=1".toList, "--def".toList, "b=2".toList]
      Settings.initial =
      Startup.ok
        { env := { defs := [{ name := "a".toList, value := Double.fin 1 },
                            { name := "b".toList, value := Double.fin 2 }], loops := [] },
          sigFigures := 3, filePresent := 0 } := by
  have h1 := def_handler_a1
  have h2 := def_handler_b2
  have h3 : unique_name_check
      { defs := [{ name := "a".toList, value := Double.fin 1 },
                 { name := "b".toList, value := Double.fin 2 }], loops := [] } = some 1 := by
    decide
  simp only [String.toList] at h1 h2 h3 ⊢
  simp [check_validity, check_validity_loop, strcmp_eq_zero, def_, loop, sig, h1, h2, h3,
    Settings.initial, DEFAULT_SIG_FIGURES]

/-- The start of the program from the variables of `main`: an exit with 12, 4
or 19 out of the loop of `check_validity`, and otherwise an exit with 18 when
two of the supplied names are equal and the end of `check_validity` when they
are pairwise distinct. -/
theorem check_validity_cases (strtod : Strtod) (fopen : CStr → Bool) (argv : List CStr) :
    (∃ c, check_validity strtod fopen argv Settings.initial = Startup.exit c
        ∧ (c = 12 ∨ c = 4 ∨ c = 19))
    ∨ (¬ (supplied_names (argv.drop 1)).Nodup
        ∧ check_validity strtod fopen argv Settings.initial = Startup.exit 18)
    ∨ ((supplied_names (argv.drop 1)).Nodup
        ∧ ∃ st, check_validity strtod fopen argv Settings.initial = Startup.ok st
            ∧ st.env.names.Perm (supplied_names (argv.drop 1))) := by
  rcases check_validity_loop_cases strtod fopen (argv.drop 1).length (argv.drop 1)
      Settings.initial 0 (le_refl _) with ⟨c, hc, hcc⟩ | ⟨st', hs, hp, hfit⟩
  · left
    exact ⟨c, by simp only [check_validity, hc], hcc⟩
  · right
    have hp' : st'.env.names.Perm (supplied_names (argv.drop 1)) := by
      simpa [Settings.initial, Environment.names] using hp
    have hfit' : ∀ x ∈ st'.env.names, x.length ≤ 20 := by
      intro x hx
      rcases hfit x hx with h | h
      · simp [Settings.initial, Environment.names] at h
      · exact h
    have hu := unique_name_check_of_fit st'.env hfit'
    by_cases hN : (supplied_names (argv.drop 1)).Nodup
    · right
      have h1 : unique_name_check_loop st'.env.names = 1 :=
        (unique_name_check_loop_eq_one _).mpr (hp'.nodup_iff.mpr hN)
      refine ⟨hN, st', ?_, hp'⟩
      simp only [check_validity, hs, hu, h1, one_ne_zero, if_false]
    · left
      have h0 : unique_name_check_loop st'.env.names = 0 := by
        rcases unique_name_check_loop_range st'.env.names with h | h
        · exact absurd (hp'.nodup_iff.mp ((unique_name_check_loop_eq_one _).mp h)) hN
        · exact h
      refine ⟨hN, ?_⟩
      simp only [check_validity, hs, hu, h0, if_true, DUPLICATE_NAME_CODE]

/-- C7: on a command line that brings no usage error (12), no invalid
specification (4) and no file error (19), the start of the program exits with
status 18 if and only if two of the names that the `--def` and `--forloop`
options supply are equal, and otherwise `check_validity` returns, with exactly
the supplied names in the environment.  `--def a=1 --forloop a,1,1,5` exits
with 18, and `--def a=1 --def b=2` returns with the scalars `a = 1`, `b = 2`. -/
theorem check_validity_duplicate_names :
    (∀ (strtod : Strtod) (fopen : CStr → Bool) (argv : List CStr),
      check_validity strtod fopen argv Settings.initial ≠ Startup.exit 12 →
      check_validity strtod fopen argv Settings.initial ≠ Startup.exit 4 →
      check_validity strtod fopen argv Settings.initial ≠ Startup.exit 19 →
      (check_validity strtod fopen argv Settings.initial = Startup.exit 18 ↔
        ¬ (supplied_names (argv.drop 1)).Nodup)
      ∧ ((supplied_names (argv.drop 1)).Nodup →
          ∃ st, check_validity strtod fopen argv Settings.initial = Startup.ok st
            ∧ st.env.names.Perm (supplied_names (argv.drop 1))))
    ∧ (∀ fopen : CStr → Bool, check_validity strtod_model fopen
        ["uqexpr".toList, "--def".toList, "a=1".toList, "--forloop".toList, "a,1,1,5".toList]
        Settings.initial = Startup.exit 18)
    ∧ (∀ fopen : CStr → Bool, check_validity strtod_model fopen
        ["uqexpr".toList, "--def".toList, "a=1".toList, "--def".toList, "b=2".toList]
        Settings.initial =
        Startup.ok
          { env := { defs := [{ name := "a".toList, value := Double.fin 1 },
                              { name := "b".toList, value := Double.fin 2 }], loops := [] },
            sigFigures := 3, filePresent := 0 }) := by
  refine ⟨?_, check_validity_example_duplicate, check_validity_example_distinct⟩
  intro strtod fopen argv h12 h4 h19
  rcases check_validity_cases strtod fopen argv with
    ⟨c, hc, hcc⟩ | ⟨hN, h⟩ | ⟨hN, st, h, hp⟩
  · exfalso
    rcases hcc with e | e | e <;> subst e
    · exact h12 hc
    · exact h4 hc
    · exact h19 hc
  · exact ⟨⟨fun _ => hN, fun _ => h⟩, fun hh => absurd hh hN⟩
  · refine ⟨⟨fun h18 => ?_, fun hh => absurd hN hh⟩, fun _ => ⟨st, h, hp⟩⟩
    rw [h] at h18
    exact absurd h18 (by simp)

/-- The general statement of C7 at `uqexpr --def a=1 --forloop a,1,1,5`: no
exit with 12, 4 or 19, two supplied names `a`, and an exit with 18. -/
theorem check_validity_duplicate_names_witness :
    ¬ (supplied_names (List.drop 1
        ["uqexpr".toList, "--def".toList, "a=1".toList, "--forloop".toList,
          "a,1,1,5".toList])).Nodup
    ∧ check_validity strtod_model (fun _ => false)
        ["uqexpr".toList, "--def".toList, "a=1".toList, "--forloop".toList, "a,1,1,5".toList]
        Settings.initial = Startup.exit 18 :=
  ⟨by decide,
   ((check_validity_duplicate_names.1 strtod_model (fun _ => false)
      ["uqexpr".toList, "--def".toList, "a=1".toList, "--forloop".toList, "a,1,1,5".toList]
      (by rw [check_validity_example_duplicate]; simp)
      (by rw [check_validity_example_duplicate]; simp)
      (by rw [check_validity_example_duplicate]; simp)).1).mpr (by decide)⟩

/-! ## Witnesses and evaluations on concrete lines -/

/-- On the line `x=1` with an evaluator that gives 1 for every expression, the
names stay distinct; and after the start `uqexpr --def a=1 --def b=2`, the
line `c = 1` leaves an environment on which `unique_name_check` returns 1. -/
theorem line_handler_keeps_names_unique_witness :
    (Environment.names { defs := [{ name := "x".toList, value := Double.fin 1 }],
                         loops := [] }).Nodup
    ∧ unique_name_check
        { defs := [{ name := "a".toList, value := Double.fin 1 },
                   { name := "b".toList, value := Double.fin 2 },
                   { name := "c".toList, value := Double.fin 1 }], loops := [] } = some 1 :=
  ⟨line_handler_keeps_names_unique.1 (fun _ _ => some (Double.fin 1)) "x=1".toList
      { defs := [], loops := [] } _ 3 [Output.scalar 3 "x".toList (Double.fin 1)]
      (by decide) (by decide),
   line_handler_keeps_names_unique.2 strtod_model (fun _ => false)
      (fun _ _ => some (Double.fin 1))
      ["uqexpr".toList, "--def".toList, "a=1".toList, "--def".toList, "b=2".toList]
      ["c = 1".toList]
      { env := { defs := [{ name := "a".toList, value := Double.fin 1 },
                          { name := "b".toList, value := Double.fin 2 }], loops := [] },
        sigFigures := 3, filePresent := 0 } _
      [Output.scalar 3 "c".toList (Double.fin 1)]
      (check_validity_example_distinct _) (by decide)⟩

/-- With an evaluator that fails on every expression, the line `x=1` prints
the error message, and the environment with the scalar `y = 2` is as it was. -/
theorem line_handler_error_atomic_witness :
    line_handler (fun _ _ => none) "x=1".toList
      { defs := [{ name := "y".toList, value := Double.fin 2 }], loops := [] } 3 =
      some ({ defs := [{ name := "y".toList, value := Double.fin 2 }], loops := [] },
        [Output.stderr runningError])
    ∧ (Output.stderr runningError ∈ [Output.stderr runningError] →
      ({ defs := [{ name := "y".toList, value := Double.fin 2 }], loops := [] } : Environment) =
        { defs := [{ name := "y".toList, value := Double.fin 2 }], loops := [] }) :=
  ⟨by decide,
   (line_handler_error_atomic (fun _ _ => none) "x=1".toList
      { defs := [{ name := "y".toList, value := Double.fin 2 }], loops := [] }
      { defs := [{ name := "y".toList, value := Double.fin 2 }], loops := [] }
      3 [Output.stderr runningError] (by decide)).1⟩

/-- C9 fails on the lines `a=` and `==`: each has exactly one `=` from index 1
on, so `line_handler` calls `assignment_handler`; the token loop finds one
token in `a=` and none in `==`, `tokens[1]` is `NULL` in both, and the call of
`tiny_expr` on it is undefined behaviour, whatever the evaluator, the
environment and the precision. -/
theorem line_handler_missing_token (te : Evaluator) (env : Environment) (sigFigures : Int) :
    count_equals ((strip_line "a=".toList).drop 1) = 1
    ∧ token_array ASSIGNMENT_TOKEN_SIZE
        (token_loop '=' ASSIGNMENT_TOKEN_SIZE (strip_line "a=".toList)) = [some "a".toList, none]
    ∧ line_handler te "a=".toList env sigFigures = none
    ∧ count_equals ((strip_line "==".toList).drop 1) = 1
    ∧ token_array ASSIGNMENT_TOKEN_SIZE
        (token_loop '=' ASSIGNMENT_TOKEN_SIZE (strip_line "==".toList)) = [none, none]
    ∧ line_handler te "==".toList env sigFigures = none := by
  have h1 : count_equals ((strip_line "a=".toList).drop 1) = 1 := by decide
  have h2 : token_array ASSIGNMENT_TOKEN_SIZE
      (token_loop '=' ASSIGNMENT_TOKEN_SIZE (strip_line "a=".toList)) =
      [some "a".toList, none] := by decide
  have h3 : count_equals ((strip_line "==".toList).drop 1) = 1 := by decide
  have h4 : token_array ASSIGNMENT_TOKEN_SIZE
      (token_loop '=' ASSIGNMENT_TOKEN_SIZE (strip_line "==".toList)) = [none, none] := by decide
  refine ⟨h1, h2, ?_, h3, h4, ?_⟩
  · have ha : (strip_line "a=".toList).head? ≠ some '#' ∧ strip_line "a=".toList ≠ [] := by
      decide
    have hp : strcmp "a=".toList print ≠ 0 := by decide
    simp only [line_handler, ha.1, ha.2, hp, h1, or_self, if_false, assignment_handler, h2]
    simp [token, tiny_expr]
  · have ha : (strip_line "==".toList).head? ≠ some '#' ∧ strip_line "==".toList ≠ [] := by
      decide
    have hp : strcmp "==".toList print ≠ 0 := by decide
    simp only [line_handler, ha.1, ha.2, hp, h3, or_self, if_false, assignment_handler, h4]
    simp [token, tiny_expr]

/-- C10 fails on the tokens `x`, `1`, `nan`, `10`, which `loop_handler` gets
from `--forloop x,1,nan,10`: the start 1 is less than the end 10 and the
increment NaN is not greater than 0, yet `validate_loop_tokens` returns 1 and
the loop variable is added, because `increment <= 0` is false for NaN.  On the
examples of the claim the function does what the claim says: `1, 2, 10` is
accepted and `10, 2, 1` is rejected. -/
theorem validate_loop_tokens_nan_increment :
    validate_loop_tokens strtod_model
      [some "x".toList, some "1".toList, some "nan".toList, some "10".toList, none] 4 = some 1
    ∧ atof strtod_model "1".toList = Double.fin 1
    ∧ atof strtod_model "nan".toList = Double.nan
    ∧ atof strtod_model "10".toList = Double.fin 10
    ∧ Double.lt (Double.fin 1) (Double.fin 10) = true
    ∧ Double.gt Double.nan Double.zero = false
    ∧ loop_handler strtod_model "x,1,nan,10".toList [] =
        some (1, [{ name := "x".toList, start := Double.fin 1, increment := Double.nan,
                    end_ := Double.fin 10 }])
    ∧ validate_loop_tokens strtod_model
      [some "x".toList, some "1".toList, some "2".toList, some "10".toList, none] 4 = some 1
    ∧ validate_loop_tokens strtod_model
      [some "x".toList, some "10".toList, some "2".toList, some "1".toList, none] 4 = some 0 := by
  have h3 : valid_variable_name "x".toList = 1 := by decide
  have h4 := valid_double_model_1
  have h5 := strtod_model_1
  have h6 := valid_double_model_10
  have h7 := strtod_model_10
  have h8 := valid_double_model_nan
  have h9 := strtod_model_nan
  have h10 := valid_double_model_2
  have h11 := strtod_model_2
  have h1 : delim_check "x,1,nan,10".toList ',' = 1 := by decide
  have h2 : token_loop ',' LOOP_TOKEN_SIZE "x,1,nan,10".toList =
      ["x".toList, "1".toList, "nan".toList, "10".toList] := by decide
  have hlt : Double.lt (Double.fin 1) (Double.fin 10) = true := by
    simp only [Double.lt, decide_eq_true_eq]; norm_num
  have hv : validate_loop_tokens strtod_model
      [some "x".toList, some "1".toList, some "nan".toList, some "10".toList, none] 4 =
      some 1 := by
    simp only [String.toList] at h3 h4 h5 h6 h7 h8 h9 ⊢
    simp [validate_loop_tokens, token, h3, h4, h5, h6, h7, h8, h9, atof, LOOP_VARIABLE_SIZE,
      START, INCREMENT, END, Double.eq, Double.lt, Double.le, Double.gt, Double.ge, Double.zero]
  refine ⟨hv, by rw [atof, h5], by rw [atof, h9], by rw [atof, h7], hlt, rfl, ?_, ?_, ?_⟩
  · simp only [String.toList] at h1 h2 h3 h4 h5 h6 h7 h8 h9 ⊢
    simp [loop_handler, validate_loop_tokens, h1, h2, h3, h4, h5, h6, h7, h8, h9,
      token_token_array, atof, add_loop, LOOP_VARIABLE_SIZE, START, INCREMENT, END, Double.eq,
      Double.lt, Double.le, Double.gt, Double.ge, Double.zero]
  · simp only [String.toList] at h3 h4 h5 h6 h7 h10 h11 ⊢
    simp [validate_loop_tokens, token, h3, h4, h5, h6, h7, h10, h11, atof, LOOP_VARIABLE_SIZE,
      START, INCREMENT, END, Double.eq, Double.lt, Double.le, Double.gt, Double.ge, Double.zero]
  · simp only [String.toList] at h3 h4 h5 h6 h7 h10 h11 ⊢
    simp [validate_loop_tokens, token, h3, h4, h5, h6, h7, h10, h11, atof, LOOP_VARIABLE_SIZE,
      START, INCREMENT, END, Double.eq, Double.lt, Double.le, Double.gt, Double.ge, Double.zero]

/-! ## The validator valid_double: properties -/

theorem strip_line_eq_normalized (line : CStr) : strip_line line = normalized line := by
  induction line with
  | nil => rfl
  | cons c rest ih =>
    unfold strip_line normalized
    by_cases h : isspace c = true
    · simp only [h, Bool.not_true, Bool.false_eq_true, if_false]
      rw [List.filter_cons_of_neg (by simp [h])]
      exact ih
    · have h' : isspace c = false := by simpa using h
      simp only [h', Bool.not_false, if_true]
      rw [List.filter_cons_of_pos (by simp [h'])]
      rw [ih]; rfl

theorem count_equals_eq_count (s : CStr) : count_equals s = (s.count '=' : Int) := by
  induction s with
  | nil => rfl
  | cons c rest ih =>
    unfold count_equals
    by_cases h : c = '='
    · subst h; simp [ih]
    · simp only [h, if_false, ih]
      rw [List.count_cons_of_ne (fun e => h e.symm)]

theorem handle_new_variable_loops (env : Environment) (name : CStr) (value : Double)
    (sigFigures : Int) : (handle_new_variable env name value sigFigures).1.loops = env.loops := by
  unfold handle_new_variable
  simp only []
  split
  · rfl
  · split
    · rfl
    · split <;> rfl

/-- The requests list every use `line_handler` makes of the evaluator: two
evaluators that agree on the requests of a line give the same result. -/
theorem line_handler_congr (te te' : Evaluator) (line : CStr) (env : Environment)
    (sigFigures : Int)
    (h : ∀ r ∈ line_handler_requests line env, ∀ text, r.expression = some text →
      te text r.teVars = te' text r.teVars) :
    line_handler te line env sigFigures = line_handler te' line env sigFigures := by
  unfold line_handler
  simp only []
  split
  · rfl
  split
  · rfl
  split
  · rfl
  split
  · rename_i h1 h2 h3 h4
    have hreq : line_handler_requests line env =
        tiny_expr_requests (some (strip_line line)) env.defs := by
      unfold line_handler_requests
      simp only [h1, h2, h4, if_false, if_true, expression_handler_requests]
      rfl
    rw [hreq] at h
    simp only [tiny_expr_requests, List.mem_singleton, forall_eq] at h
    have := h (strip_line line) rfl
    simp only [expression_handler, tiny_expr, this]
  split
  · rename_i h1 h2 h3 h4 h5
    unfold assignment_handler
    simp only []
    cases ht : token (token_array ASSIGNMENT_TOKEN_SIZE
        (token_loop '=' ASSIGNMENT_TOKEN_SIZE (strip_line line))) 1 with
    | none => simp [tiny_expr]
    | some text =>
      have hreq : line_handler_requests line env = tiny_expr_requests (some text) env.defs := by
        unfold line_handler_requests
        simp only [h1, h2, h5, if_false, if_true, assignment_handler_requests, ht]
        rfl
      rw [hreq] at h
      simp only [tiny_expr_requests, List.mem_singleton, forall_eq] at h
      have := h text rfl
      simp only [tiny_expr, this]
  · rfl

/-- The loop variables after a call of `line_handler` that returns. -/
theorem loops_line_handler (te : Evaluator) (line : CStr) (env env' : Environment)
    (sigFigures : Int) (out : List Output)
    (h : line_handler te line env sigFigures = some (env', out)) :
    env'.loops = env.loops := by
  rcases line_handler_cases te line env env' sigFigures out h with
    ⟨he, -⟩ | ⟨name, rhs, value, -, -, -, -, he⟩
  · rw [he]
  · have : env' = (handle_new_variable env name value sigFigures).1 := by rw [← he]
    rw [this]; exact handle_new_variable_loops env name value sigFigures

/-- C13: a call of `line_handler` leaves the array of loop variables as it
was, with the same names, starts, increments and ends in the same order,
whatever the line and whatever the evaluator returns. -/
theorem line_handler_loops_unchanged (te : Evaluator) (line : CStr) (env env' : Environment)
    (sigFigures : Int) (out : List Output)
    (h : line_handler te line env sigFigures = some (env', out)) :
    env'.loops = env.loops :=
  loops_line_handler te line env env' sigFigures out h

/-- With the loop `i = 1, 1, 5`, the line `i = 7` leaves the loop as it was. -/
theorem line_handler_loops_unchanged_witness :
    ([{ name := "i".toList, start := Double.fin 1, increment := Double.fin 1,
        end_ := Double.fin 5 }] : List Loop) =
      [{ name := "i".toList, start := Double.fin 1, increment := Double.fin 1,
         end_ := Double.fin 5 }] :=
  line_handler_loops_unchanged (fun _ _ => some (Double.fin 7)) "i = 7".toList
    { defs := [], loops := [{ name := "i".toList, start := Double.fin 1,
                              increment := Double.fin 1, end_ := Double.fin 5 }] }
    { defs := [], loops := [{ name := "i".toList, start := Double.fin 1,
                              increment := Double.fin 1, end_ := Double.fin 5 }] }
    3 [Output.scalar 3 "i".toList (Double.fin 7)] (by decide)

/-- C14: on a line whose whitespace-stripped form is empty or begins with `#`
(so also on a line of white space only, and on a comment after leading white
space), `line_handler` prints nothing on either stream, makes no request to the
evaluator and leaves the environment as it was. -/
theorem line_handler_blank_or_comment (te : Evaluator) (line : CStr) (env : Environment)
    (sigFigures : Int)
    (h : normalized line = [] ∨ (normalized line).head? = some '#') :
    line_handler te line env sigFigures = some (env, [])
    ∧ line_handler_requests line env = [] := by
  have h' : (strip_line line).head? = some '#' ∨ strip_line line = [] := by
    rw [strip_line_eq_normalized]; exact h.symm
  constructor
  · unfold line_handler
    simp only [h', if_true]
  · unfold line_handler_requests
    simp only [h', if_true]

/-- The comment `  # comment` after two spaces and a line of a space, a tab and
a space print nothing and change nothing. -/
theorem line_handler_blank_or_comment_witness :
    line_handler (fun _ _ => some (Double.fin 1)) "  # comment".toList
        { defs := [{ name := "x".toList, value := Double.fin 1 }], loops := [] } 3 =
      some ({ defs := [{ name := "x".toList, value := Double.fin 1 }], loops := [] }, [])
    ∧ line_handler (fun _ _ => some (Double.fin 1)) " \t ".toList
        { defs := [{ name := "x".toList, value := Double.fin 1 }], loops := [] } 3 =
      some ({ defs := [{ name := "x".toList, value := Double.fin 1 }], loops := [] }, []) :=
  ⟨(line_handler_blank_or_comment _ "  # comment".toList _ 3 (Or.inr (by decide))).1,
   (line_handler_blank_or_comment _ " \t ".toList _ 3 (Or.inl (by decide))).1⟩

/-- Where `line_handler` sends a line that is neither blank, nor a comment,
nor the print command, by the number of `=` of the stripped line from index 1
on. -/
theorem line_handler_dispatch (te : Evaluator) (line : CStr) (env : Environment)
    (sigFigures : Int)
    (h1 : normalized line ≠ []) (h2 : (normalized line).head? ≠ some '#')
    (h3 : line ≠ print) :
    count_equals ((strip_line line).drop 1) = (((normalized line).drop 1).count '=' : Int)
    ∧ (2 ≤ ((normalized line).drop 1).count '=' →
        line_handler te line env sigFigures = some (env, [Output.stderr runningError])
        ∧ line_handler_requests line env = [])
    ∧ (((normalized line).drop 1).count '=' = 0 →
        line_handler te line env sigFigures =
          (expression_handler te (normalized line) env.defs sigFigures).map
            (fun out => (env, out))
        ∧ line_handler_requests line env =
            expression_handler_requests (normalized line) env.defs)
    ∧ (((normalized line).drop 1).count '=' = 1 →
        line_handler te line env sigFigures =
          assignment_handler te (normalized line) env sigFigures
        ∧ line_handler_requests line env =
            assignment_handler_requests (normalized line) env) := by
  have hc : count_equals ((strip_line line).drop 1) =
      (((normalized line).drop 1).count '=' : Int) := by
    rw [count_equals_eq_count, strip_line_eq_normalized]
  have hb : ¬ ((strip_line line).head? = some '#' ∨ strip_line line = []) := by
    rw [strip_line_eq_normalized]
    rintro (h | h)
    · exact h2 h
    · exact h1 h
  have hp : ¬ strcmp line print = 0 := by
    rw [strcmp_eq_zero]; exact h3
  refine ⟨hc, ?_, ?_, ?_⟩
  · intro hge
    have hgt : count_equals ((strip_line line).drop 1) > 1 := by
      rw [hc]; exact_mod_cast hge
    constructor
    · unfold line_handler
      simp only [hb, hp, hgt, if_false, if_true]
    · unfold line_handler_requests
      simp only [hb, hp, hgt, if_false, if_true]
  · intro h0
    have hz : count_equals ((strip_line line).drop 1) = 0 := by
      rw [hc]; exact_mod_cast h0
    have hgt : ¬ count_equals ((strip_line line).drop 1) > 1 := by
      rw [hz]; decide
    constructor
    · unfold line_handler
      simp only [hb, hp, hz, if_false, if_true]
      rw [strip_line_eq_normalized]
      rfl
    · unfold line_handler_requests
      simp only [hb, hp, hz, if_false, if_true]
      rw [strip_line_eq_normalized]
      rfl
  · intro h1'
    have hz : count_equals ((strip_line line).drop 1) = 1 := by
      rw [hc]; exact_mod_cast h1'
    have hgt : ¬ count_equals ((strip_line line).drop 1) > 1 := by
      rw [hz]; decide
    have hne : ¬ count_equals ((strip_line line).drop 1) = 0 := by
      rw [hz]; decide
    constructor
    · unfold line_handler
      simp only [hb, hp, hz, if_false, if_true]
      rw [strip_line_eq_normalized]
      rfl
    · unfold line_handler_requests
      simp only [hb, hp, hz, if_false, if_true]
      rw [strip_line_eq_normalized]
      rfl

/-- C15: on a line that is neither blank, nor a comment, nor the print
command, the counter of `line_handler` is the number of `=` among the
characters of the stripped line from index 1 on.  When it is 2 or more, the
line gives the error message, once, no request to the evaluator and no change
of the environment; when it is 0 the line goes to `expression_handler`, when
it is 1 to `assignment_handler`, and the error for too many `=` is not given. -/
theorem line_handler_equals_count (te : Evaluator) (line : CStr) (env : Environment)
    (sigFigures : Int)
    (h1 : normalized line ≠ []) (h2 : (normalized line).head? ≠ some '#')
    (h3 : line ≠ print) :
    count_equals ((strip_line line).drop 1) = (((normalized line).drop 1).count '=' : Int)
    ∧ (2 ≤ ((normalized line).drop 1).count '=' →
        line_handler te line env sigFigures = some (env, [Output.stderr runningError])
        ∧ line_handler_requests line env = [])
    ∧ (((normalized line).drop 1).count '=' = 0 →
        line_handler te line env sigFigures =
          (expression_handler te (normalized line) env.defs sigFigures).map
            (fun out => (env, out))
        ∧ line_handler_requests line env =
            expression_handler_requests (normalized line) env.defs)
    ∧ (((normalized line).drop 1).count '=' = 1 →
        line_handler te line env sigFigures =
          assignment_handler te (normalized line) env sigFigures
        ∧ line_handler_requests line env =
            assignment_handler_requests (normalized line) env) :=
  line_handler_dispatch te line env sigFigures h1 h2 h3

/-- The line `bad==1` has two `=` from index 1 on and gives the error message;
the line `=1` has none, its first character is not counted. -/
theorem line_handler_equals_count_witness :
    line_handler (fun _ _ => some (Double.fin 1)) "bad==1".toList
        { defs := [], loops := [] } 3 =
      some ({ defs := [], loops := [] }, [Output.stderr runningError])
    ∧ count_equals ((strip_line "=1".toList).drop 1) = 0 :=
  ⟨((line_handler_equals_count _ "bad==1".toList _ 3 (by decide) (by decide)
      (by decide)).2.1 (by decide)).1,
   by
    rw [(line_handler_equals_count (fun _ _ => none) "=1".toList { defs := [], loops := [] } 3
      (by decide) (by decide) (by decide)).1]
    decide⟩

theorem count_eq_zero_of_not_mem (s : CStr) (h : '=' ∉ s) : s.count '=' = 0 :=
  List.count_eq_zero_of_not_mem h

/-- C16: on a line that is neither blank, nor a comment, nor the print command
and whose stripped form has no `=` from index 1 on, `line_handler` makes one
request to the evaluator, with the whole stripped line (the characters of the
line that are not white space, in their order) and the table of the scalars;
it prints `Result = <value>` when the evaluator gives a value that is not NaN,
and the error message when the expression does not compile or its value is
NaN; the environment is as it was in both cases. -/
theorem line_handler_expression (te : Evaluator) (line : CStr) (env : Environment)
    (sigFigures : Int)
    (h1 : normalized line ≠ []) (h2 : (normalized line).head? ≠ some '#')
    (h3 : line ≠ print) (h4 : '=' ∉ (normalized line).drop 1) :
    line_handler_requests line env =
      [{ expression := some (line.filter (fun c => !isspace c)),
         teVars := env.defs.map (fun d => { name := d.name, value := d.value }) }]
    ∧ (∀ value : Double,
        te (normalized line) (env.defs.map (fun d => { name := d.name, value := d.value })) =
          some value →
        value.isnan = false →
        line_handler te line env sigFigures = some (env, [Output.result sigFigures value]))
    ∧ (∀ value : Double,
        te (normalized line) (env.defs.map (fun d => { name := d.name, value := d.value })) =
          some value →
        value.isnan = true →
        line_handler te line env sigFigures = some (env, [Output.stderr runningError]))
    ∧ (te (normalized line) (env.defs.map (fun d => { name := d.name, value := d.value })) =
          none →
        line_handler te line env sigFigures = some (env, [Output.stderr runningError])) := by
  have h0 := (line_handler_dispatch te line env sigFigures h1 h2 h3).2.2.1
    (count_eq_zero_of_not_mem _ h4)
  refine ⟨?_, ?_, ?_, ?_⟩
  · rw [h0.2]; rfl
  · intro value hv hn
    rw [h0.1]
    simp [expression_handler, tiny_expr, hv, hn]
  · intro value hv hn
    rw [h0.1]
    simp [expression_handler, tiny_expr, hv, hn]
  · intro hv
    rw [h0.1]
    simp [expression_handler, tiny_expr, hv, Double.isnan]

/-- With an evaluator that gives 4 for every expression, the line ` 2 + 2 `
prints `Result = 4`. -/
theorem line_handler_expression_witness :
    line_handler (fun _ _ => some (Double.fin 4)) " 2 + 2 ".toList
        { defs := [], loops := [] } 3 =
      some ({ defs := [], loops := [] }, [Output.result 3 (Double.fin 4)]) :=
  (line_handler_expression (fun _ _ => some (Double.fin 4)) " 2 + 2 ".toList
    { defs := [], loops := [] } 3 (by decide) (by decide) (by decide) (by decide)).2.1
    (Double.fin 4) rfl rfl

theorem length_variable_print_defs (sigFigures : Int) (defs : List Def) :
    (variable_print_defs sigFigures defs).length = defs.length := by
  induction defs with
  | nil => rfl
  | cons d rest ih => simp [variable_print_defs, ih]

theorem two_le_length_variable_print (env : Environment) (sigFigures : Int) :
    2 ≤ (variable_print env sigFigures).length := by
  unfold variable_print
  rw [List.length_append]
  have h1 : 1 ≤ (if env.defs.length = 0 then [Output.stdout "There are no variables.\n"]
      else Output.stdout "Variables:\n" :: variable_print_defs sigFigures env.defs).length := by
    split <;> simp
  have h2 : 1 ≤ (if env.loops.length = 0 then [Output.stdout "No loop variables were found.\n"]
      else Output.stdout "Loop variables:\n" ::
        variable_print_loops sigFigures env.loops).length := by
    split <;> simp
  omega

theorem length_out_le_one (te : Evaluator) (line : CStr) (env env' : Environment)
    (sigFigures : Int) (out : List Output) (hp : line ≠ print)
    (h : line_handler te line env sigFigures = some (env', out)) : out.length ≤ 1 := by
  have hp' : ¬ strcmp line print = 0 := by rw [strcmp_eq_zero]; exact hp
  by_cases hb : (strip_line line).head? = some '#' ∨ strip_line line = []
  · unfold line_handler at h
    simp only [hb, if_true, Option.some.injEq, Prod.mk.injEq] at h
    rw [← h.2]; simp
  · rcases line_handler_cases te line env env' sigFigures out h with
      ⟨-, ho | ho | ho | ⟨v, ho, -⟩⟩ | ⟨name, rhs, value, -, -, -, -, he⟩
    · rw [ho]; simp
    · exfalso
      unfold line_handler at h
      simp only [hb, hp', if_false] at h
      have h2 := two_le_length_variable_print env sigFigures
      rw [← ho] at h2
      split at h
      · simp only [Option.some.injEq, Prod.mk.injEq] at h
        rw [← h.2] at h2; simp at h2
      split at h
      · unfold expression_handler at h
        cases hv : tiny_expr te (some (strip_line line)) env.defs with
        | none => rw [hv] at h; simp at h
        | some value =>
          rw [hv] at h
          simp only [] at h
          split at h
          · simp only [Option.map_some', Option.some.injEq, Prod.mk.injEq] at h
            rw [← h.2] at h2; simp at h2
          · simp only [Option.map_some', Option.some.injEq, Prod.mk.injEq] at h
            rw [← h.2] at h2; simp at h2
      split at h
      · unfold assignment_handler at h
        simp only [] at h
        split at h
        · simp at h
        · split at h
          · simp only [Option.some.injEq, Prod.mk.injEq] at h
            rw [← h.2] at h2; simp at h2
          · split at h
            · simp at h
            · split at h
              · simp only [Option.some.injEq, Prod.mk.injEq] at h
                rw [← h.2] at h2; simp at h2
              · simp only [Option.some.injEq] at h
                have := congrArg Prod.snd h
                rw [handle_new_variable_out] at this
                simp only [] at this
                rw [← this] at h2; simp at h2
      · simp only [Option.some.injEq, Prod.mk.injEq] at h
        rw [← h.2] at h2; simp at h2
    · rw [ho]; simp
    · rw [ho]; simp
    · have := handle_new_variable_out env name value sigFigures
      rw [← he] at this
      simp only [] at this
      rw [this]; simp

/-- The line `@print` prints the listing and leaves the environment. -/
theorem line_handler_print (te : Evaluator) (env : Environment) (sigFigures : Int) :
    line_handler te print env sigFigures = some (env, variable_print env sigFigures) := by
  have hb : ¬ ((strip_line print).head? = some '#' ∨ strip_line print = []) := by decide
  have hp : strcmp print print = 0 := by decide
  unfold line_handler
  simp only [hb, hp, if_false, if_true]

/-- C18: `line_handler` prints the listing of the environment if and only if
the line, as it was read, is exactly `@print`, and the environment is then as
it was.  A line that is `@print` only once its white space is stripped
(` @print`, `@print `, `@ print`) is not the print command: it goes to
`expression_handler` as the expression `@print`. -/
theorem line_handler_print_command (te : Evaluator) (line : CStr) (env : Environment)
    (sigFigures : Int) :
    (line = print →
      line_handler te line env sigFigures = some (env, variable_print env sigFigures))
    ∧ (∀ (env' : Environment) (out : List Output),
        line_handler te line env sigFigures = some (env', out) →
        (out = variable_print env sigFigures ↔ line = print))
    ∧ line_handler te " @print".toList env sigFigures =
        (expression_handler te "@print".toList env.defs sigFigures).map (fun out => (env, out))
    ∧ line_handler te "@print ".toList env sigFigures =
        (expression_handler te "@print".toList env.defs sigFigures).map (fun out => (env, out))
    ∧ line_handler te "@ print".toList env sigFigures =
        (expression_handler te "@print".toList env.defs sigFigures).map (fun out => (env, out))
    ∧ (∀ out : List Output,
        expression_handler te "@print".toList env.defs sigFigures = some out →
        out.length = 1) := by
  have hprint : line = print →
      line_handler te line env sigFigures = some (env, variable_print env sigFigures) := by
    intro h
    subst h
    exact line_handler_print te env sigFigures
  refine ⟨hprint, ?_, ?_, ?_, ?_, ?_⟩
  · intro env' out h
    constructor
    · intro ho
      by_contra hne
      have h1 := length_out_le_one te line env env' sigFigures out hne h
      have h2 := two_le_length_variable_print env sigFigures
      rw [← ho] at h2
      omega
    · intro hl
      rw [hprint hl] at h
      simp only [Option.some.injEq, Prod.mk.injEq] at h
      exact h.2.symm
  · have hn : normalized " @print".toList = "@print".toList := by decide
    have := ((line_handler_dispatch te " @print".toList env sigFigures (by decide)
      (by decide) (by decide)).2.2.1 (by decide)).1
    rw [hn] at this
    exact this
  · have hn : normalized "@print ".toList = "@print".toList := by decide
    have := ((line_handler_dispatch te "@print ".toList env sigFigures (by decide)
      (by decide) (by decide)).2.2.1 (by decide)).1
    rw [hn] at this
    exact this
  · have hn : normalized "@ print".toList = "@print".toList := by decide
    have := ((line_handler_dispatch te "@ print".toList env sigFigures (by decide)
      (by decide) (by decide)).2.2.1 (by decide)).1
    rw [hn] at this
    exact this
  · intro out h
    unfold expression_handler at h
    cases hv : tiny_expr te (some "@print".toList) env.defs with
    | none => rw [hv] at h; simp at h
    | some value =>
      rw [hv] at h
      simp only [] at h
      split at h <;> simp only [Option.some.injEq] at h <;> rw [← h] <;> rfl

/-- On the line `@print` in the environment with the scalar `x = 4`, the
listing is printed and the environment is as it was. -/
theorem line_handler_print_command_witness :
    line_handler (fun _ _ => none) "@print".toList
        { defs := [{ name := "x".toList, value := Double.fin 4 }], loops := [] } 3 =
      some ({ defs := [{ name := "x".toList, value := Double.fin 4 }], loops := [] },
        [Output.stdout "Variables:\n", Output.scalar 3 "x".toList (Double.fin 4),
         Output.stdout "No loop variables were found.\n"]) :=
  (line_handler_print_command (fun _ _ => none) "@print".toList
    { defs := [{ name := "x".toList, value := Double.fin 4 }], loops := [] } 3).1 (by decide)

theorem takeWhile_ne_of_not_mem (d : Char) (s : CStr) (h : d ∉ s) :
    s.takeWhile (fun c => c != d) = s ∧ s.dropWhile (fun c => c != d) = [] := by
  induction s with
  | nil => exact ⟨rfl, rfl⟩
  | cons c cs ih =>
    simp only [List.mem_cons, not_or] at h
    have hc : (c != d) = true := by simpa using fun e => h.1 e.symm
    have := ih h.2
    simp only [List.takeWhile_cons, List.dropWhile_cons, hc, if_true, this.1, this.2, and_self]

theorem takeWhile_ne_append (d : Char) (name rest : CStr) (h : d ∉ name) :
    (name ++ d :: rest).takeWhile (fun c => c != d) = name
    ∧ (name ++ d :: rest).dropWhile (fun c => c != d) = d :: rest := by
  induction name with
  | nil => simp [List.takeWhile_cons, List.dropWhile_cons]
  | cons c cs ih =>
    simp only [List.mem_cons, not_or] at h
    have hc : (c != d) = true := by simpa using fun e => h.1 e.symm
    have := ih h.2
    simp only [List.cons_append, List.takeWhile_cons, List.dropWhile_cons, hc, if_true, this.1,
      this.2, and_self]

theorem dropWhile_eq_of_head_ne (d : Char) (s : CStr) (h : s.head? ≠ some d) :
    s.dropWhile (fun c => c == d) = s := by
  cases s with
  | nil => rfl
  | cons c cs =>
    have hc : (c == d) = false := by
      simp only [List.head?_cons, ne_eq, Option.some.injEq] at h
      simpa using h
    simp only [List.dropWhile_cons, hc, Bool.false_eq_true, if_false]

theorem head?_ne_of_not_mem (d : Char) (s : CStr) (h : d ∉ s) : s.head? ≠ some d := by
  cases s with
  | nil => simp
  | cons c cs =>
    simp only [List.mem_cons, not_or] at h
    simp only [List.head?_cons, ne_eq, Option.some.injEq]
    exact fun e => h.1 e.symm

/-- The token loop of `assignment_handler` on `name=expr`, where neither part
is empty nor holds an `=`: the two tokens are `name` and `expr`. -/
theorem token_loop_assignment (name expr : CStr) (hname : name ≠ []) (hexpr : expr ≠ [])
    (hn : '=' ∉ name) (he : '=' ∉ expr) :
    token_loop '=' ASSIGNMENT_TOKEN_SIZE (name ++ '=' :: expr) = [name, expr] := by
  have h1 : (name ++ '=' :: expr).dropWhile (fun c => c == '=') = name ++ '=' :: expr := by
    apply dropWhile_eq_of_head_ne
    cases name with
    | nil => exact absurd rfl hname
    | cons c cs =>
      simp only [List.mem_cons, not_or] at hn
      simp only [List.cons_append, List.head?_cons, ne_eq, Option.some.injEq]
      exact fun e => hn.1 e.symm
  have h2 := takeWhile_ne_append '=' name expr hn
  have h3 : expr.dropWhile (fun c => c == '=') = expr :=
    dropWhile_eq_of_head_ne '=' expr (head?_ne_of_not_mem '=' expr he)
  have h4 := takeWhile_ne_of_not_mem '=' expr he
  have hne : name ++ '=' :: expr ≠ [] := by simp
  simp only [ASSIGNMENT_TOKEN_SIZE, token_loop, strtok, h1, hne, if_false, h2.1, h2.2,
    List.drop_succ_cons, List.drop_zero, h3, hexpr, h4.1, h4.2]

theorem count_drop_assignment (name expr : CStr) (hname : name ≠ [])
    (hn : '=' ∉ name) (he : '=' ∉ expr) :
    ((name ++ '=' :: expr).drop 1).count '=' = 1 := by
  cases name with
  | nil => exact absurd rfl hname
  | cons c cs =>
    simp only [List.mem_cons, not_or] at hn
    simp only [List.cons_append, List.drop_succ_cons, List.drop_zero, List.count_append,
      List.count_cons_self, List.count_eq_zero_of_not_mem hn.2, List.count_eq_zero_of_not_mem he]

theorem normalized_print : normalized print = print := by decide

/-- What `line_handler` does with a line that it sends to `assignment_handler`
and that splits into a name and a right-hand side. -/
theorem line_handler_assignment (te : Evaluator) (line : CStr) (env : Environment)
    (sigFigures : Int) (name expr : CStr)
    (h1 : normalized line ≠ []) (h2 : (normalized line).head? ≠ some '#')
    (h3 : line ≠ print) (hc : ((normalized line).drop 1).count '=' = 1)
    (ht : token_loop '=' ASSIGNMENT_TOKEN_SIZE (normalized line) = [name, expr]) :
    line_handler_requests line env = tiny_expr_requests (some expr) env.defs
    ∧ ∀ value, tiny_expr te (some expr) env.defs = some value →
      line_handler te line env sigFigures =
        if value.isnan = true then some (env, [Output.stderr runningError])
        else if valid_variable_name name = 0 then some (env, [Output.stderr runningError])
        else some (handle_new_variable env name value sigFigures) := by
  have h := (line_handler_dispatch te line env sigFigures h1 h2 h3).2.2.2 hc
  have htok1 : token (token_array ASSIGNMENT_TOKEN_SIZE [name, expr]) 1 = some expr := by
    rw [token_token_array]; rfl
  have htok0 : token (token_array ASSIGNMENT_TOKEN_SIZE [name, expr]) 0 = some name := by
    rw [token_token_array]; rfl
  constructor
  · rw [h.2]
    unfold assignment_handler_requests
    simp only [ht, htok1]
  · intro value hv
    rw [h.1]
    unfold assignment_handler
    simp only [ht, htok1, htok0, hv]

/-- On a line whose stripped form is a name, one `=` and a right-hand side,
neither empty, and that is no comment, when the
right-hand side evaluates to a value that is not NaN and the name is a valid
variable name, `line_handler` prints the one line `<name> = <value>` and no
error and does to the environment what `handle_new_variable` does, also when
the name is the name of a loop variable, which leaves the environment as it
was; when the right-hand side does not evaluate (NaN), or it does and the name
is not valid, it prints the error message, once, and nothing else, and the
environment is as it was.  The one request to the evaluator is the right-hand
side with the table of the scalars. -/
theorem line_handler_assignment_shape (te : Evaluator) (line : CStr) (env : Environment)
    (sigFigures : Int) (name expr : CStr) (value : Double)
    (hshape : normalized line = name ++ '=' :: expr)
    (hname : name ≠ []) (hexpr : expr ≠ []) (hn : '=' ∉ name) (he : '=' ∉ expr)
    (hcomment : name.head? ≠ some '#')
    (hvalue : tiny_expr te (some expr) env.defs = some value) :
    (value.isnan = false → valid_variable_name name = 1 →
      line_handler te line env sigFigures = some (handle_new_variable env name value sigFigures)
      ∧ (handle_new_variable env name value sigFigures).2 =
          [Output.scalar sigFigures name value]
      ∧ (name ∈ env.loops.map (fun l => l.name) →
          line_handler te line env sigFigures =
            some (env, [Output.scalar sigFigures name value])))
    ∧ (value.isnan = true ∨ valid_variable_name name = 0 →
      line_handler te line env sigFigures = some (env, [Output.stderr runningError]))
    ∧ line_handler_requests line env =
        [{ expression := some expr,
           teVars := env.defs.map (fun d => { name := d.name, value := d.value }) }] := by
  have h1 : normalized line ≠ [] := by rw [hshape]; simp
  have h2 : (normalized line).head? ≠ some '#' := by
    rw [hshape]
    cases name with
    | nil => exact absurd rfl hname
    | cons c cs => simpa using hcomment
  have h3 : line ≠ print := by
    intro e
    rw [e, normalized_print] at hshape
    have : '=' ∈ print := by rw [hshape]; simp
    exact absurd this (by decide)
  have hc : ((normalized line).drop 1).count '=' = 1 := by
    rw [hshape]; exact count_drop_assignment name expr hname hn he
  have ht : token_loop '=' ASSIGNMENT_TOKEN_SIZE (normalized line) = [name, expr] := by
    rw [hshape]; exact token_loop_assignment name expr hname hexpr hn he
  have h := line_handler_assignment te line env sigFigures name expr h1 h2 h3 hc ht
  have hl := h.2 value hvalue
  refine ⟨?_, ?_, ?_⟩
  · intro hnan hvalid
    have hres : line_handler te line env sigFigures =
        some (handle_new_variable env name value sigFigures) := by
      rw [hl]
      simp [hnan, hvalid]
    refine ⟨hres, handle_new_variable_out env name value sigFigures, ?_⟩
    intro hloop
    rw [hres]
    have e1 := handle_new_variable_loop env name value sigFigures hloop
    have e2 := handle_new_variable_out env name value sigFigures
    rw [Option.some.injEq]
    exact Prod.ext e1 e2
  · rintro (hnan | hinvalid)
    · rw [hl]; simp [hnan]
    · rw [hl]
      by_cases hnan : value.isnan = true
      · simp [hnan]
      · simp [hnan, hinvalid]
  · rw [h.1]; rfl

/-- With an evaluator that gives 4 for every expression, the line `x = 2+2`
prints `x = 4` and adds the scalar `x = 4`. -/
theorem line_handler_assignment_shape_example :
    line_handler (fun _ _ => some (Double.fin 4)) "x = 2+2".toList
        { defs := [], loops := [] } 3 =
      some (handle_new_variable { defs := [], loops := [] } "x".toList (Double.fin 4) 3) :=
  ((line_handler_assignment_shape (fun _ _ => some (Double.fin 4)) "x = 2+2".toList
    { defs := [], loops := [] } 3 "x".toList "2+2".toList (Double.fin 4)
    (by decide) (by decide) (by decide) (by decide) (by decide) (by decide) rfl).1
    rfl (by decide)).1

/-- C19: from the empty environment with 3 significant figures, with an
evaluator that gives 4 for `2+2` and 12 for `x*3` when `x` is 4, the lines
`x = 2+2`, `@print`, `y=x*3` and `bad==1` print, in this order: `x = 4`; the
listing, with the scalar `x = 4` and the notice that there is no loop variable;
`y = 12`; and the error message, once.  The environment at the end holds the
scalars `x = 4` and `y = 12` in this order and no loop variable. -/
theorem file_handler_end_to_end (te : Evaluator)
    (h1 : te "2+2".toList [] = some (Double.fin 4))
    (h2 : te "x*3".toList [{ name := "x".toList, value := Double.fin 4 }] =
      some (Double.fin 12)) :
    file_handler te ["x = 2+2".toList, "@print".toList, "y=x*3".toList, "bad==1".toList]
        { defs := [], loops := [] } DEFAULT_SIG_FIGURES =
      some ({ defs := [{ name := "x".toList, value := Double.fin 4 },
                       { name := "y".toList, value := Double.fin 12 }], loops := [] },
        [Output.scalar 3 "x".toList (Double.fin 4),
         Output.stdout "Variables:\n",
         Output.scalar 3 "x".toList (Double.fin 4),
         Output.stdout "No loop variables were found.\n",
         Output.scalar 3 "y".toList (Double.fin 12),
         Output.stderr runningError]) := by
  have l1 : line_handler te "x = 2+2".toList { defs := [], loops := [] } 3 =
      some ({ defs := [{ name := "x".toList, value := Double.fin 4 }], loops := [] },
        [Output.scalar 3 "x".toList (Double.fin 4)]) := by
    have hv : tiny_expr te (some "2+2".toList) ([] : List Def) = some (Double.fin 4) := by
      simp only [tiny_expr, List.map_nil, h1]
    rw [(line_handler_assignment te "x = 2+2".toList { defs := [], loops := [] } 3
      "x".toList "2+2".toList (by decide) (by decide) (by decide) (by decide)
      (by decide)).2 _ hv]
    decide
  have l2 : line_handler te "@print".toList
      { defs := [{ name := "x".toList, value := Double.fin 4 }], loops := [] } 3 =
      some ({ defs := [{ name := "x".toList, value := Double.fin 4 }], loops := [] },
        [Output.stdout "Variables:\n", Output.scalar 3 "x".toList (Double.fin 4),
         Output.stdout "No loop variables were found.\n"]) :=
    line_handler_print te _ 3
  have l3 : line_handler te "y=x*3".toList
      { defs := [{ name := "x".toList, value := Double.fin 4 }], loops := [] } 3 =
      some ({ defs := [{ name := "x".toList, value := Double.fin 4 },
                       { name := "y".toList, value := Double.fin 12 }], loops := [] },
        [Output.scalar 3 "y".toList (Double.fin 12)]) := by
    have hv : tiny_expr te (some "x*3".toList)
        [{ name := "x".toList, value := Double.fin 4 }] = some (Double.fin 12) := by
      simp only [tiny_expr, List.map_cons, List.map_nil, h2]
    rw [(line_handler_assignment te "y=x*3".toList
      { defs := [{ name := "x".toList, value := Double.fin 4 }], loops := [] } 3
      "y".toList "x*3".toList (by decide) (by decide) (by decide) (by decide)
      (by decide)).2 _ hv]
    decide
  have l4 : line_handler te "bad==1".toList
      { defs := [{ name := "x".toList, value := Double.fin 4 },
                 { name := "y".toList, value := Double.fin 12 }], loops := [] } 3 =
      some ({ defs := [{ name := "x".toList, value := Double.fin 4 },
                       { name := "y".toList, value := Double.fin 12 }], loops := [] },
        [Output.stderr runningError]) :=
    ((line_handler_dispatch te "bad==1".toList _ 3 (by decide) (by decide)
      (by decide)).2.1 (by decide)).1
  simp only [file_handler, DEFAULT_SIG_FIGURES, l1, l2, l3, l4, List.append_nil,
    List.singleton_append, List.cons_append, List.nil_append]

/-- An evaluator that knows the two expressions of the example and nothing
else gives the outputs and the environment of the example. -/
theorem file_handler_end_to_end_witness :
    file_handler
        (fun text teVars =>
          if text = "2+2".toList then some (Double.fin 4)
          else if text = "x*3".toList ∧
              teVars = [{ name := "x".toList, value := Double.fin 4 }] then
            some (Double.fin 12)
          else none)
        ["x = 2+2".toList, "@print".toList, "y=x*3".toList, "bad==1".toList]
        { defs := [], loops := [] } DEFAULT_SIG_FIGURES =
      some ({ defs := [{ name := "x".toList, value := Double.fin 4 },
                       { name := "y".toList, value := Double.fin 12 }], loops := [] },
        [Output.scalar 3 "x".toList (Double.fin 4),
         Output.stdout "Variables:\n",
         Output.scalar 3 "x".toList (Double.fin 4),
         Output.stdout "No loop variables were found.\n",
         Output.scalar 3 "y".toList (Double.fin 12),
         Output.stderr runningError]) :=
  file_handler_end_to_end _ (by decide) (by decide)

/-! ## The precision option and the loop invariant: properties -/

theorem sig_handler_first (input : CStr) :
    (sig_token input = true →
      ∃ c : Char, input = [c] ∧ sig_handler 0 input = Startup.ok (1, (c.toNat : Int) - 48)
        ∧ 2 ≤ (c.toNat : Int) - 48 ∧ (c.toNat : Int) - 48 ≤ 9)
    ∧ (sig_token input = false → sig_handler 0 input = Startup.exit 12) := by
  unfold sig_handler sig_token
  simp only [SIG_FIGURES_MIN, SIG_FIGURES_MAX, USAGE_CODE]
  match input with
  | [] => simp
  | [c] =>
    simp only [Bool.and_eq_true, decide_eq_true_eq, List.drop_succ_cons, List.drop_zero,
      List.cons.injEq, and_true, exists_eq_left', zero_add]
    constructor
    · intro h
      have h1 : (c.toNat : Int) - 48 ≥ 2 := by omega
      have h2 : (c.toNat : Int) - 48 ≤ 9 := by omega
      simp only [show ¬ ((1 : Int) > 1) by decide, if_false, h1, h2, and_self, if_true, true_and]
    · intro h
      simp only [Bool.and_eq_false_iff, decide_eq_false_iff_not] at h
      have : ¬ ((c.toNat : Int) - 48 ≥ 2 ∧ (c.toNat : Int) - 48 ≤ 9 ∧ True) := by
        rintro ⟨h1, h2, -⟩; omega
      simp only [show ¬ ((1 : Int) > 1) by decide, if_false]
      rw [if_neg]
      simpa using this
  | c :: d :: rest =>
    simp

theorem sig_handler_range (sigCount : Int) (input : CStr) (r : Int × Int)
    (h : sig_handler sigCount input = Startup.ok r) : 2 ≤ r.2 ∧ r.2 ≤ 9 := by
  unfold sig_handler at h
  simp only [SIG_FIGURES_MIN, SIG_FIGURES_MAX, USAGE_CODE] at h
  split at h
  · exact absurd h (by simp)
  · split at h
    · rename_i hc
      simp only [Startup.ok.injEq] at h
      rw [← h]
      exact ⟨hc.1, hc.2.1⟩
    · exact absurd h (by simp)

theorem sig_handler_repeated (sigCount : Int) (input : CStr) (h : 1 ≤ sigCount) :
    sig_handler sigCount input = Startup.exit 12 := by
  unfold sig_handler
  simp only [USAGE_CODE]
  rw [if_pos (by omega)]

/-- The precision after the loop of `check_validity`: the one before it or a
digit from 2 to 9, and the one before it when no argument is `--sigfigures`. -/
theorem check_validity_loop_sigFigures (strtod : Strtod) (fopen : CStr → Bool) (n : Nat) :
    ∀ (args : List CStr) (st st' : Settings) (sigCount : Int), args.length ≤ n →
      check_validity_loop strtod fopen args st sigCount = Startup.ok st' →
      (st'.sigFigures = st.sigFigures ∨ (2 ≤ st'.sigFigures ∧ st'.sigFigures ≤ 9))
      ∧ (sig ∉ args → st'.sigFigures = st.sigFigures) := by
  induction n with
  | zero =>
    intro args st st' sigCount hlen h
    have : args = [] := List.length_eq_zero.mp (Nat.le_zero.mp hlen)
    subst this
    simp only [check_validity_loop, Startup.ok.injEq] at h
    rw [← h]; exact ⟨Or.inl rfl, fun _ => rfl⟩
  | succ n ih =>
    intro args st st' sigCount hlen h
    match args, hlen with
    | [], _ =>
      simp only [check_validity_loop, Startup.ok.injEq] at h
      rw [← h]; exact ⟨Or.inl rfl, fun _ => rfl⟩
    | [arg], _ =>
      unfold check_validity_loop at h
      split at h
      · exact absurd h (by simp)
      split at h
      · exact absurd h (by simp)
      split at h
      · exact absurd h (by simp)
      simp only [] at h
      split at h
      · simp only [Startup.ok.injEq] at h
        rw [← h]; exact ⟨Or.inl rfl, fun _ => rfl⟩
      · exact absurd h (by simp)
      · exact absurd h (by simp)
    | arg :: value :: rest, hlen =>
      have hrest : rest.length ≤ n := by
        simp only [List.length_cons] at hlen; omega
      unfold check_validity_loop at h
      simp only [strcmp_eq_zero] at h
      split at h
      · split at h
        · exact absurd h (by simp)
        · split at h
          · exact absurd h (by simp)
          · have := ih rest _ st' sigCount hrest h
            simp only [] at this
            refine ⟨this.1, fun hs => this.2 ?_⟩
            intro hm; exact hs (List.mem_cons_of_mem _ (List.mem_cons_of_mem _ hm))
      split at h
      · split at h
        · exact absurd h (by simp)
        · split at h
          · exact absurd h (by simp)
          · have := ih rest _ st' sigCount hrest h
            simp only [] at this
            refine ⟨this.1, fun hs => this.2 ?_⟩
            intro hm; exact hs (List.mem_cons_of_mem _ (List.mem_cons_of_mem _ hm))
      split at h
      · rename_i hsig
        split at h
        · rename_i c' f' hok
          have hr := sig_handler_range sigCount value (c', f') hok
          have := ih rest _ st' c' hrest h
          simp only [] at this hr
          constructor
          · rcases this.1 with e | e
            · right; rw [e]; exact hr
            · right; exact e
          · intro hs
            exact absurd (hsig ▸ List.mem_cons_self _ _) hs
        · exact absurd h (by simp)
        · exact absurd h (by simp)
      · exact absurd h (by simp)

theorem check_validity_ok (strtod : Strtod) (fopen : CStr → Bool) (argv : List CStr)
    (st0 st : Settings) (h : check_validity strtod fopen argv st0 = Startup.ok st) :
    check_validity_loop strtod fopen (argv.drop 1) st0 0 = Startup.ok st := by
  unfold check_validity at h
  split at h
  · rename_i st' hs
    split at h
    · exact absurd h (by simp)
    · split at h
      · exact absurd h (by simp)
      · simp only [Startup.ok.injEq] at h
        rw [← h]; exact hs
  · exact absurd h (by simp)
  · exact absurd h (by simp)

/-- C20 as amended: on the token after the first `--sigfigures` of the command
line (`sigCount` is 0), `sig_handler` accepts the token if and only if it is
exactly one character, a digit from `2` to `9`, and the precision is then the
value of the digit; every other token (the empty one, `0`, `1`, two characters
or more, a character that is no digit) is an exit with status 12.  After every
start that `check_validity` lets through the precision is between 2 and 9, and
it is 3 when no argument is `--sigfigures`. -/
theorem sig_handler_spec :
    (∀ input : CStr, sig_token input = true →
      ∃ c : Char, input = [c] ∧ sig_handler 0 input = Startup.ok (1, (c.toNat : Int) - 48)
        ∧ 2 ≤ (c.toNat : Int) - 48 ∧ (c.toNat : Int) - 48 ≤ 9)
    ∧ (∀ input : CStr, sig_token input = false → sig_handler 0 input = Startup.exit 12)
    ∧ sig_handler 0 "".toList = Startup.exit 12
    ∧ sig_handler 0 "0".toList = Startup.exit 12
    ∧ sig_handler 0 "1".toList = Startup.exit 12
    ∧ sig_handler 0 "10".toList = Startup.exit 12
    ∧ sig_handler 0 "22".toList = Startup.exit 12
    ∧ sig_handler 0 "a".toList = Startup.exit 12
    ∧ sig_handler 0 "2".toList = Startup.ok (1, 2)
    ∧ sig_handler 0 "9".toList = Startup.ok (1, 9)
    ∧ (∀ (strtod : Strtod) (fopen : CStr → Bool) (argv : List CStr) (st : Settings),
        check_validity strtod fopen argv Settings.initial = Startup.ok st →
        2 ≤ st.sigFigures ∧ st.sigFigures ≤ 9)
    ∧ (∀ (strtod : Strtod) (fopen : CStr → Bool) (argv : List CStr) (st : Settings),
        sig ∉ argv.drop 1 →
        check_validity strtod fopen argv Settings.initial = Startup.ok st →
        st.sigFigures = 3)
    ∧ (∀ (strtod : Strtod) (fopen : CStr → Bool),
        check_validity strtod fopen ["uqexpr".toList, "--sigfigures".toList, "5".toList]
          Settings.initial = Startup.ok { Settings.initial with sigFigures := 5 }) := by
  refine ⟨fun input => (sig_handler_first input).1, fun input => (sig_handler_first input).2,
    by decide, by decide, by decide, by decide, by decide, by decide, by decide, by decide,
    ?_, ?_, ?_⟩
  · intro strtod fopen argv st h
    have hl := check_validity_ok strtod fopen argv _ st h
    rcases (check_validity_loop_sigFigures strtod fopen _ (argv.drop 1) Settings.initial st 0
      (le_refl _) hl).1 with e | e
    · rw [e]; decide
    · exact e
  · intro strtod fopen argv st hs h
    have hl := check_validity_ok strtod fopen argv _ st h
    exact (check_validity_loop_sigFigures strtod fopen _ (argv.drop 1) Settings.initial st 0
      (le_refl _) hl).2 hs
  · intro strtod fopen
    have hs : sig_handler 0 "5".toList = Startup.ok (1, 5) := by decide
    have hu : unique_name_check Settings.initial.env = some 1 := by decide
    simp only [String.toList] at hs ⊢
    simp [check_validity, check_validity_loop, strcmp_eq_zero, def_, loop, sig, hs, hu]

/-- The token `7` after the first `--sigfigures` is accepted and gives the
precision 7. -/
theorem sig_handler_spec_witness :
    ∃ c : Char, "7".toList = [c]
      ∧ sig_handler 0 "7".toList = Startup.ok (1, (c.toNat : Int) - 48)
      ∧ 2 ≤ (c.toNat : Int) - 48 ∧ (c.toNat : Int) - 48 ≤ 9 :=
  sig_handler_spec.1 "7".toList (by decide)

/-- C20 as stated fails on the token after a second `--sigfigures`: `4` is one
digit from `2` to `9`, and `sig_handler` exits with status 12, as does the
start of the program on `--sigfigures 3 --sigfigures 4`. -/
theorem sig_handler_second_option :
    sig_token "4".toList = true
    ∧ sig_handler 1 "4".toList = Startup.exit 12
    ∧ check_validity strtod_model (fun _ => false)
        ["uqexpr".toList, "--sigfigures".toList, "3".toList, "--sigfigures".toList,
          "4".toList] Settings.initial = Startup.exit 12 := by
  refine ⟨by decide, by decide, by decide⟩

theorem loops_file_handler (te : Evaluator) (lines : List CStr) (env env' : Environment)
    (sigFigures : Int) (out : List Output)
    (h : file_handler te lines env sigFigures = some (env', out)) :
    env'.loops = env.loops := by
  induction lines generalizing env out with
  | nil =>
    simp only [file_handler, Option.some.injEq, Prod.mk.injEq] at h
    rw [← h.1]
  | cons line rest ih =>
    unfold file_handler at h
    cases h1 : line_handler te line env sigFigures with
    | none => rw [h1] at h; exact absurd h (by simp)
    | some r1 =>
      obtain ⟨env1, out1⟩ := r1
      rw [h1] at h
      simp only [] at h
      cases h2 : file_handler te rest env1 sigFigures with
      | none => rw [h2] at h; exact absurd h (by simp)
      | some r2 =>
        obtain ⟨env2, out2⟩ := r2
        rw [h2] at h
        simp only [Option.some.injEq, Prod.mk.injEq] at h
        rw [h.1] at h2
        rw [ih env1 out2 h2]
        exact loops_line_handler te line env env1 sigFigures out1 h1

/-- A loop variable that `loop_handler` adds passes the three tests of
`validate_loop_tokens`. -/
theorem loop_accepted_of_validate (strtod : Strtod) (name s i e : CStr)
    (h : validate_loop_tokens strtod (token_array LOOP_TOKEN_SIZE [name, s, i, e]) 4 = some 1) :
    loop_accepted { name := name, start := atof strtod s, increment := atof strtod i,
                    end_ := atof strtod e } = true := by
  obtain ⟨-, n0, s0, i0, e0, h0, h1, h2, h3, -, -, -, -, c1, c2, c3⟩ :=
    (validate_loop_tokens_eq_one strtod _ _).mp h
  simp only [token_token_array, List.getElem?_cons_zero, List.getElem?_cons_succ,
    Option.some.injEq] at h0 h1 h2 h3
  subst h0 h1 h2 h3
  simp only [loop_accepted, Bool.and_eq_true, Bool.not_eq_true', c1, true_and]
  constructor
  · cases hx : Double.lt (atof strtod s) (atof strtod e) <;>
      cases hy : Double.le (atof strtod i) Double.zero <;> simp_all
  · cases hx : Double.gt (atof strtod s) (atof strtod e) <;>
      cases hy : Double.ge (atof strtod i) Double.zero <;> simp_all

/-- The loop variables after the loop of `check_validity`: those before it and
loop variables that pass the three tests of `validate_loop_tokens`. -/
theorem check_validity_loop_loops (strtod : Strtod) (fopen : CStr → Bool) (n : Nat) :
    ∀ (args : List CStr) (st st' : Settings) (sigCount : Int), args.length ≤ n →
      check_validity_loop strtod fopen args st sigCount = Startup.ok st' →
      ∀ l ∈ st'.env.loops, l ∈ st.env.loops ∨ loop_accepted l = true := by
  induction n with
  | zero =>
    intro args st st' sigCount hlen h
    have : args = [] := List.length_eq_zero.mp (Nat.le_zero.mp hlen)
    subst this
    simp only [check_validity_loop, Startup.ok.injEq] at h
    rw [← h]; exact fun l hl => Or.inl hl
  | succ n ih =>
    intro args st st' sigCount hlen h
    match args, hlen with
    | [], _ =>
      simp only [check_validity_loop, Startup.ok.injEq] at h
      rw [← h]; exact fun l hl => Or.inl hl
    | [arg], _ =>
      unfold check_validity_loop at h
      split at h
      · exact absurd h (by simp)
      split at h
      · exact absurd h (by simp)
      split at h
      · exact absurd h (by simp)
      simp only [] at h
      split at h
      · simp only [Startup.ok.injEq] at h
        rw [← h]; exact fun l hl => Or.inl hl
      · exact absurd h (by simp)
      · exact absurd h (by simp)
    | arg :: value :: rest, hlen =>
      have hrest : rest.length ≤ n := by
        simp only [List.length_cons] at hlen; omega
      unfold check_validity_loop at h
      simp only [strcmp_eq_zero] at h
      by_cases hdef : arg = def_
      · simp only [hdef, if_true] at h
        rcases def_handler_cases strtod value st.env.defs with h0 | ⟨nm, vt, -, -, -, -, -, h1⟩
        · rw [h0] at h; simp at h
        · rw [h1] at h
          simp only [one_ne_zero, if_false] at h
          have := ih rest _ st' sigCount hrest h
          exact this
      simp only [hdef, if_false] at h
      by_cases hloop : arg = loop
      · simp only [hloop, if_true] at h
        rcases loop_handler_cases strtod value st.env.loops with
          h0 | ⟨nm, s, i, e, -, -, -, hval, h1⟩
        · rw [h0] at h; simp at h
        · rw [h1] at h
          simp only [one_ne_zero, if_false] at h
          intro l hl
          rcases ih rest _ st' sigCount hrest h l hl with hm | hm
          · simp only [List.mem_append, List.mem_singleton] at hm
            rcases hm with hm | hm
            · exact Or.inl hm
            · right; rw [hm]; exact loop_accepted_of_validate strtod nm s i e hval
          · exact Or.inr hm
      simp only [hloop, if_false] at h
      by_cases hsig : arg = sig
      · simp only [hsig, if_true] at h
        split at h
        · have := ih rest _ st' _ hrest h
          exact this
        · exact absurd h (by simp)
        · exact absurd h (by simp)
      · simp only [hsig, if_false] at h
        exact absurd h (by simp)

/-- The three tests of `validate_loop_tokens` give the invariant of the
specification when the increment is not NaN. -/
theorem loop_invariant_of_accepted (l : Loop) (h : loop_accepted l = true)
    (hn : l.increment.isnan = false) : loop_invariant l = true := by
  obtain ⟨name, start, increment, end_⟩ := l
  simp only [loop_accepted, loop_invariant, Double.ne, Double.le, Double.ge, Double.gt,
    Double.zero] at h ⊢
  cases increment with
  | nan => simp [Double.isnan] at hn
  | ninf =>
    simp only [Double.eq, Double.lt, Bool.not_false, Bool.true_and, Bool.or_false,
      Bool.and_true, Bool.or_true, Bool.and_false, Bool.false_or] at h ⊢
    simpa using h
  | pinf =>
    simp only [Double.eq, Double.lt, Bool.not_false, Bool.true_and, Bool.or_false,
      Bool.and_true, Bool.or_true, Bool.and_false, Bool.false_or] at h ⊢
    simpa using h
  | fin q =>
    simp only [Double.eq, Double.lt] at h ⊢
    rcases lt_trichotomy q 0 with hq | hq | hq
    · have h1 : ¬ (0 < q) := not_lt.mpr hq.le
      have h2 : ¬ (q = 0) := ne_of_lt hq
      have h3 : ¬ ((0 : ℚ) = q) := fun e => h2 e.symm
      simp only [hq, h1, h2, h3, decide_True, decide_False, Bool.not_false, Bool.true_and,
        Bool.or_false, Bool.and_true, Bool.or_true, Bool.and_false, Bool.false_or,
        Bool.not_true] at h ⊢
      simpa using h
    · subst hq
      simp at h
    · have h1 : ¬ (q < 0) := not_lt.mpr hq.le
      have h2 : ¬ (q = 0) := (ne_of_lt hq).symm
      have h3 : ¬ ((0 : ℚ) = q) := fun e => h2 e.symm
      simp only [hq, h1, h2, h3, decide_True, decide_False, Bool.not_false, Bool.true_and,
        Bool.or_false, Bool.and_true, Bool.or_true, Bool.and_false, Bool.false_or,
        Bool.not_true] at h ⊢
      simpa using h

theorem loop_handler_x1nan10 (loops : List Loop) :
    loop_handler strtod_model "x,1,nan,10".toList loops =
      some (1, loops ++ [{ name := "x".toList, start := Double.fin 1,
                           increment := Double.nan, end_ := Double.fin 10 }]) := by
  have h1 : delim_check "x,1,nan,10".toList ',' = 1 := by decide
  have h2 : token_loop ',' LOOP_TOKEN_SIZE "x,1,nan,10".toList =
      ["x".toList, "1".toList, "nan".toList, "10".toList] := by decide
  have h3 : valid_variable_name "x".toList = 1 := by decide
  have h4 := valid_double_model_1
  have h5 := strtod_model_1
  have h6 := valid_double_model_10
  have h7 := strtod_model_10
  have h8 := valid_double_model_nan
  have h9 := strtod_model_nan
  simp only [String.toList] at h1 h2 h3 h4 h5 h6 h7 h8 h9 ⊢
  simp [loop_handler, validate_loop_tokens, h1, h2, h3, h4, h5, h6, h7, h8, h9,
    token_token_array, atof, add_loop, LOOP_VARIABLE_SIZE, START, INCREMENT, END, Double.eq,
    Double.lt, Double.le, Double.gt, Double.ge, Double.zero]

theorem check_validity_x1nan10 (fopen : CStr → Bool) :
    check_validity strtod_model fopen
      ["uqexpr".toList, "--forloop".toList, "x,1,nan,10".toList] Settings.initial =
      Startup.ok
        { env := { defs := [], loops := [{ name := "x".toList, start := Double.fin 1,
                                           increment := Double.nan, end_ := Double.fin 10 }] },
          sigFigures := 3, filePresent := 0 } := by
  have h1 := loop_handler_x1nan10
  have h3 : unique_name_check
      { defs := [],
        loops := [{ name := "x".toList, start := Double.fin 1,
                    increment := Double.nan, end_ := Double.fin 10 }] } =
      some 1 := by decide
  simp only [String.toList] at h1 h3 ⊢
  simp [check_validity, check_validity_loop, strcmp_eq_zero, def_, loop, sig, h1, h3,
    Settings.initial, DEFAULT_SIG_FIGURES]

/-- C12 fails after the start `uqexpr --forloop x,1,nan,10`: `check_validity`
lets it through with the loop variable `x` of start 1, increment NaN and end
10, on which the invariant is false (the start is less than the end and the
increment is not greater than 0), and the loop variable stays as it is through
every sequence of lines.  What holds in every reachable state is that each
loop variable passes the three tests of `validate_loop_tokens`, which is the
invariant when the increment is not NaN. -/
theorem check_validity_nan_loop :
    (∀ fopen : CStr → Bool,
      check_validity strtod_model fopen
        ["uqexpr".toList, "--forloop".toList, "x,1,nan,10".toList] Settings.initial =
        Startup.ok
          { env := { defs := [], loops := [{ name := "x".toList, start := Double.fin 1,
                                             increment := Double.nan,
                                             end_ := Double.fin 10 }] },
            sigFigures := 3, filePresent := 0 })
    ∧ loop_invariant { name := "x".toList, start := Double.fin 1, increment := Double.nan,
                       end_ := Double.fin 10 } = false
    ∧ (∀ (te : Evaluator) (lines : List CStr) (env' : Environment) (out : List Output),
        file_handler te lines
          { defs := [], loops := [{ name := "x".toList, start := Double.fin 1,
                                    increment := Double.nan, end_ := Double.fin 10 }] } 3 =
          some (env', out) →
        env'.loops = [{ name := "x".toList, start := Double.fin 1, increment := Double.nan,
                        end_ := Double.fin 10 }])
    ∧ (∀ (strtod : Strtod) (fopen : CStr → Bool) (te : Evaluator) (argv lines : List CStr)
        (st : Settings) (env' : Environment) (out : List Output),
        check_validity strtod fopen argv Settings.initial = Startup.ok st →
        file_handler te lines st.env st.sigFigures = some (env', out) →
        ∀ l ∈ env'.loops, loop_accepted l = true)
    ∧ (∀ l : Loop, loop_accepted l = true → l.increment.isnan = false →
        loop_invariant l = true) := by
  refine ⟨check_validity_x1nan10, ?_, ?_, ?_, loop_invariant_of_accepted⟩
  · simp [loop_invariant, Double.ne, Double.eq, Double.lt, Double.gt, Double.zero]
  · intro te lines env' out h
    exact loops_file_handler te lines _ env' 3 out h
  · intro strtod fopen te argv lines st env' out hs hf l hl
    rw [loops_file_handler te lines st.env env' st.sigFigures out hf] at hl
    have hloop := check_validity_ok strtod fopen argv _ st hs
    rcases check_validity_loop_loops strtod fopen _ (argv.drop 1) Settings.initial st 0
      (le_refl _) hloop l hl with hm | hm
    · simp [Settings.initial] at hm
    · exact hm

/-! ## The requests to the evaluator: properties -/

theorem teVars_tiny_expr_requests (expression : Option CStr) (defs : List Def) :
    ∀ r ∈ tiny_expr_requests expression defs,
      r.teVars = defs.map (fun d => { name := d.name, value := d.value }) := by
  intro r hr
  simp only [tiny_expr_requests, List.mem_singleton] at hr
  rw [hr]

theorem teVars_line_handler_requests (line : CStr) (env : Environment) :
    ∀ r ∈ line_handler_requests line env,
      r.teVars = env.defs.map (fun d => { name := d.name, value := d.value }) := by
  intro r hr
  unfold line_handler_requests at hr
  simp only [] at hr
  split at hr
  · simp at hr
  split at hr
  · simp at hr
  split at hr
  · simp at hr
  split at hr
  · exact teVars_tiny_expr_requests _ _ r hr
  split at hr
  · exact teVars_tiny_expr_requests _ _ r hr
  · simp at hr

/-- C26: in every request that `line_handler` makes to the evaluator, for an
expression line or for the right-hand side of an assignment, the variable
table is the list of the scalars of the environment, in their order, each with
its name and its value, and nothing else: it has as many entries as there are
scalars, and a name that only a loop variable bears is not in it.  The result
of `line_handler` depends on the evaluator through these requests only. -/
theorem line_handler_request_table (line : CStr) (env : Environment) :
    (∀ r ∈ line_handler_requests line env,
      r.teVars = env.defs.map (fun d => { name := d.name, value := d.value })
      ∧ r.teVars.length = env.defs.length
      ∧ (∀ (i : Nat) (d : Def), env.defs[i]? = some d →
          r.teVars[i]? = some { name := d.name, value := d.value })
      ∧ (∀ name : CStr, name ∈ env.loops.map (fun l => l.name) →
          name ∉ env.defs.map (fun d => d.name) →
          name ∉ r.teVars.map (fun v => v.name)))
    ∧ (∀ (te te' : Evaluator) (sigFigures : Int),
        (∀ r ∈ line_handler_requests line env, ∀ text, r.expression = some text →
          te text r.teVars = te' text r.teVars) →
        line_handler te line env sigFigures = line_handler te' line env sigFigures) := by
  refine ⟨?_, fun te te' sigFigures h => line_handler_congr te te' line env sigFigures h⟩
  intro r hr
  have h := teVars_line_handler_requests line env r hr
  refine ⟨h, ?_, ?_, ?_⟩
  · rw [h, List.length_map]
  · intro i d hd
    rw [h, List.getElem?_map, hd]; rfl
  · intro name _ hn
    rw [h, List.map_map]
    exact hn

/-- On the expression line `i+x` in the environment with the scalar `x = 2`
and the loop `i = 1, 1, 5`, the one request has the table with `x = 2` only. -/
theorem line_handler_request_table_witness :
    line_handler_requests "i+x".toList
        { defs := [{ name := "x".toList, value := Double.fin 2 }],
          loops := [{ name := "i".toList, start := Double.fin 1, increment := Double.fin 1,
                      end_ := Double.fin 5 }] } =
      [{ expression := some "i+x".toList,
         teVars := [{ name := "x".toList, value := Double.fin 2 }] }]
    ∧ "i".toList ∉ ([{ name := "x".toList, value := Double.fin 2 }] : List te_variable).map
        (fun v => v.name) :=
  ⟨by decide,
   ((line_handler_request_table "i+x".toList
      { defs := [{ name := "x".toList, value := Double.fin 2 }],
        loops := [{ name := "i".toList, start := Double.fin 1, increment := Double.fin 1,
                    end_ := Double.fin 5 }] }).1
      { expression := some "i+x".toList,
        teVars := [{ name := "x".toList, value := Double.fin 2 }] } (by decide)).2.2.2
      "i".toList (by decide) (by decide)⟩

/-! ## A line that begins with the assignment character: properties -/

theorem normalized_of_no_space (s : CStr) (h : ∀ c ∈ s, isspace c = false) :
    normalized s = s := by
  unfold normalized
  rw [List.filter_eq_self]
  intro c hc
  simp [h c hc]

theorem token_loop_skip (d : Char) (size : Nat) (s : CStr) :
    token_loop d size (d :: s) = token_loop d size s := by
  cases size with
  | zero => rfl
  | succ k =>
    have : strtok (d :: s) d = strtok s d := by
      simp [strtok, List.dropWhile_cons]
    simp only [token_loop, this]

theorem tiny_expr_some (te : Evaluator) (text : CStr) (defs : List Def) :
    ∃ value, tiny_expr te (some text) defs = some value := by
  unfold tiny_expr
  simp only []
  split
  · exact ⟨_, rfl⟩
  · exact ⟨_, rfl⟩

/-- C27 as amended: when the name `n` and the right-hand side `e` are not
empty, hold no `=` and no white space, and `n` does not begin with `#`, the
line `=n=e` is processed as the line `n=e` is: its first `=` is not counted
and the token loop skips it, so the counter is 1 and the tokens are `n` and
`e`, and the output, the environment and the request to the evaluator are
those of `n=e`. -/
theorem line_handler_leading_equals (te : Evaluator) (env : Environment) (sigFigures : Int)
    (n e : CStr) (hn : n ≠ []) (he : e ≠ []) (hn1 : '=' ∉ n) (he1 : '=' ∉ e)
    (hn2 : ∀ c ∈ n, isspace c = false) (he2 : ∀ c ∈ e, isspace c = false)
    (hcomment : n.head? ≠ some '#') :
    count_equals ((strip_line ('=' :: (n ++ '=' :: e))).drop 1) = 1
    ∧ token_loop '=' ASSIGNMENT_TOKEN_SIZE (strip_line ('=' :: (n ++ '=' :: e))) = [n, e]
    ∧ line_handler te ('=' :: (n ++ '=' :: e)) env sigFigures =
        line_handler te (n ++ '=' :: e) env sigFigures
    ∧ line_handler_requests ('=' :: (n ++ '=' :: e)) env =
        line_handler_requests (n ++ '=' :: e) env := by
  have hs2 : ∀ c ∈ n ++ '=' :: e, isspace c = false := by
    intro c hc
    simp only [List.mem_append, List.mem_cons] at hc
    rcases hc with hc | hc | hc
    · exact hn2 c hc
    · rw [hc]; decide
    · exact he2 c hc
  have hs1 : ∀ c ∈ '=' :: (n ++ '=' :: e), isspace c = false := by
    intro c hc
    simp only [List.mem_cons] at hc
    rcases hc with hc | hc
    · rw [hc]; decide
    · exact hs2 c (by simpa using hc)
  have hN2 := normalized_of_no_space _ hs2
  have hN1 := normalized_of_no_space _ hs1
  have hcount2 := count_drop_assignment n e hn hn1 he1
  have hcount1 : (('=' :: (n ++ '=' :: e)).drop 1).count '=' = 1 := by
    simp only [List.drop_succ_cons, List.drop_zero, List.count_append, List.count_cons_self,
      List.count_eq_zero_of_not_mem hn1, List.count_eq_zero_of_not_mem he1]
  have htok2 := token_loop_assignment n e hn he hn1 he1
  have htok1 : token_loop '=' ASSIGNMENT_TOKEN_SIZE ('=' :: (n ++ '=' :: e)) = [n, e] := by
    rw [token_loop_skip]; exact htok2
  have hhead2 : (n ++ '=' :: e).head? ≠ some '#' := by
    cases n with
    | nil => exact absurd rfl hn
    | cons c cs => simpa using hcomment
  have hp2 : n ++ '=' :: e ≠ print := by
    intro h
    have : '=' ∈ print := by rw [← h]; simp
    exact absurd this (by decide)
  have hp1 : '=' :: (n ++ '=' :: e) ≠ print := by
    intro h
    have : '=' ∈ print := by rw [← h]; simp
    exact absurd this (by decide)
  have h2 := line_handler_assignment te (n ++ '=' :: e) env sigFigures n e
    (by rw [hN2]; simp) (by rw [hN2]; exact hhead2) hp2 (by rw [hN2]; exact hcount2)
    (by rw [hN2]; exact htok2)
  have h1 := line_handler_assignment te ('=' :: (n ++ '=' :: e)) env sigFigures n e
    (by rw [hN1]; simp) (by rw [hN1]; simp) hp1 (by rw [hN1]; exact hcount1)
    (by rw [hN1]; exact htok1)
  obtain ⟨value, hv⟩ := tiny_expr_some te e env.defs
  refine ⟨?_, ?_, ?_, ?_⟩
  · rw [count_equals_eq_count, strip_line_eq_normalized, hN1, hcount1]; rfl
  · rw [strip_line_eq_normalized, hN1]; exact htok1
  · rw [h1.2 value hv, h2.2 value hv]
  · rw [h1.1, h2.1]

/-- With an evaluator that gives 1 for every expression, the line `=x=1` adds
the scalar `x = 1`, as the line `x=1` does. -/
theorem line_handler_leading_equals_witness :
    line_handler (fun _ _ => some (Double.fin 1)) "=x=1".toList { defs := [], loops := [] } 3 =
      line_handler (fun _ _ => some (Double.fin 1)) "x=1".toList { defs := [], loops := [] } 3
    ∧ line_handler (fun _ _ => some (Double.fin 1)) "=x=1".toList
        { defs := [], loops := [] } 3 =
      some ({ defs := [{ name := "x".toList, value := Double.fin 1 }], loops := [] },
        [Output.scalar 3 "x".toList (Double.fin 1)]) :=
  ⟨(line_handler_leading_equals (fun _ _ => some (Double.fin 1)) { defs := [], loops := [] } 3
      "x".toList "1".toList (by decide) (by decide) (by decide) (by decide) (by decide)
      (by decide) (by decide)).2.2.1,
   by decide⟩

/-- C27 as stated fails for the name `#x` and the right-hand side `1`: the
line `#x=1` is a comment and prints nothing, the line `=#x=1` is no comment,
goes to `assignment_handler` and prints the error message, its name `#x` not
being a valid variable name. -/
theorem line_handler_leading_equals_comment :
    line_handler (fun _ _ => some (Double.fin 1)) "#x=1".toList { defs := [], loops := [] } 3 =
      some ({ defs := [], loops := [] }, [])
    ∧ line_handler (fun _ _ => some (Double.fin 1)) "=#x=1".toList
        { defs := [], loops := [] } 3 =
      some ({ defs := [], loops := [] }, [Output.stderr runningError])
    ∧ token_loop '=' ASSIGNMENT_TOKEN_SIZE (strip_line "=#x=1".toList) =
        ["#x".toList, "1".toList] := by
  refine ⟨by decide, by decide, by decide⟩

/-! ## The token splitter: properties -/

theorem split_fields_ne_nil (d : Char) (s : CStr) : split_fields d s ≠ [] := by
  cases s with
  | nil => simp [split_fields]
  | cons c rest =>
    unfold split_fields
    split
    · simp
    · split <;> simp

theorem split_fields_cons_eq (d : Char) (rest : CStr) :
    split_fields d (d :: rest) = [] :: split_fields d rest := by
  rw [split_fields, if_pos rfl]

theorem split_fields_cons_ne (d c : Char) (rest field : CStr) (fields : List CStr) (h : c ≠ d)
    (hs : split_fields d rest = field :: fields) :
    split_fields d (c :: rest) = (c :: field) :: fields := by
  rw [split_fields, if_neg h, hs]

theorem split_fields_eq_splitOn (d : Char) (s : CStr) : split_fields d s = s.splitOn d := by
  induction s with
  | nil => simp [split_fields, List.splitOn]
  | cons c rest ih =>
    unfold split_fields
    rw [List.splitOn, List.splitOnP_cons]
    by_cases h : c = d
    · simp [h, ih, List.splitOn]
    · have h2 : (c == d) = false := by simpa using h
      simp only [h, if_false, h2]
      rw [ih]
      cases hs : rest.splitOn d with
      | nil => exact absurd hs (by rw [← ih]; exact split_fields_ne_nil d rest)
      | cons f fs =>
        rw [List.splitOn] at hs
        simp [hs, List.modifyHead]

theorem split_fields_length (d : Char) (s : CStr) :
    (split_fields d s).length = s.count d + 1 := by
  induction s with
  | nil => simp [split_fields]
  | cons c rest ih =>
    unfold split_fields
    by_cases h : c = d
    · simp [h, ih]
    · simp only [h, if_false]
      have hc : (c == d) = false := by simpa using h
      rw [List.count_cons, hc]
      cases hs : split_fields d rest with
      | nil => exact absurd hs (split_fields_ne_nil d rest)
      | cons f fs =>
        rw [hs] at ih
        simpa using ih

theorem split_fields_cut (d : Char) (s : CStr) :
    split_fields d s =
      s.takeWhile (fun c => c != d) ::
        (if s.dropWhile (fun c => c != d) = [] then []
         else split_fields d ((s.dropWhile (fun c => c != d)).drop 1)) := by
  induction s with
  | nil => simp [split_fields]
  | cons c rest ih =>
    by_cases h : c = d
    · subst h
      rw [split_fields_cons_eq]
      simp
    · have hc : (c != d) = true := by simpa using h
      rw [split_fields_cons_ne d c rest _ _ h ih]
      simp only [List.takeWhile_cons, List.dropWhile_cons, hc, if_true]

theorem split_fields_skip (d : Char) (s : CStr) :
    (split_fields d s).filter (fun f => decide (f ≠ [])) =
      (split_fields d (s.dropWhile (fun c => c == d))).filter (fun f => decide (f ≠ [])) := by
  induction s with
  | nil => rfl
  | cons c rest ih =>
    by_cases h : c = d
    · have hc : (c == d) = true := by simpa using h
      rw [List.dropWhile_cons, hc, if_pos rfl, ← ih, h, split_fields_cons_eq]
      simp
    · have hc : (c == d) = false := by simpa using h
      rw [List.dropWhile_cons, hc]
      rfl

theorem strtok_fields_none (d : Char) (s : CStr) (h : strtok s d = none) :
    (split_fields d s).filter (fun f => decide (f ≠ [])) = [] := by
  unfold strtok at h
  simp only [] at h
  split at h
  · next hs =>
    rw [split_fields_skip, hs]
    rfl
  · exact absurd h (by simp)

theorem strtok_fields_some (d : Char) (s myptr rest : CStr)
    (h : strtok s d = some (myptr, rest)) :
    (split_fields d s).filter (fun f => decide (f ≠ [])) =
      myptr :: (split_fields d rest).filter (fun f => decide (f ≠ [])) := by
  unfold strtok at h
  simp only [] at h
  split at h
  · exact absurd h (by simp)
  · next hs =>
    simp only [Option.some.injEq, Prod.mk.injEq] at h
    obtain ⟨h1, h2⟩ := h
    rw [split_fields_skip, split_fields_cut]
    have hne : List.takeWhile (fun c => c != d) (List.dropWhile (fun c => c == d) s) ≠ [] := by
      cases hd : List.dropWhile (fun c => c == d) s with
      | nil => exact absurd hd hs
      | cons c r =>
        have := List.head_dropWhile_not (fun c => c == d) s (by rw [hd]; simp)
        simp only [hd, List.head_cons] at this
        have hc : (c != d) = true := by simpa [bne] using this
        rw [List.takeWhile_cons, hc]
        simp
    rw [List.filter_cons, if_pos (by simpa using hne), h1]
    congr 1
    split
    · next he =>
      rw [← h2, he]
      rfl
    · rw [h2]

theorem token_loop_fields (d : Char) (size : Nat) (s : CStr) :
    token_loop d size s =
      ((split_fields d s).filter (fun f => decide (f ≠ []))).take size := by
  induction size generalizing s with
  | zero => simp [token_loop]
  | succ k ih =>
    unfold token_loop
    cases h : strtok s d with
    | none =>
      simp only []
      rw [strtok_fields_none d s h]
      rfl
    | some p =>
      obtain ⟨myptr, rest⟩ := p
      simp only []
      rw [strtok_fields_some d s myptr rest h, List.take_succ_cons, ih]

/-- C25 as amended: the token loop returns the fields of `s` that are not
empty, in order, truncated to the first `size` of them, and its counter is the
number of tokens returned; the fields (`split_fields`, the standard `splitOn`)
are `count + 1` in number for a string with `count` delimiters.  When no
field of `s` is empty the tokens are the fields, truncated to the first `size`,
and a string with fewer than `size` delimiters yields `count + 1` tokens. -/
theorem token_loop_spec (d : Char) (size : Nat) (s : CStr) :
    token_loop d size s =
      ((split_fields d s).filter (fun f => decide (f ≠ []))).take size
    ∧ split_fields d s = s.splitOn d
    ∧ (split_fields d s).length = s.count d + 1
    ∧ (token_array size (token_loop d size s)).length = size
    ∧ ((∀ f ∈ split_fields d s, f ≠ []) →
        token_loop d size s = (split_fields d s).take size
        ∧ (s.count d < size → (token_loop d size s).length = s.count d + 1)) := by
  refine ⟨token_loop_fields d size s, split_fields_eq_splitOn d s, split_fields_length d s,
    ?_, ?_⟩
  · have := token_loop_length_le d size s
    simp [token_array]
    omega
  · intro hf
    have hfilter : (split_fields d s).filter (fun f => decide (f ≠ [])) = split_fields d s := by
      rw [List.filter_eq_self]
      intro f hmem
      simpa using hf f hmem
    have h1 : token_loop d size s = (split_fields d s).take size := by
      rw [token_loop_fields, hfilter]
    refine ⟨h1, ?_⟩
    intro hlt
    rw [h1, List.length_take, split_fields_length]
    omega

/-- The string `a,b,c,d` with the cap 5: three commas, four tokens. -/
theorem token_loop_spec_witness :
    (∀ f ∈ split_fields ',' "a,b,c,d".toList, f ≠ [])
    ∧ token_loop ',' 5 "a,b,c,d".toList =
        ["a".toList, "b".toList, "c".toList, "d".toList]
    ∧ (token_loop ',' 5 "a,b,c,d".toList).length = "a,b,c,d".toList.count ',' + 1 :=
  ⟨by decide,
   ((token_loop_spec ',' 5 "a,b,c,d".toList).2.2.2.2 (by decide)).1.trans (by decide),
   ((token_loop_spec ',' 5 "a,b,c,d".toList).2.2.2.2 (by decide)).2 (by decide)⟩

/-- C25 as stated fails for the string `a,,b` with the cap 5: it has 2 commas
and its fields are `a`, the empty string and `b`, but the token loop returns
the two tokens `a` and `b`; the empty field between the adjacent commas is not
returned. -/
theorem token_loop_adjacent_delimiters :
    token_loop ',' 5 "a,,b".toList = ["a".toList, "b".toList]
    ∧ (split_fields ',' "a,,b".toList).take 5 = ["a".toList, [], "b".toList]
    ∧ "a,,b".toList.count ',' = 2
    ∧ (token_loop ',' 5 "a,,b".toList).length ≠ "a,,b".toList.count ',' + 1 := by
  refine ⟨by decide, by decide, by decide, by decide⟩

/-! ## The specification of a scalar: properties -/

theorem split_fields_of_not_mem (d : Char) (s : CStr) (h : d ∉ s) : split_fields d s = [s] := by
  induction s with
  | nil => rfl
  | cons c rest ih =>
    simp only [List.mem_cons, not_or] at h
    exact split_fields_cons_ne d c rest rest [] (fun e => h.1 e.symm) (ih h.2)

theorem split_fields_append (d : Char) (a b : CStr) (h : d ∉ a) :
    split_fields d (a ++ d :: b) = a :: split_fields d b := by
  induction a with
  | nil => exact split_fields_cons_eq d b
  | cons c rest ih =>
    simp only [List.mem_cons, not_or] at h
    exact split_fields_cons_ne d c (rest ++ d :: b) rest _ (fun e => h.1 e.symm) (ih h.2)

theorem not_mem_of_count_append (d : Char) (a b : CStr) (h : (a ++ d :: b).count d = 1) :
    d ∉ a ∧ d ∉ b := by
  simp only [List.count_append, List.count_cons_self] at h
  constructor
  · apply List.count_eq_zero.mp; omega
  · apply List.count_eq_zero.mp; omega

/-- The tokens of a text `name=value` that holds one `=`, with neither part
empty. -/
theorem token_loop_def (name value : CStr) (hname : name ≠ []) (hvalue : value ≠ [])
    (hc : (name ++ '=' :: value).count '=' = 1) :
    token_loop '=' DEF_TOKEN_SIZE (name ++ '=' :: value) = [name, value] := by
  obtain ⟨hn, hv⟩ := not_mem_of_count_append '=' name value hc
  rw [token_loop_fields, split_fields_append _ _ _ hn, split_fields_of_not_mem _ _ hv]
  simp [hname, hvalue, DEF_TOKEN_SIZE]

/-- A text with one `=` that the token loop splits in two tokens is the first
token, the `=` and the second token. -/
theorem token_loop_def_inv (s name value : CStr) (hc : s.count '=' = 1)
    (ht : token_loop '=' DEF_TOKEN_SIZE s = [name, value]) :
    s = name ++ '=' :: value ∧ name ≠ [] ∧ value ≠ [] := by
  have hlen := split_fields_length '=' s
  rw [hc] at hlen
  have hjoin : ['='].intercalate (s.splitOn '=') = s := List.intercalate_splitOn s '='
  rw [← split_fields_eq_splitOn] at hjoin
  rw [token_loop_fields] at ht
  match hs : split_fields '=' s, hlen with
  | [a, b], _ =>
    rw [hs] at hjoin ht
    have hab : s = a ++ '=' :: b := by
      rw [← hjoin]
      simp [List.intercalate]
    by_cases ha : a = []
    · by_cases hb : b = []
      · simp [ha, hb] at ht
      · simp [ha, hb, DEF_TOKEN_SIZE] at ht
    · by_cases hb : b = []
      · simp [ha, hb, DEF_TOKEN_SIZE] at ht
      · simp [ha, hb, DEF_TOKEN_SIZE] at ht
        obtain ⟨h1, h2⟩ := ht
        subst h1 h2
        exact ⟨hab, ha, hb⟩

theorem def_handler_accepts (strtod : Strtod) (s name value : CStr) (defs : List Def)
    (h : def_specification strtod s name value) :
    def_handler strtod s defs =
      some (1, defs ++ [{ name := name, value := atof strtod value }]) := by
  obtain ⟨hs, hc, hn, hv, hd⟩ := h
  have hname : name ≠ [] := by
    intro e
    rw [e] at hn
    exact absurd hn (by decide)
  have ht : token_loop '=' DEF_TOKEN_SIZE s = [name, value] := by
    rw [hs]
    exact token_loop_def name value hname hv (by rw [← hs]; exact hc)
  rcases def_handler_cases strtod s defs with h0 | ⟨name', value', ht', -, -, -, -, h1⟩
  · exfalso
    unfold def_handler at h0
    simp only [token_token_array, ht, delim_check, hc] at h0
    simp [hn, hd] at h0
  · rw [ht] at ht'
    simp only [List.cons.injEq, and_true] at ht'
    obtain ⟨e1, e2⟩ := ht'
    subst e1 e2
    exact h1

theorem def_handler_rejects (strtod : Strtod) (s : CStr) (defs : List Def)
    (h : ¬ ∃ name value, def_specification strtod s name value) :
    def_handler strtod s defs = some (0, defs) := by
  rcases def_handler_cases strtod s defs with h0 | ⟨name, value, ht, hc, -, hn, hd, -⟩
  · exact h0
  · exfalso
    apply h
    obtain ⟨hs, -, hv⟩ := token_loop_def_inv s name value hc ht
    exact ⟨name, value, hs, hc, hn, hv, hd⟩

/-- C24: `def_handler` returns 1 exactly when the specification has the form
`name=value` with one `=`, a valid variable name and a non-empty value that
`valid_double` accepts.  It then appends the one scalar `name` with the
parsed value to the scalars and the loop of `check_validity` goes on with the
other settings as they were; otherwise it returns 0 with the scalars as they
were and the program exits with status 4. -/
theorem def_handler_spec (strtod : Strtod) (fopen : CStr → Bool) (s : CStr) (defs : List Def)
    (rest : List CStr) (st : Settings) (sigCount : Int) :
    ((∃ defs', def_handler strtod s defs = some (1, defs')) ↔
        ∃ name value, def_specification strtod s name value)
    ∧ (∀ name value, def_specification strtod s name value →
        def_handler strtod s defs =
          some (1, defs ++ [{ name := name, value := atof strtod value }])
        ∧ check_validity_loop strtod fopen (def_ :: s :: rest) st sigCount =
            check_validity_loop strtod fopen rest
              { st with env := { st.env with
                                 defs := st.env.defs ++
                                   [{ name := name, value := atof strtod value }] } }
              sigCount)
    ∧ ((¬ ∃ name value, def_specification strtod s name value) →
        def_handler strtod s defs = some (0, defs)
        ∧ check_validity_loop strtod fopen (def_ :: s :: rest) st sigCount =
            Startup.exit 4) := by
  refine ⟨⟨?_, ?_⟩, ?_, ?_⟩
  · rintro ⟨defs', h⟩
    by_contra hno
    rw [def_handler_rejects strtod s defs hno] at h
    simp at h
  · rintro ⟨name, value, h⟩
    exact ⟨_, def_handler_accepts strtod s name value defs h⟩
  · intro name value h
    refine ⟨def_handler_accepts strtod s name value defs h, ?_⟩
    rw [check_validity_loop]
    simp [strcmp_eq_zero, def_handler_accepts strtod s name value st.env.defs h]
  · intro h
    refine ⟨def_handler_rejects strtod s defs h, ?_⟩
    rw [check_validity_loop]
    simp [strcmp_eq_zero, def_handler_rejects strtod s st.env.defs h, INVALID_VARIABLES_CODE]

/-- The specification `a=1` is accepted and adds the scalar `a = 1`; the
specification `a=`, whose value is empty, is rejected. -/
theorem def_handler_spec_witness :
    def_specification strtod_model "a=1".toList "a".toList "1".toList
    ∧ def_handler strtod_model "a=1".toList [] =
        some (1, [{ name := "a".toList, value := Double.fin 1 }])
    ∧ (¬ ∃ name value, def_specification strtod_model "a=".toList name value)
    ∧ def_handler strtod_model "a=".toList [] = some (0, []) :=
  have h : def_specification strtod_model "a=1".toList "a".toList "1".toList :=
    ⟨by decide, by decide, by decide, by decide, valid_double_model_1⟩
  have h0 : def_handler strtod_model "a=".toList [] = some (0, []) := by decide
  ⟨h,
   (((def_handler_spec strtod_model (fun _ => false) "a=1".toList [] [] Settings.initial 0).2.1
      "a".toList "1".toList h).1).trans (by rw [atof, strtod_model_1]; rfl),
   fun hex =>
     Exists.elim
       ((def_handler_spec strtod_model (fun _ => false) "a=".toList [] [] Settings.initial
          0).1.mpr hex)
       (fun defs' h1 => absurd (h0.symm.trans h1) (by simp)),
   h0⟩

/-! ## The arguments of the command line: properties -/

theorem begins_dashes_iff (a : CStr) :
    (a.head? = some '-' ∧ (a.drop 1).head? = some '-') ↔ a.take 2 = "--".toList := by
  match a with
  | [] => simp
  | [c] => simp
  | c :: c' :: rest => simp

theorem def_handler_frame (strtod : Strtod) (v : CStr) (defs : List Def) :
    def_handler strtod v defs = some (0, defs) ↔ def_handler strtod v [] = some (0, []) := by
  rcases def_handler_cases strtod v defs with h | ⟨name, valueText, -, -, -, -, -, h⟩
  · rcases def_handler_cases strtod v [] with h0 | ⟨name, valueText, ht, hc, -, hn, hd, -⟩
    · simp [h, h0]
    · exfalso
      obtain ⟨hs, -, hv⟩ := token_loop_def_inv v name valueText hc ht
      have := def_handler_accepts strtod v name valueText defs ⟨hs, hc, hn, hv, hd⟩
      rw [h] at this
      simp at this
  · rcases def_handler_cases strtod v [] with h0 | ⟨name0, valueText0, -, -, -, -, -, h0⟩
    · exfalso
      have hno : ¬ ∃ name value, def_specification strtod v name value := by
        rintro ⟨name1, value1, h1⟩
        have := def_handler_accepts strtod v name1 value1 [] h1
        rw [h0] at this
        simp at this
      have := def_handler_rejects strtod v defs hno
      rw [h] at this
      simp at this
    · simp [h, h0]

theorem loop_handler_frame (strtod : Strtod) (v : CStr) (loops : List Loop) :
    loop_handler strtod v loops = some (0, loops) ↔ loop_handler strtod v [] = some (0, []) := by
  unfold loop_handler
  by_cases hd : delim_check v ',' = 0
  · simp [hd]
  · simp only [hd, if_false]
    cases validate_loop_tokens strtod
        (token_array LOOP_TOKEN_SIZE (token_loop ',' LOOP_TOKEN_SIZE v))
        (token_loop ',' LOOP_TOKEN_SIZE v).length with
    | none => simp
    | some valid =>
      simp only []
      by_cases hv : valid = 0
      · simp [hv]
      · simp only [hv, if_false]
        split <;> simp

/-- One turn of the `while` loop of `check_validity`, by the kind of the
argument in option position. -/
theorem check_validity_loop_step (strtod : Strtod) (fopen : CStr → Bool) (arg : CStr)
    (rest : List CStr) (st : Settings) (sigCount : Int) :
    (is_option arg = true ∧ rest = []
      ∧ check_validity_loop strtod fopen (arg :: rest) st sigCount = Startup.exit 12)
    ∨ (∃ v rest', rest = v :: rest' ∧ (arg = def_ ∨ arg = loop)
        ∧ ((check_validity_loop strtod fopen (arg :: rest) st sigCount = Startup.exit 4
            ∧ rejected_specification strtod arg v = true)
          ∨ ∃ st1 : Settings, st1.sigFigures = st.sigFigures
              ∧ st1.filePresent = st.filePresent
              ∧ check_validity_loop strtod fopen (arg :: rest) st sigCount =
                  check_validity_loop strtod fopen rest' st1 sigCount))
    ∨ (∃ v rest', rest = v :: rest' ∧ arg = sig
        ∧ (check_validity_loop strtod fopen (arg :: rest) st sigCount = Startup.exit 12
          ∨ (sigCount ≤ 0 ∧ ∃ st1 : Settings, st1.env = st.env
              ∧ st1.filePresent = st.filePresent
              ∧ check_validity_loop strtod fopen (arg :: rest) st sigCount =
                  check_validity_loop strtod fopen rest' st1 (sigCount + 1))))
    ∨ (is_option arg = false
        ∧ check_validity_loop strtod fopen (arg :: rest) st sigCount =
            if rest ≠ [] ∨ arg.take 2 = "--".toList then Startup.exit 12
            else if fopen arg = false then Startup.exit 19
            else Startup.ok { st with filePresent := 1 }) := by
  have hld : loop ≠ def_ := by decide
  have hsd : sig ≠ def_ := by decide
  have hsl : sig ≠ loop := by decide
  by_cases hd : arg = def_
  · subst hd
    cases rest with
    | nil =>
      left
      refine ⟨by decide, rfl, ?_⟩
      rw [check_validity_loop]
      simp [strcmp_eq_zero, USAGE_CODE]
    | cons v rest' =>
      right; left
      refine ⟨v, rest', rfl, Or.inl rfl, ?_⟩
      rcases def_handler_cases strtod v st.env.defs with h | ⟨name, valueText, -, -, -, -, -, h⟩
      · left
        refine ⟨?_, ?_⟩
        · rw [check_validity_loop]
          simp [strcmp_eq_zero, h, INVALID_VARIABLES_CODE]
        · simp [rejected_specification, (def_handler_frame strtod v st.env.defs).mp h]
      · right
        refine ⟨{ st with env := { st.env with
                    defs := st.env.defs ++ [{ name := name, value := atof strtod valueText }] } },
          rfl, rfl, ?_⟩
        rw [check_validity_loop]
        simp [strcmp_eq_zero, h]
  by_cases hl : arg = loop
  · subst hl
    cases rest with
    | nil =>
      left
      refine ⟨by decide, rfl, ?_⟩
      rw [check_validity_loop]
      simp [strcmp_eq_zero, USAGE_CODE, hld]
    | cons v rest' =>
      right; left
      refine ⟨v, rest', rfl, Or.inr rfl, ?_⟩
      rcases loop_handler_cases strtod v st.env.loops with
        h | ⟨name, startText, incrementText, endText, -, -, -, -, h⟩
      · left
        refine ⟨?_, ?_⟩
        · rw [check_validity_loop]
          simp [strcmp_eq_zero, h, INVALID_VARIABLES_CODE, hld]
        · simp [rejected_specification, (loop_handler_frame strtod v st.env.loops).mp h]
      · right
        refine ⟨{ st with env := { st.env with
                    loops := st.env.loops ++ [{ name := name, start := atof strtod startText,
                                                increment := atof strtod incrementText,
                                                end_ := atof strtod endText }] } },
          rfl, rfl, ?_⟩
        rw [check_validity_loop]
        simp [strcmp_eq_zero, h, hld]
  by_cases hs : arg = sig
  · subst hs
    cases rest with
    | nil =>
      left
      refine ⟨by decide, rfl, ?_⟩
      rw [check_validity_loop]
      simp [strcmp_eq_zero, USAGE_CODE, hsd, hsl]
    | cons v rest' =>
      right; right; left
      refine ⟨v, rest', rfl, rfl, ?_⟩
      by_cases hc : 1 ≤ sigCount
      · left
        rw [check_validity_loop]
        simp [strcmp_eq_zero, hsd, hsl, sig_handler_repeated sigCount v hc]
      · rcases sig_handler_cases sigCount v with h | ⟨r, h⟩
        · left
          rw [check_validity_loop]
          simp [strcmp_eq_zero, hsd, hsl, h]
        · right
          refine ⟨by omega, ?_⟩
          have hr : r.1 = sigCount + 1 := by
            unfold sig_handler at h
            simp only [] at h
            split at h
            · exact absurd h (by simp)
            · split at h
              · simp only [Startup.ok.injEq] at h
                rw [← h]
              · exact absurd h (by simp)
          refine ⟨{ st with sigFigures := r.2 }, rfl, rfl, ?_⟩
          rw [check_validity_loop]
          obtain ⟨r1, r2⟩ := r
          simp only [] at hr
          subst hr
          simp [strcmp_eq_zero, hsd, hsl, h]
  · right; right; right
    have ho : is_option arg = false := by simp [is_option, hd, hl, hs]
    refine ⟨ho, ?_⟩
    cases rest with
    | nil =>
      rw [check_validity_loop]
      simp only [strcmp_eq_zero, hd, hl, hs, if_false, ne_eq, not_true_eq_false, false_or]
      unfold file_validator
      simp only [begins_dashes_iff, USAGE_CODE, FILE_READ_CODE, String.toList]
      by_cases hb : arg.take 2 = ['-', '-']
      · simp [hb]
      · by_cases hf : fopen arg = true
        · simp [hb, hf]
        · simp [hb, hf]
    | cons v rest' =>
      rw [check_validity_loop]
      simp [strcmp_eq_zero, hd, hl, hs, USAGE_CODE]

/-- Induction over the turns of the `while` loop of `check_validity`: a
property of the arguments left, the settings, the counter of `--sigfigures`
and the result holds of the loop when it holds of each way a turn can end. -/
theorem check_validity_loop_induction (strtod : Strtod) (fopen : CStr → Bool)
    (P : List CStr → Settings → Int → Startup Settings → Prop)
    (hnil : ∀ st sc, P [] st sc (Startup.ok st))
    (hlast : ∀ a st sc, is_option a = true → P [a] st sc (Startup.exit 12))
    (hfile : ∀ a st sc, is_option a = false →
      P [a] st sc (if a.take 2 = "--".toList then Startup.exit 12
        else if fopen a = false then Startup.exit 19
        else Startup.ok { st with filePresent := 1 }))
    (hother : ∀ a v rest st sc, is_option a = false → P (a :: v :: rest) st sc (Startup.exit 12))
    (hreject : ∀ a v rest st sc, (a = def_ ∨ a = loop) →
      rejected_specification strtod a v = true → P (a :: v :: rest) st sc (Startup.exit 4))
    (haccept : ∀ a v rest (st st1 : Settings) sc r, (a = def_ ∨ a = loop) →
      st1.sigFigures = st.sigFigures → st1.filePresent = st.filePresent →
      P rest st1 sc r → P (a :: v :: rest) st sc r)
    (hsig12 : ∀ v rest st sc, P (sig :: v :: rest) st sc (Startup.exit 12))
    (hsig : ∀ v rest (st st1 : Settings) sc r, sc ≤ 0 → st1.env = st.env →
      st1.filePresent = st.filePresent →
      P rest st1 (sc + 1) r → P (sig :: v :: rest) st sc r)
    (args : List CStr) (st : Settings) (sigCount : Int) :
    P args st sigCount (check_validity_loop strtod fopen args st sigCount) := by
  have key : ∀ n : Nat, ∀ (args : List CStr) (st : Settings) (sigCount : Int),
      args.length ≤ n → P args st sigCount (check_validity_loop strtod fopen args st sigCount) := by
    intro n
    induction n with
    | zero =>
      intro args st sc hlen
      have : args = [] := List.length_eq_zero.mp (by omega)
      subst this
      rw [check_validity_loop]
      exact hnil st sc
    | succ n ih =>
      intro args st sc hlen
      cases args with
      | nil =>
        rw [check_validity_loop]
        exact hnil st sc
      | cons arg rest =>
        rcases check_validity_loop_step strtod fopen arg rest st sc with
          ⟨ho, hr, h⟩ | ⟨v, rest', hr, ha, h⟩ | ⟨v, rest', hr, ha, h⟩ | ⟨ho, h⟩
        · subst hr
          rw [h]
          exact hlast arg st sc ho
        · subst hr
          rcases h with ⟨h, hrej⟩ | ⟨st1, h1, h2, h⟩
          · rw [h]
            exact hreject arg v rest' st sc ha hrej
          · rw [h]
            refine haccept arg v rest' st st1 sc _ ha h1 h2 (ih rest' st1 sc ?_)
            simp only [List.length_cons] at hlen
            omega
        · subst hr
          subst ha
          rcases h with h | ⟨hsc, st1, h1, h2, h⟩
          · rw [h]
            exact hsig12 v rest' st sc
          · rw [h]
            refine hsig v rest' st st1 sc _ hsc h1 h2 (ih rest' st1 (sc + 1) ?_)
            simp only [List.length_cons] at hlen
            omega
        · rw [h]
          cases rest with
          | nil =>
            simp only [ne_eq, not_true_eq_false, false_or]
            exact hfile arg st sc ho
          | cons v rest' =>
            simp only [ne_eq, reduceCtorEq, not_false_eq_true, true_or, if_true]
            exact hother arg v rest' st sc ho
  exact key args.length args st sigCount (le_refl _)

theorem is_option_of_spec (a : CStr) (h : a = def_ ∨ a = loop) : is_option a = true := by
  rcases h with h | h <;> subst h <;> decide

/-- The loop of `check_validity` ends with status 4 only at a `--def` or
`--forloop` whose value the handler rejects. -/
theorem check_validity_loop_exit_4 (strtod : Strtod) (fopen : CStr → Bool) (args : List CStr)
    (st : Settings) (sigCount : Int)
    (h : check_validity_loop strtod fopen args st sigCount = Startup.exit 4) :
    ∃ pre opt v post, args = pre ++ opt :: v :: post
      ∧ rejected_specification strtod opt v = true := by
  refine check_validity_loop_induction strtod fopen
    (fun args _ _ r => r = Startup.exit 4 →
      ∃ pre opt v post, args = pre ++ opt :: v :: post
        ∧ rejected_specification strtod opt v = true)
    ?_ ?_ ?_ ?_ ?_ ?_ ?_ ?_ args st sigCount h
  · intro st sc h; exact absurd h (by simp)
  · intro a st sc _ h; exact absurd h (by simp)
  · intro a st sc _ h
    split at h
    · exact absurd h (by simp)
    · split at h <;> exact absurd h (by simp)
  · intro a v rest st sc _ h; exact absurd h (by simp)
  · intro a v rest st sc _ hrej _
    exact ⟨[], a, v, rest, rfl, hrej⟩
  · intro a v rest st st1 sc r _ _ _ ih h
    obtain ⟨pre, opt, w, post, he, hrej⟩ := ih h
    exact ⟨a :: v :: pre, opt, w, post, by rw [he]; rfl, hrej⟩
  · intro v rest st sc h; exact absurd h (by simp)
  · intro v rest st st1 sc r _ _ _ ih h
    obtain ⟨pre, opt, w, post, he, hrej⟩ := ih h
    exact ⟨sig :: v :: pre, opt, w, post, by rw [he]; rfl, hrej⟩

/-- When the last argument is an option in option position, the loop of
`check_validity` ends with status 12 or 4. -/
theorem check_validity_loop_final_option (strtod : Strtod) (fopen : CStr → Bool)
    (args : List CStr) (st : Settings) (sigCount : Int) (a : CStr)
    (h : final_option args = some a) (ha : is_option a = true) :
    check_validity_loop strtod fopen args st sigCount = Startup.exit 12
    ∨ check_validity_loop strtod fopen args st sigCount = Startup.exit 4 := by
  refine check_validity_loop_induction strtod fopen
    (fun args _ _ r => final_option args = some a → r = Startup.exit 12 ∨ r = Startup.exit 4)
    ?_ ?_ ?_ ?_ ?_ ?_ ?_ ?_ args st sigCount h
  · intro st sc h
    simp [final_option] at h
  · intro b st sc _ _
    exact Or.inl rfl
  · intro b st sc hb h
    simp only [final_option, hb] at h
    simp only [Bool.false_eq_true, if_false, Option.some.injEq] at h
    subst h
    exact absurd ha (by simp [hb])
  · intro b v rest st sc _ _
    exact Or.inl rfl
  · intro b v rest st sc _ _ _
    exact Or.inr rfl
  · intro b v rest st st1 sc r hb _ _ ih h
    apply ih
    simpa [final_option, is_option_of_spec b hb] using h
  · intro v rest st sc _
    exact Or.inl rfl
  · intro v rest st st1 sc r _ _ _ ih h
    apply ih
    simpa [final_option, show is_option sig = true by decide] using h

/-- The loop of `check_validity` and the first argument in option position that
is no option: the loop ends with status 12 or 4, or there is no such argument
and it reaches its end with `filePresent` as it was, or the argument is the
last one, does not begin with `--`, and the loop ends with status 19 when the
file cannot be opened and reaches its end with `filePresent` 1 when it can. -/
theorem check_validity_loop_first_other (strtod : Strtod) (fopen : CStr → Bool)
    (args : List CStr) (st : Settings) (sigCount : Int) :
    check_validity_loop strtod fopen args st sigCount = Startup.exit 12
    ∨ check_validity_loop strtod fopen args st sigCount = Startup.exit 4
    ∨ (first_other args = none
        ∧ ∃ st', check_validity_loop strtod fopen args st sigCount = Startup.ok st'
            ∧ st'.filePresent = st.filePresent)
    ∨ ∃ a, first_other args = some (a, []) ∧ a.take 2 ≠ "--".toList
        ∧ ((fopen a = false
            ∧ check_validity_loop strtod fopen args st sigCount = Startup.exit 19)
          ∨ (fopen a = true
            ∧ ∃ st', check_validity_loop strtod fopen args st sigCount = Startup.ok st'
                ∧ st'.filePresent = 1)) := by
  refine check_validity_loop_induction strtod fopen
    (fun args st _ r => r = Startup.exit 12 ∨ r = Startup.exit 4
      ∨ (first_other args = none ∧ ∃ st', r = Startup.ok st'
          ∧ st'.filePresent = st.filePresent)
      ∨ ∃ a, first_other args = some (a, []) ∧ a.take 2 ≠ "--".toList
          ∧ ((fopen a = false ∧ r = Startup.exit 19)
            ∨ (fopen a = true ∧ ∃ st', r = Startup.ok st' ∧ st'.filePresent = 1)))
    ?_ ?_ ?_ ?_ ?_ ?_ ?_ ?_ args st sigCount
  · intro st sc
    exact Or.inr (Or.inr (Or.inl ⟨rfl, st, rfl, rfl⟩))
  · intro a st sc _
    exact Or.inl rfl
  · intro a st sc ho
    by_cases hb : a.take 2 = "--".toList
    · left
      rw [if_pos hb]
    · right; right; right
      refine ⟨a, by simp [first_other, ho], hb, ?_⟩
      rw [if_neg hb]
      by_cases hf : fopen a = true
      · right
        refine ⟨hf, { st with filePresent := 1 }, ?_, rfl⟩
        simp [hf]
      · left
        have hf' : fopen a = false := by simpa using hf
        exact ⟨hf', by simp [hf']⟩
  · intro a v rest st sc _
    exact Or.inl rfl
  · intro a v rest st sc _ _
    exact Or.inr (Or.inl rfl)
  · intro a v rest st st1 sc r ha _ h2 ih
    have hf : first_other (a :: v :: rest) = first_other rest := by
      simp [first_other, is_option_of_spec a ha]
    rw [hf, ← h2]
    exact ih
  · intro v rest st sc
    exact Or.inl rfl
  · intro v rest st st1 sc r _ _ h2 ih
    have hf : first_other (sig :: v :: rest) = first_other rest := by
      simp [first_other, show is_option sig = true by decide]
    rw [hf, ← h2]
    exact ih

/-! ## The command line: repeated options, the final option and the file -/

theorem check_validity_of_loop_exit (strtod : Strtod) (fopen : CStr → Bool) (argv : List CStr)
    (st : Settings) (c : Int)
    (h : check_validity_loop strtod fopen (argv.drop 1) st 0 = Startup.exit c) :
    check_validity strtod fopen argv st = Startup.exit c := by
  unfold check_validity
  rw [h]

theorem check_validity_of_loop_ok (strtod : Strtod) (fopen : CStr → Bool) (argv : List CStr)
    (st : Settings)
    (h : check_validity_loop strtod fopen (argv.drop 1) Settings.initial 0 = Startup.ok st) :
    check_validity strtod fopen argv Settings.initial = Startup.exit 18
    ∨ check_validity strtod fopen argv Settings.initial = Startup.ok st := by
  have hc := check_validity_cases strtod fopen argv
  unfold check_validity at hc ⊢
  rw [h] at hc ⊢
  simp only [] at hc ⊢
  cases hu : unique_name_check st.env with
  | none =>
    rw [hu] at hc
    simp at hc
  | some unique =>
    simp only []
    by_cases h0 : unique = 0
    · left
      simp [h0, DUPLICATE_NAME_CODE]
    · right
      simp [h0]

/-- C22 as amended: when the last argument is `--def`, `--forloop` or
`--sigfigures` in option position, `check_validity` exits with status 12, or
with status 4 when a `--def` or a `--forloop` of the command line has a value
that its handler rejects; and the loop, on reaching an option that is the last
argument, exits with status 12 whatever the handlers would do. -/
theorem check_validity_final_option (strtod : Strtod) (fopen : CStr → Bool)
    (argv : List CStr) (a : CStr) (h : final_option (argv.drop 1) = some a)
    (ha : is_option a = true) :
    (check_validity strtod fopen argv Settings.initial = Startup.exit 12
      ∨ (check_validity strtod fopen argv Settings.initial = Startup.exit 4
        ∧ ∃ pre opt v post, argv.drop 1 = pre ++ opt :: v :: post
            ∧ rejected_specification strtod opt v = true))
    ∧ ∀ (st : Settings) (sigCount : Int),
        check_validity_loop strtod fopen [a] st sigCount = Startup.exit 12 := by
  constructor
  · rcases check_validity_loop_final_option strtod fopen (argv.drop 1) Settings.initial 0 a h ha
      with h12 | h4
    · exact Or.inl (check_validity_of_loop_exit strtod fopen argv _ _ h12)
    · exact Or.inr ⟨check_validity_of_loop_exit strtod fopen argv _ _ h4,
        check_validity_loop_exit_4 strtod fopen _ _ _ h4⟩
  · intro st sigCount
    rcases check_validity_loop_step strtod fopen a [] st sigCount with
      ⟨_, _, h⟩ | ⟨v, rest', hr, _, _⟩ | ⟨v, rest', hr, _, _⟩ | ⟨ho, _⟩
    · exact h
    · exact absurd hr (by simp)
    · exact absurd hr (by simp)
    · exact absurd ha (by simp [ho])

/-- The command line `uqexpr --def a=1 --forloop` ends with status 12. -/
theorem check_validity_final_option_witness :
    final_option (["uqexpr".toList, "--def".toList, "a=1".toList, "--forloop".toList].drop 1) =
      some "--forloop".toList
    ∧ check_validity strtod_model (fun _ => false)
        ["uqexpr".toList, "--def".toList, "a=1".toList, "--forloop".toList]
        Settings.initial = Startup.exit 12
    ∧ check_validity_loop strtod_model (fun _ => false) ["--forloop".toList]
        Settings.initial 0 = Startup.exit 12 :=
  ⟨by decide,
   (check_validity_final_option strtod_model (fun _ => false)
      ["uqexpr".toList, "--def".toList, "a=1".toList, "--forloop".toList] "--forloop".toList
      (by decide) (by decide)).1.elim id
     (fun h => absurd h.1 (by
       have h1 := def_handler_a1
       simp only [String.toList] at h1 ⊢
       simp [check_validity, check_validity_loop, strcmp_eq_zero, def_, loop, sig, h1,
         Settings.initial, USAGE_CODE])),
   (check_validity_final_option strtod_model (fun _ => false)
      ["uqexpr".toList, "--def".toList, "a=1".toList, "--forloop".toList] "--forloop".toList
      (by decide) (by decide)).2 Settings.initial 0⟩

/-- C22 as stated fails for the command line `uqexpr --def bad --def`: the
last argument is `--def` in option position, and `check_validity` exits with
status 4 at the first `--def`, whose value `bad` is rejected. -/
theorem check_validity_final_option_after_rejected :
    final_option (["uqexpr".toList, "--def".toList, "bad".toList, "--def".toList].drop 1) =
      some "--def".toList
    ∧ is_option "--def".toList = true
    ∧ check_validity strtod_model (fun _ => false)
        ["uqexpr".toList, "--def".toList, "bad".toList, "--def".toList]
        Settings.initial = Startup.exit 4 := by
  refine ⟨by decide, by decide, by decide⟩

/-- C23 as amended: `check_validity` exits with status 12, or with status 4
when a `--def` or a `--forloop` of the command line has a value that its
handler rejects, or no argument in option position is other than the three
options and no file is recorded, or the first such argument is the last
argument, does not begin with `--`, and `check_validity` exits with status 19
when the file cannot be opened and else records the file (or exits with status
18 for a duplicate name).  The loop, on reaching an argument that is none of
the three options, exits with status 12 when the argument is not the last one
or begins with `--`, with status 19 when it cannot be opened, and else sets
`filePresent` to 1. -/
theorem check_validity_file_argument (strtod : Strtod) (fopen : CStr → Bool)
    (argv : List CStr) :
    (check_validity strtod fopen argv Settings.initial = Startup.exit 12
      ∨ (check_validity strtod fopen argv Settings.initial = Startup.exit 4
        ∧ ∃ pre opt v post, argv.drop 1 = pre ++ opt :: v :: post
            ∧ rejected_specification strtod opt v = true)
      ∨ (first_other (argv.drop 1) = none
        ∧ (check_validity strtod fopen argv Settings.initial = Startup.exit 18
          ∨ ∃ st, check_validity strtod fopen argv Settings.initial = Startup.ok st
              ∧ st.filePresent = 0))
      ∨ ∃ a, first_other (argv.drop 1) = some (a, []) ∧ a.take 2 ≠ "--".toList
          ∧ ((fopen a = false
              ∧ check_validity strtod fopen argv Settings.initial = Startup.exit 19)
            ∨ (fopen a = true
              ∧ (check_validity strtod fopen argv Settings.initial = Startup.exit 18
                ∨ ∃ st, check_validity strtod fopen argv Settings.initial = Startup.ok st
                    ∧ st.filePresent = 1))))
    ∧ ∀ (a : CStr) (rest : List CStr) (st : Settings) (sigCount : Int),
        is_option a = false →
        check_validity_loop strtod fopen (a :: rest) st sigCount =
          if rest ≠ [] ∨ a.take 2 = "--".toList then Startup.exit 12
          else if fopen a = false then Startup.exit 19
          else Startup.ok { st with filePresent := 1 } := by
  constructor
  · rcases check_validity_loop_first_other strtod fopen (argv.drop 1) Settings.initial 0 with
      h12 | h4 | ⟨hnone, st, hok, hfp⟩ | ⟨a, hsome, hb, ⟨hf, h19⟩ | ⟨hf, st, hok, hfp⟩⟩
    · exact Or.inl (check_validity_of_loop_exit strtod fopen argv _ _ h12)
    · exact Or.inr (Or.inl ⟨check_validity_of_loop_exit strtod fopen argv _ _ h4,
        check_validity_loop_exit_4 strtod fopen _ _ _ h4⟩)
    · refine Or.inr (Or.inr (Or.inl ⟨hnone, ?_⟩))
      rcases check_validity_of_loop_ok strtod fopen argv st hok with h18 | hst
      · exact Or.inl h18
      · exact Or.inr ⟨st, hst, hfp⟩
    · exact Or.inr (Or.inr (Or.inr ⟨a, hsome, hb, Or.inl
        ⟨hf, check_validity_of_loop_exit strtod fopen argv _ _ h19⟩⟩))
    · refine Or.inr (Or.inr (Or.inr ⟨a, hsome, hb, Or.inr ⟨hf, ?_⟩⟩))
      rcases check_validity_of_loop_ok strtod fopen argv st hok with h18 | hst
      · exact Or.inl h18
      · exact Or.inr ⟨st, hst, hfp⟩
  · intro a rest st sigCount ho
    rcases check_validity_loop_step strtod fopen a rest st sigCount with
      ⟨ho', _, _⟩ | ⟨v, rest', _, ha, _⟩ | ⟨v, rest', _, ha, _⟩ | ⟨_, h⟩
    · exact absurd ho' (by simp [ho])
    · exact absurd (is_option_of_spec a ha) (by simp [ho])
    · subst ha
      exact absurd ho (by decide)
    · exact h

/-- The loop on the one argument `in.txt`: status 19 when the file cannot be
opened, `filePresent` 1 when it can; on `in.txt` followed by another argument:
status 12. -/
theorem check_validity_file_argument_witness :
    check_validity_loop strtod_model (fun _ => false) ["in.txt".toList] Settings.initial 0 =
      Startup.exit 19
    ∧ check_validity_loop strtod_model (fun _ => true) ["in.txt".toList] Settings.initial 0 =
      Startup.ok { Settings.initial with filePresent := 1 }
    ∧ check_validity_loop strtod_model (fun _ => true) ["in.txt".toList, "x".toList]
        Settings.initial 0 = Startup.exit 12 :=
  ⟨((check_validity_file_argument strtod_model (fun _ => false) []).2 "in.txt".toList []
      Settings.initial 0 (by decide)).trans (by decide),
   ((check_validity_file_argument strtod_model (fun _ => true) []).2 "in.txt".toList []
      Settings.initial 0 (by decide)).trans (by decide),
   ((check_validity_file_argument strtod_model (fun _ => true) []).2 "in.txt".toList
      ["x".toList] Settings.initial 0 (by decide)).trans (by decide)⟩

/-- C23 as stated fails for the command line `uqexpr --def bad x y` with files
that can be opened: `x` is in option position, is none of the three options and
is not the last argument, and `check_validity` exits with status 4 at
`--def bad`, not with status 12. -/
theorem check_validity_file_after_rejected :
    first_other (["uqexpr".toList, "--def".toList, "bad".toList, "x".toList,
        "y".toList].drop 1) = some ("x".toList, ["y".toList])
    ∧ is_option "x".toList = false
    ∧ check_validity strtod_model (fun _ => true)
        ["uqexpr".toList, "--def".toList, "bad".toList, "x".toList, "y".toList]
        Settings.initial = Startup.exit 4 := by
  refine ⟨by decide, by decide, by decide⟩

/-! ## The validator of numbers: the texts that reach it -/

/-- C6: `unique_name_check` returns 1 if and only if no two names of the list
of the scalar names followed by the loop names are equal, and 0 otherwise, in
every environment whose names have at most 20 characters each; and every
environment that reaches the function has such names: the function is called
once, at the end of `check_validity`, on the environment that the loop over the
arguments has filled from the empty one. -/
theorem unique_name_check_spec :
    (∀ env : Environment, (∀ n ∈ env.names, n.length ≤ 20) →
      (unique_name_check env = some 1 ↔ env.names.Nodup)
      ∧ (unique_name_check env = some 0 ↔ ¬ env.names.Nodup)
      ∧ env.names = env.defs.map (fun d => d.name) ++ env.loops.map (fun l => l.name))
    ∧ (∀ (strtod : Strtod) (fopen : CStr → Bool) (argv : List CStr) (st : Settings),
        check_validity_loop strtod fopen (argv.drop 1) Settings.initial 0 = Startup.ok st →
        (∀ n ∈ st.env.names, n.length ≤ 20)
        ∧ (unique_name_check st.env = some 1 ↔ st.env.names.Nodup)
        ∧ (unique_name_check st.env = some 0 ↔ ¬ st.env.names.Nodup)) := by
  refine ⟨unique_name_check_of_short_names, ?_⟩
  intro strtod fopen argv st h
  have hfit : ∀ n ∈ st.env.names, n.length ≤ 20 := by
    rcases check_validity_loop_cases strtod fopen (argv.drop 1).length (argv.drop 1)
      Settings.initial 0 (le_refl _) with ⟨c, hc, -⟩ | ⟨st', hst, -, hlen⟩
    · rw [h] at hc
      exact absurd hc (by simp)
    · rw [h] at hst
      simp only [Startup.ok.injEq] at hst
      subst hst
      intro n hn
      rcases hlen n hn with h0 | h20
      · exact absurd h0 (by simp [Settings.initial, Environment.names])
      · exact h20
  have := unique_name_check_of_short_names st.env hfit
  exact ⟨hfit, this.1, this.2.1⟩

/-- The command line `uqexpr --def a=1 --forloop a,1,1,5`: the loop over the
arguments ends with the scalar `a` and the loop variable `a`, and
`unique_name_check` returns 0 on this environment. -/
theorem unique_name_check_spec_witness :
    check_validity_loop strtod_model (fun _ => false)
      (["uqexpr".toList, "--def".toList, "a=1".toList, "--forloop".toList,
        "a,1,1,5".toList].drop 1) Settings.initial 0 =
      Startup.ok
        { env := { defs := [{ name := "a".toList, value := Double.fin 1 }],
                   loops := [{ name := "a".toList, start := Double.fin 1,
                               increment := Double.fin 1, end_ := Double.fin 5 }] },
          sigFigures := 3, filePresent := 0 }
    ∧ unique_name_check
        { defs := [{ name := "a".toList, value := Double.fin 1 }],
          loops := [{ name := "a".toList, start := Double.fin 1,
                      increment := Double.fin 1, end_ := Double.fin 5 }] } = some 0 :=
  have h : check_validity_loop strtod_model (fun _ => false)
      (["uqexpr".toList, "--def".toList, "a=1".toList, "--forloop".toList,
        "a,1,1,5".toList].drop 1) Settings.initial 0 =
      Startup.ok
        { env := { defs := [{ name := "a".toList, value := Double.fin 1 }],
                   loops := [{ name := "a".toList, start := Double.fin 1,
                               increment := Double.fin 1, end_ := Double.fin 5 }] },
          sigFigures := 3, filePresent := 0 } := by
    have h1 := def_handler_a1
    have h2 := loop_handler_a115
    simp only [String.toList] at h1 h2 ⊢
    simp [check_validity_loop, strcmp_eq_zero, def_, loop, sig, h1, h2, Settings.initial,
      DEFAULT_SIG_FIGURES]
  ⟨h, (unique_name_check_spec.2 strtod_model (fun _ => false) _ _ h).2.2.mpr (by decide)⟩

theorem ne_print_of_count (line : CStr) (hc : ((normalized line).drop 1).count '=' = 1) :
    line ≠ print := by
  intro e
  rw [e, normalized_print] at hc
  exact absurd hc (by decide)

/-- C17 fails on the assignment lines that have no right-hand token, such as
`a=`.  On every line that `line_handler` sends to `assignment_handler` (the
stripped line is not empty, is no comment, and has one `=` from index 1 on):
when the token loop finds the two tokens `name` and `expr` the line is handled
as the claim says, with the echo and the environment of `handle_new_variable`
for a value that is not NaN and a valid name, and the error message, once, and
the old environment otherwise; when it finds fewer than two tokens,
`tokens[1]` is `NULL`, the call of `tiny_expr` on it is undefined behaviour,
and neither the echo nor the error message is printed.  The stripped line
`name=` is such a line. -/
theorem line_handler_assignment_line (te : Evaluator) (line : CStr) (env : Environment)
    (sigFigures : Int)
    (h1 : normalized line ≠ []) (h2 : (normalized line).head? ≠ some '#')
    (hc : ((normalized line).drop 1).count '=' = 1) :
    (∀ (name expr : CStr) (value : Double),
      token_loop '=' ASSIGNMENT_TOKEN_SIZE (normalized line) = [name, expr] →
      tiny_expr te (some expr) env.defs = some value →
      (value.isnan = false → valid_variable_name name = 1 →
        line_handler te line env sigFigures =
          some (handle_new_variable env name value sigFigures)
        ∧ (handle_new_variable env name value sigFigures).2 =
            [Output.scalar sigFigures name value]
        ∧ (name ∈ env.loops.map (fun l => l.name) →
            line_handler te line env sigFigures =
              some (env, [Output.scalar sigFigures name value])))
      ∧ (value.isnan = true ∨ valid_variable_name name = 0 →
        line_handler te line env sigFigures = some (env, [Output.stderr runningError]))
      ∧ line_handler_requests line env =
          [{ expression := some expr,
             teVars := env.defs.map (fun d => { name := d.name, value := d.value }) }])
    ∧ ((token_loop '=' ASSIGNMENT_TOKEN_SIZE (normalized line)).length < 2 →
        token (token_array ASSIGNMENT_TOKEN_SIZE
          (token_loop '=' ASSIGNMENT_TOKEN_SIZE (normalized line))) 1 = none
        ∧ line_handler te line env sigFigures = none)
    ∧ (token_loop '=' ASSIGNMENT_TOKEN_SIZE (normalized line)).length ≤ 2
    ∧ (∀ name : CStr, name ≠ [] → '=' ∉ name → normalized line = name ++ ['='] →
        token_loop '=' ASSIGNMENT_TOKEN_SIZE (normalized line) = [name]) := by
  have h3 := ne_print_of_count line hc
  refine ⟨?_, ?_, token_loop_length_le _ _ _, ?_⟩
  · intro name expr value ht hvalue
    have h := line_handler_assignment te line env sigFigures name expr h1 h2 h3 hc ht
    have hl := h.2 value hvalue
    refine ⟨?_, ?_, ?_⟩
    · intro hnan hvalid
      have hres : line_handler te line env sigFigures =
          some (handle_new_variable env name value sigFigures) := by
        rw [hl]
        simp [hnan, hvalid]
      refine ⟨hres, handle_new_variable_out env name value sigFigures, ?_⟩
      intro hloop
      rw [hres]
      have e1 := handle_new_variable_loop env name value sigFigures hloop
      have e2 := handle_new_variable_out env name value sigFigures
      rw [Option.some.injEq]
      exact Prod.ext e1 e2
    · rintro (hnan | hinvalid)
      · rw [hl]; simp [hnan]
      · rw [hl]
        by_cases hnan : value.isnan = true
        · simp [hnan]
        · simp [hnan, hinvalid]
    · rw [h.1]; rfl
  · intro hlen
    have htok : token (token_array ASSIGNMENT_TOKEN_SIZE
        (token_loop '=' ASSIGNMENT_TOKEN_SIZE (normalized line))) 1 = none := by
      rw [token_token_array]
      exact List.getElem?_eq_none (by omega)
    refine ⟨htok, ?_⟩
    rw [((line_handler_dispatch te line env sigFigures h1 h2 h3).2.2.2 hc).1]
    unfold assignment_handler
    simp only [htok, tiny_expr]
  · intro name hname hn hshape
    rw [hshape, token_loop_fields, split_fields_append _ _ _ hn]
    simp [split_fields, hname, ASSIGNMENT_TOKEN_SIZE]

/-- The line `a=` is sent to `assignment_handler`, the token loop finds the one
token `a`, and the run has no defined result, whatever the evaluator; the line
`x = 2+2`, with an evaluator that gives 4, prints `x = 4` and adds the scalar
`x`. -/
theorem line_handler_assignment_line_witness :
    line_handler (fun _ _ => none) "a=".toList { defs := [], loops := [] } 3 = none
    ∧ line_handler (fun _ _ => some (Double.fin 4)) "a=".toList { defs := [], loops := [] } 3
        = none
    ∧ token_loop '=' ASSIGNMENT_TOKEN_SIZE (normalized "a=".toList) = ["a".toList]
    ∧ line_handler (fun _ _ => some (Double.fin 4)) "x = 2+2".toList
        { defs := [], loops := [] } 3 =
      some (handle_new_variable { defs := [], loops := [] } "x".toList (Double.fin 4) 3) :=
  ⟨((line_handler_assignment_line (fun _ _ => none) "a=".toList { defs := [], loops := [] } 3
      (by decide) (by decide) (by decide)).2.1 (by decide)).2,
   ((line_handler_assignment_line (fun _ _ => some (Double.fin 4)) "a=".toList
      { defs := [], loops := [] } 3 (by decide) (by decide) (by decide)).2.1 (by decide)).2,
   (line_handler_assignment_line (fun _ _ => none) "a=".toList { defs := [], loops := [] } 3
      (by decide) (by decide) (by decide)).2.2.2 "a".toList (by decide) (by decide) (by decide),
   ((line_handler_assignment_line (fun _ _ => some (Double.fin 4)) "x = 2+2".toList
      { defs := [], loops := [] } 3 (by decide) (by decide) (by decide)).1
      "x".toList "2+2".toList (Double.fin 4) (by decide) rfl).1 rfl (by decide) |>.1⟩

end Uqexpr
